import Mathlib

/-!
# pperfquery: saturating aggregation, bounded result buffer, retry loop,
# per-node pipeline and wave scheduler

Shallow embedding of `infiniband-diags/pperfquery.c`.

* machine integers are `Nat` / `Int`; the wrapping `uint32_t` / `uint64_t`
  addition is written with an explicit `% 2 ^ w`;
* a `char` buffer is a `List Char`; the terminator is `NUL`;
* the transport library, `ctime`, `portid2str` and the dump routines of
  libibmad are outside the file: their answers are fields of `Env`;
* ghost fields (`trace`, `visited`, `offs`, `terminal`) record what the C code
  does without storing it.
-/

namespace Pperfquery

/-! ## Constants of the source -/

/-- Source: `#define MAX_GUIDS 1000`. -/
def MAX_GUIDS : Nat := 1000

/-- Source: `#define MAX_OUTPUT_SIZE 8192`. -/
def MAX_OUTPUT_SIZE : Int := 8192

/-- Range of `uint32_t`. -/
def UINT32_MOD : Nat := 2 ^ 32

/-- Range of `uint64_t`. -/
def UINT64_MOD : Nat := 2 ^ 64

/-! ## SaturatingAggregator (`aggregate_<w>bit`)

`dest` is the value behind the pointer before the call, the result is the
value behind it after the call. -/

/-- Source `aggregate_4bit`: `sum = *dest + val` in `uint32_t`,
`*dest = (sum > 0xF || sum < *dest) ? 0xF : sum`. -/
def aggregate_4bit (dest val : Nat) : Nat :=
  let sum := (dest + val) % UINT32_MOD
  if sum > 0xF ∨ sum < dest then 0xF else sum

/-- Source `aggregate_8bit`: `*dest = (sum > 0xFF || sum < *dest) ? 0xFF : sum`. -/
def aggregate_8bit (dest val : Nat) : Nat :=
  let sum := (dest + val) % UINT32_MOD
  if sum > 0xFF ∨ sum < dest then 0xFF else sum

/-- Source `aggregate_16bit`: `*dest = (sum > 0xFFFF || sum < *dest) ? 0xFFFF : sum`. -/
def aggregate_16bit (dest val : Nat) : Nat :=
  let sum := (dest + val) % UINT32_MOD
  if sum > 0xFFFF ∨ sum < dest then 0xFFFF else sum

/-- Source `aggregate_32bit`: `*dest = (sum < *dest) ? 0xFFFFFFFFu : sum`. -/
def aggregate_32bit (dest val : Nat) : Nat :=
  let sum := (dest + val) % UINT32_MOD
  if sum < dest then 0xFFFFFFFF else sum

/-- Source `aggregate_64bit`: `sum = *dest + val` in `uint64_t`,
`*dest = (sum < *dest) ? 0xFFFFFFFFFFFFFFFFULL : sum`. -/
def aggregate_64bit (dest val : Nat) : Nat :=
  let sum := (dest + val) % UINT64_MOD
  if sum < dest then 0xFFFFFFFFFFFFFFFF else sum

/-! ## C strings in a `char` buffer -/

/-- The terminator `'\0'`. -/
def NUL : Char := Char.ofNat 0

/-- The C string a `char *` points to: the bytes before the first `NUL`
(what `%s` prints). -/
def cstr (p : List Char) : List Char := p.takeWhile (fun c => c != NUL)

/-- Source call `strlen(p)`. -/
def strlen (p : List Char) : Int := ((cstr p).length : Int)

/-- Store `bytes` into `mem` from index `pos` on. -/
def poke (mem : List Char) (pos : Nat) (bytes : List Char) : List Char :=
  mem.take pos ++ bytes ++ mem.drop (pos + bytes.length)

/-- Libc `vsnprintf(dst + pos, size, fmt, ap)` where `s` is the fully formatted
text: at most `size - 1` bytes of `s` and a terminator are stored (nothing when
`size <= 0`), and the length of the whole of `s` is returned. -/
def vsnprintf (dst : List Char) (pos : Nat) (size : Int) (s : List Char) : List Char × Int :=
  if size ≤ 0 then (dst, (s.length : Int))
  else (poke dst pos (s.take (size - 1).toNat ++ [NUL]), (s.length : Int))

/-- Libc `snprintf(dst, size, fmt, ...)`, the same at offset 0. -/
def snprintf (dst : List Char) (size : Int) (s : List Char) : List Char × Int :=
  vsnprintf dst 0 size s

/-- Libc `strncpy(dst, src, n)` with `src` given by its string: the string, cut at `n` bytes and padded
with `NUL` up to `n` bytes, is stored at the start of `dst`. -/
def strncpy (dst src : List Char) (n : Nat) : List Char :=
  poke dst 0 (src.take n ++ List.replicate (n - src.length) NUL)

/-- Source `appendf(dst, cap, poff, fmt, ...)` with `off = *poff` and `s` the formatted
text. Returns the return value, the new `*poff` and the new buffer.

```
if (*poff >= cap) return -1;
int n = vsnprintf(dst + *poff, cap - *poff, fmt, ap);
if (n < 0) return -1;
if (*poff + n >= cap) { *poff = cap; return -1; }
*poff += n;
return 0;
``` -/
def appendf (dst : List Char) (cap : Int) (off : Int) (s : List Char) : Int × Int × List Char :=
  if off ≥ cap then (-1, off, dst)
  else
    let r := vsnprintf dst off.toNat (cap - off) s
    let n := r.2
    if n < 0 then (-1, off, r.1)
    else if off + n ≥ cap then (-1, cap, r.1)
    else (0, off + n, r.1)

/-! ## printf conversions -/

/-- Conversion `%d`. -/
def fmt_d (x : Int) : List Char :=
  if x < 0 then '-' :: Nat.toDigits 10 x.natAbs else Nat.toDigits 10 x.natAbs

/-- Left padding with `'0'` up to `width` characters. -/
def zero_pad (width : Nat) (l : List Char) : List Char :=
  List.replicate (width - l.length) '0' ++ l

/-- Conversion `%016llx` (`PRIx64` with width 16 and zero padding). -/
def fmt_016x (x : Nat) : List Char := zero_pad 16 (Nat.toDigits 16 x)

/-- Conversion `%02X`. -/
def fmt_02X (x : Nat) : List Char := zero_pad 2 ((Nat.toDigits 16 x).map Char.toUpper)

/-- Conversion `%s`: the bytes up to the terminator. -/
def fmt_s (p : List Char) : List Char := cstr p

/-! ## What the worker sees of libibmad and libc -/

/-- Constants and the byte-order helper that the source takes from `mad.h` and
`netinet/in.h`; they are parameters of the model. -/
structure Mad where
  IB_NODE_SWITCH : Nat
  IB_PM_EXT_WIDTH_SUPPORTED : Nat
  IB_PM_EXT_WIDTH_NOIETF_SUP : Nat
  IB_PM_PC_XMIT_WAIT_SUP : Nat
  IB_PM_IS_ADDL_PORT_CTRS_EXT_SUP : Nat
  ntohs : Nat → Nat

/-- One transport call under `rpc_mutex`. -/
inductive Call where
  | resolve
  | node_info
  | switch_info
  | class_port_info
  | port_counters (port : Nat)
  | port_counters_ext (port : Nat)
  deriving DecidableEq, Repr

/-- The answers one worker gets from outside the file.

* `rpc_ok k`: does the `k`-th transport call of this worker (counted from 0, in
  program order) succeed;
* `node_type`, `num_ports`: `IB_NODE_TYPE_F` and `IB_NODE_NPORTS_F` of the
  node-info record; `enhancedport0`: `IB_SW_ENHANCED_PORT0_F` of the
  switch-info record; `cap_mask`, `cap_mask2`: the two masks read from the
  class-port-info record (lines 489-492);
* `portid2str`, `ctime`: the strings these functions return;
* `mad_dump_perfcounters port cleared`: what `mad_dump_perfcounters` leaves in
  `dump` for the record of `port` (`cleared`: the transmit-wait field was
  zeroed first);
* `mad_dump_fields port range size`: what the `range`-th `mad_dump_fields`
  call of `dump_perfcounters_ext` stores, given `size` bytes of room. -/
structure Env where
  rpc_ok : Nat → Bool
  node_type : Nat
  num_ports : Nat
  enhancedport0 : Nat
  cap_mask : Nat
  cap_mask2 : Nat
  portid2str : List Char
  ctime : List Char
  mad_dump_perfcounters : Nat → Bool → List Char
  mad_dump_fields : Nat → Nat → Int → List Char

/-- Source `thread_data_t`. -/
structure thread_data_t where
  thread_id : Int
  guid : Nat
  output_buffer : List Char
  output_size : Int
  extended : Int
  timeout : Int
  verbose : Int
  deriving Inhabited

/-- The `return` statement a run of `query_guid_thread` leaves through (ghost). -/
inductive Terminal where
  | failed_resolve
  | failed_node_info
  | invalid_ports
  | failed_switch_info
  | failed_class_info
  | done
  deriving DecidableEq, Repr

/-- What a run of `query_guid_thread` leaves behind: the thread data, and as
ghost state the transport calls made (in order), the terminal state, the values
of `i` for which the body of the port loop was entered, the value of `off`
after each `appendf` call, and whether the port loop was left through `break`. -/
structure Run where
  td : thread_data_t
  trace : List Call
  terminal : Terminal
  visited : List Nat
  offs : List Int
  broke : Bool

/-! ## Per-thread aggregation (`aggregate_perfcounters`, `aggregate_perfcounters_ext`) -/

/-- Source `perf_count_t`. -/
structure perf_count_t where
  portselect : Nat
  counterselect : Nat
  symbolerrors : Nat
  linkrecovers : Nat
  linkdowned : Nat
  rcverrors : Nat
  rcvremotephyerrors : Nat
  rcvswrelayerrors : Nat
  xmtdiscards : Nat
  xmtconstrainterrors : Nat
  rcvconstrainterrors : Nat
  linkintegrityerrors : Nat
  excbufoverrunerrors : Nat
  qp1dropped : Nat
  vl15dropped : Nat
  xmtdata : Nat
  rcvdata : Nat
  xmtpkts : Nat
  rcvpkts : Nat
  xmtwait : Nat
  deriving DecidableEq, Repr

/-- The fields of a `PortCounters` record that `aggregate_perfcounters` decodes,
under the names of the `mad.h` constants. -/
inductive pc_field where
  | IB_PC_PORT_SELECT_F
  | IB_PC_COUNTER_SELECT_F
  | IB_PC_ERR_SYM_F
  | IB_PC_LINK_RECOVERS_F
  | IB_PC_LINK_DOWNED_F
  | IB_PC_ERR_RCV_F
  | IB_PC_ERR_PHYSRCV_F
  | IB_PC_ERR_SWITCH_REL_F
  | IB_PC_XMT_DISCARDS_F
  | IB_PC_ERR_XMTCONSTR_F
  | IB_PC_ERR_RCVCONSTR_F
  | IB_PC_ERR_LOCALINTEG_F
  | IB_PC_ERR_EXCESS_OVR_F
  | IB_PC_QP1_DROP_F
  | IB_PC_VL15_DROPPED_F
  | IB_PC_XMT_BYTES_F
  | IB_PC_RCV_BYTES_F
  | IB_PC_XMT_PKTS_F
  | IB_PC_RCV_PKTS_F
  | IB_PC_XMT_WAIT_F
  deriving DecidableEq, Repr

/-- Source `aggregate_perfcounters`; `pc fld` is the value that
`mad_decode_field(pc, fld, &val)` stores in `val`. -/
def aggregate_perfcounters (pc : pc_field → Nat) (acc : perf_count_t) : perf_count_t :=
  { portselect := pc .IB_PC_PORT_SELECT_F,
    counterselect := pc .IB_PC_COUNTER_SELECT_F,
    symbolerrors := aggregate_16bit acc.symbolerrors (pc .IB_PC_ERR_SYM_F),
    linkrecovers := aggregate_8bit acc.linkrecovers (pc .IB_PC_LINK_RECOVERS_F),
    linkdowned := aggregate_8bit acc.linkdowned (pc .IB_PC_LINK_DOWNED_F),
    rcverrors := aggregate_16bit acc.rcverrors (pc .IB_PC_ERR_RCV_F),
    rcvremotephyerrors := aggregate_16bit acc.rcvremotephyerrors (pc .IB_PC_ERR_PHYSRCV_F),
    rcvswrelayerrors := aggregate_16bit acc.rcvswrelayerrors (pc .IB_PC_ERR_SWITCH_REL_F),
    xmtdiscards := aggregate_16bit acc.xmtdiscards (pc .IB_PC_XMT_DISCARDS_F),
    xmtconstrainterrors := aggregate_8bit acc.xmtconstrainterrors (pc .IB_PC_ERR_XMTCONSTR_F),
    rcvconstrainterrors := aggregate_8bit acc.rcvconstrainterrors (pc .IB_PC_ERR_RCVCONSTR_F),
    linkintegrityerrors := aggregate_4bit acc.linkintegrityerrors (pc .IB_PC_ERR_LOCALINTEG_F),
    excbufoverrunerrors := aggregate_4bit acc.excbufoverrunerrors (pc .IB_PC_ERR_EXCESS_OVR_F),
    qp1dropped := aggregate_16bit acc.qp1dropped (pc .IB_PC_QP1_DROP_F),
    vl15dropped := aggregate_16bit acc.vl15dropped (pc .IB_PC_VL15_DROPPED_F),
    xmtdata := aggregate_32bit acc.xmtdata (pc .IB_PC_XMT_BYTES_F),
    rcvdata := aggregate_32bit acc.rcvdata (pc .IB_PC_RCV_BYTES_F),
    xmtpkts := aggregate_32bit acc.xmtpkts (pc .IB_PC_XMT_PKTS_F),
    rcvpkts := aggregate_32bit acc.rcvpkts (pc .IB_PC_RCV_PKTS_F),
    xmtwait := aggregate_32bit acc.xmtwait (pc .IB_PC_XMT_WAIT_F) }

/-- Source `perf_count_ext_t`. -/
structure perf_count_ext_t where
  portselect : Nat
  counterselect : Nat
  portxmitdata : Nat
  portrcvdata : Nat
  portxmitpkts : Nat
  portrcvpkts : Nat
  portunicastxmitpkts : Nat
  portunicastrcvpkts : Nat
  portmulticastxmitpkits : Nat
  portmulticastrcvpkts : Nat
  counterSelect2 : Nat
  symbolErrorCounter : Nat
  linkErrorRecoveryCounter : Nat
  linkDownedCounter : Nat
  portRcvErrors : Nat
  portRcvRemotePhysicalErrors : Nat
  portRcvSwitchRelayErrors : Nat
  portXmitDiscards : Nat
  portXmitConstraintErrors : Nat
  portRcvConstraintErrors : Nat
  localLinkIntegrityErrors : Nat
  excessiveBufferOverrunErrors : Nat
  VL15Dropped : Nat
  portXmitWait : Nat
  QP1Dropped : Nat
  deriving DecidableEq, Repr

/-- The fields of a `PortCountersExtended` record that
`aggregate_perfcounters_ext` decodes, under the names of the `mad.h` constants. -/
inductive pc_ext_field where
  | IB_PC_EXT_PORT_SELECT_F
  | IB_PC_EXT_COUNTER_SELECT_F
  | IB_PC_EXT_XMT_BYTES_F
  | IB_PC_EXT_RCV_BYTES_F
  | IB_PC_EXT_XMT_PKTS_F
  | IB_PC_EXT_RCV_PKTS_F
  | IB_PC_EXT_XMT_UPKTS_F
  | IB_PC_EXT_RCV_UPKTS_F
  | IB_PC_EXT_XMT_MPKTS_F
  | IB_PC_EXT_RCV_MPKTS_F
  | IB_PC_EXT_COUNTER_SELECT2_F
  | IB_PC_EXT_ERR_SYM_F
  | IB_PC_EXT_LINK_RECOVERS_F
  | IB_PC_EXT_LINK_DOWNED_F
  | IB_PC_EXT_ERR_RCV_F
  | IB_PC_EXT_ERR_PHYSRCV_F
  | IB_PC_EXT_ERR_SWITCH_REL_F
  | IB_PC_EXT_XMT_DISCARDS_F
  | IB_PC_EXT_ERR_XMTCONSTR_F
  | IB_PC_EXT_ERR_RCVCONSTR_F
  | IB_PC_EXT_ERR_LOCALINTEG_F
  | IB_PC_EXT_ERR_EXCESS_OVR_F
  | IB_PC_EXT_VL15_DROPPED_F
  | IB_PC_EXT_XMT_WAIT_F
  | IB_PC_EXT_QP1_DROP_F
  deriving DecidableEq, Repr

/-- Lines 251-262 of `aggregate_perfcounters_ext`: the two select fields and the
four base counters. -/
def aggregate_ext_base (pc : pc_ext_field → Nat) (acc : perf_count_ext_t) :
    perf_count_ext_t :=
  { acc with
    portselect := pc .IB_PC_EXT_PORT_SELECT_F,
    counterselect := pc .IB_PC_EXT_COUNTER_SELECT_F,
    portxmitdata := aggregate_64bit acc.portxmitdata (pc .IB_PC_EXT_XMT_BYTES_F),
    portrcvdata := aggregate_64bit acc.portrcvdata (pc .IB_PC_EXT_RCV_BYTES_F),
    portxmitpkts := aggregate_64bit acc.portxmitpkts (pc .IB_PC_EXT_XMT_PKTS_F),
    portrcvpkts := aggregate_64bit acc.portrcvpkts (pc .IB_PC_EXT_RCV_PKTS_F) }

/-- Lines 265-272: the unicast and multicast packet counters. -/
def aggregate_ext_quartet (pc : pc_ext_field → Nat) (acc : perf_count_ext_t) :
    perf_count_ext_t :=
  { acc with
    portunicastxmitpkts := aggregate_64bit acc.portunicastxmitpkts (pc .IB_PC_EXT_XMT_UPKTS_F),
    portunicastrcvpkts := aggregate_64bit acc.portunicastrcvpkts (pc .IB_PC_EXT_RCV_UPKTS_F),
    portmulticastxmitpkits := aggregate_64bit acc.portmulticastxmitpkits (pc .IB_PC_EXT_XMT_MPKTS_F),
    portmulticastrcvpkts := aggregate_64bit acc.portmulticastrcvpkts (pc .IB_PC_EXT_RCV_MPKTS_F) }

/-- Lines 276-305: `counterSelect2` and the error and drop counters. -/
def aggregate_ext_errors (pc : pc_ext_field → Nat) (acc : perf_count_ext_t) :
    perf_count_ext_t :=
  { acc with
    counterSelect2 := pc .IB_PC_EXT_COUNTER_SELECT2_F,
    symbolErrorCounter := aggregate_64bit acc.symbolErrorCounter (pc .IB_PC_EXT_ERR_SYM_F),
    linkErrorRecoveryCounter := aggregate_64bit acc.linkErrorRecoveryCounter (pc .IB_PC_EXT_LINK_RECOVERS_F),
    linkDownedCounter := aggregate_64bit acc.linkDownedCounter (pc .IB_PC_EXT_LINK_DOWNED_F),
    portRcvErrors := aggregate_64bit acc.portRcvErrors (pc .IB_PC_EXT_ERR_RCV_F),
    portRcvRemotePhysicalErrors := aggregate_64bit acc.portRcvRemotePhysicalErrors (pc .IB_PC_EXT_ERR_PHYSRCV_F),
    portRcvSwitchRelayErrors := aggregate_64bit acc.portRcvSwitchRelayErrors (pc .IB_PC_EXT_ERR_SWITCH_REL_F),
    portXmitDiscards := aggregate_64bit acc.portXmitDiscards (pc .IB_PC_EXT_XMT_DISCARDS_F),
    portXmitConstraintErrors := aggregate_64bit acc.portXmitConstraintErrors (pc .IB_PC_EXT_ERR_XMTCONSTR_F),
    portRcvConstraintErrors := aggregate_64bit acc.portRcvConstraintErrors (pc .IB_PC_EXT_ERR_RCVCONSTR_F),
    localLinkIntegrityErrors := aggregate_64bit acc.localLinkIntegrityErrors (pc .IB_PC_EXT_ERR_LOCALINTEG_F),
    excessiveBufferOverrunErrors := aggregate_64bit acc.excessiveBufferOverrunErrors (pc .IB_PC_EXT_ERR_EXCESS_OVR_F),
    VL15Dropped := aggregate_64bit acc.VL15Dropped (pc .IB_PC_EXT_VL15_DROPPED_F),
    portXmitWait := aggregate_64bit acc.portXmitWait (pc .IB_PC_EXT_XMT_WAIT_F),
    QP1Dropped := aggregate_64bit acc.QP1Dropped (pc .IB_PC_EXT_QP1_DROP_F) }

/-- Source `aggregate_perfcounters_ext`: the base part, then the quartet `if
(cap_mask & IB_PM_EXT_WIDTH_SUPPORTED)`, then the error block `if (cap_mask2 &
IB_PM_IS_ADDL_PORT_CTRS_EXT_SUP)`. -/
def aggregate_perfcounters_ext (M : Mad) (cap_mask cap_mask2 : Nat)
    (pc : pc_ext_field → Nat) (acc : perf_count_ext_t) : perf_count_ext_t :=
  let acc1 := aggregate_ext_base pc acc
  let acc2 :=
    if cap_mask &&& M.IB_PM_EXT_WIDTH_SUPPORTED ≠ 0 then aggregate_ext_quartet pc acc1
    else acc1
  if cap_mask2 &&& M.IB_PM_IS_ADDL_PORT_CTRS_EXT_SUP ≠ 0 then aggregate_ext_errors pc acc2
  else acc2

/-! ## RetryPolicy -/

/-- The retry loop, the same text around each of the six transport calls:

```
ok = 0;
for (attempts = 0; attempts < 3 && !ok; ++attempts) {
    lock; rc = call; unlock;
    ok = (call succeeded);
    if (!ok) usleep(100000);
}
```

The state is `(attempts, ok, trace)`; the outcome of a call is `rpc_ok` at the
number of calls made before it. The first argument bounds the number of
iterations; the loop is entered with 3. -/
def retry_loop (rpc_ok : Nat → Bool) (c : Call) :
    Nat → Nat → Bool → List Call → Nat × Bool × List Call
  | 0, attempts, ok, tr => (attempts, ok, tr)
  | fuel + 1, attempts, ok, tr =>
    if attempts < 3 ∧ ok = false then
      retry_loop rpc_ok c fuel (attempts + 1) (rpc_ok tr.length) (tr ++ [c])
    else (attempts, ok, tr)

/-- The loop as the source enters it: `ok = 0`, `attempts = 0`. -/
def with_retry (rpc_ok : Nat → Bool) (c : Call) (tr : List Call) : Nat × Bool × List Call :=
  retry_loop rpc_ok c 3 0 false tr

/-! ## NodeQueryPipeline (`query_guid_thread`) -/

/-- The text of a failure diagnostic,
`"# Thread %d<what>0x%016llx at %s"` with `thread_id`, `guid` and
`ctime(&timestamp)`; `what` is the part of the format that differs between the
five failure exits. -/
def diagnostic (what : List Char) (td : thread_data_t) (env : Env) : List Char :=
  "# Thread ".toList ++ fmt_d td.thread_id ++ what ++ "0x".toList ++ fmt_016x td.guid
    ++ " at ".toList ++ fmt_s env.ctime

/-- A failure exit:
`td->output_size = snprintf(td->output_buffer, MAX_OUTPUT_SIZE, ...); return NULL;`. -/
def fail_with (what : List Char) (t : Terminal) (td : thread_data_t) (env : Env)
    (tr : List Call) : Run :=
  let r := snprintf td.output_buffer MAX_OUTPUT_SIZE (diagnostic what td env)
  { td := { td with output_buffer := r.1, output_size := r.2 },
    trace := tr, terminal := t, visited := [], offs := [], broke := false }

/-- The text formatted into `header` (line 496),
`"# Thread %d: Querying GUID 0x%016llx with %d ports at %s"`. -/
def header_text (td : thread_data_t) (env : Env) : List Char :=
  "# Thread ".toList ++ fmt_d td.thread_id ++ ": Querying GUID 0x".toList
    ++ fmt_016x td.guid ++ " with ".toList ++ fmt_d (env.num_ports : Int)
    ++ " ports at ".toList ++ fmt_s env.ctime

/-- The string in `header` after `snprintf(header, sizeof(header), ...)` with
`char header[256]`. -/
def header_line (td : thread_data_t) (env : Env) : List Char :=
  (header_text td env).take 255

/-- The text of one port block (line 555),
`"# Port counters: %s port %d (CapMask: 0x%02X)\n%s"` with `portid2str(&portid)`,
`i`, `ntohs(cap_mask)` and `dump`. -/
def port_block (M : Mad) (env : Env) (cap_mask : Nat) (i : Nat) (dump : List Char) :
    List Char :=
  "# Port counters: ".toList ++ fmt_s env.portid2str ++ " port ".toList
    ++ fmt_d (i : Int) ++ " (CapMask: 0x".toList ++ fmt_02X (M.ntohs cap_mask)
    ++ ")\n".toList ++ fmt_s dump

/-- Source `dump_perfcounters_ext`; the result is the string left in `buf`
(zero-filled before the call). -/
def dump_perfcounters_ext (M : Mad) (env : Env) (port : Nat) (size : Int)
    (cap_mask cap_mask2 : Nat) : List Char :=
  let buf := cstr (env.mad_dump_fields port 0 size)
  let offset : Int := buf.length
  let buf :=
    if cap_mask &&& M.IB_PM_EXT_WIDTH_SUPPORTED ≠ 0 then
      buf ++ cstr (env.mad_dump_fields port 1 (size - offset))
    else buf
  let offset : Int := buf.length
  if cap_mask2 &&& M.IB_PM_IS_ADDL_PORT_CTRS_EXT_SUP ≠ 0 then
    buf ++ cstr (env.mad_dump_fields port 2 (size - offset))
  else buf

/-- The variables the port loop changes: `td->output_buffer`, `off`, and the
ghost state. -/
structure LoopState where
  buf : List Char
  off : Int
  trace : List Call
  visited : List Nat
  offs : List Int
  broke : Bool

/-- Lines 553-560: append the block of port `i` when `dump` is not empty. The
boolean is true when the loop is left through `break`. -/
def emit (M : Mad) (env : Env) (cap_mask : Nat) (i : Nat) (dump : List Char)
    (st : LoopState) : Bool × LoopState :=
  if dump ≠ [] then
    let r := appendf st.buf MAX_OUTPUT_SIZE st.off (port_block M env cap_mask i dump)
    let st1 := { st with buf := r.2.2, off := r.2.1, offs := st.offs ++ [r.2.1] }
    if r.1 < 0 then (true, { st1 with broke := true }) else (false, st1)
  else (false, st)

/-- The body of the port loop (lines 505-560) for index `i`. The boolean is true
when the loop is left through `break`; `continue` and the normal end of the body
give false. -/
def port_body (M : Mad) (env : Env) (td : thread_data_t) (cap_mask cap_mask2 : Nat)
    (i : Nat) (st0 : LoopState) : Bool × LoopState :=
  let st := { st0 with visited := st0.visited ++ [i] }
  if td.extended ≠ 1 then
    let r := with_retry env.rpc_ok (Call.port_counters i) st.trace
    let st1 := { st with trace := r.2.2 }
    if r.2.1 = false then (false, st1)
    else
      let cleared := decide (cap_mask &&& M.IB_PM_PC_XMIT_WAIT_SUP = 0)
      emit M env cap_mask i (cstr (env.mad_dump_perfcounters i cleared)) st1
  else
    if ¬ (cap_mask &&& M.IB_PM_EXT_WIDTH_SUPPORTED ≠ 0
          ∨ cap_mask &&& M.IB_PM_EXT_WIDTH_NOIETF_SUP ≠ 0) then (false, st)
    else
      let r := with_retry env.rpc_ok (Call.port_counters_ext i) st.trace
      let st1 := { st with trace := r.2.2 }
      if r.2.1 = false then (false, st1)
      else emit M env cap_mask i (dump_perfcounters_ext M env i 1536 cap_mask cap_mask2) st1

/-- The port loop `for (i = start_port; i <= num_ports; i++)`, entered at `i`.
The first argument bounds the number of iterations; the loop is entered with
`num_ports + 1 - start_port`. -/
def port_loop (M : Mad) (env : Env) (td : thread_data_t) (cap_mask cap_mask2 : Nat)
    (num_ports : Nat) : Nat → Nat → LoopState → LoopState
  | 0, _, st => st
  | fuel + 1, i, st =>
    if i ≤ num_ports then
      let r := port_body M env td cap_mask cap_mask2 i st
      if r.1 then r.2 else port_loop M env td cap_mask cap_mask2 num_ports fuel (i + 1) r.2
    else st

/-- Lines 485-564, reached when the class-port-info query succeeded: the
masks, the header, the port loop and `output_size`. -/
def port_stage (M : Mad) (env : Env) (td : thread_data_t) (start_port : Nat)
    (tr : List Call) : Run :=
  let cap_mask := env.cap_mask
  let cap_mask2 := env.cap_mask2
  let buf := poke (strncpy td.output_buffer (header_line td env) 8191) 8191 [NUL]
  let off := strlen buf
  let st := port_loop M env td cap_mask cap_mask2 env.num_ports
    (env.num_ports + 1 - start_port) start_port
    { buf := buf, off := off, trace := tr, visited := [], offs := [], broke := false }
  { td := { td with output_buffer := st.buf, output_size := strlen st.buf },
    trace := st.trace, terminal := Terminal.done, visited := st.visited,
    offs := st.offs, broke := st.broke }

/-- Lines 465-564: the class-port-info stage, then the port stage. -/
def query_ports (M : Mad) (env : Env) (td : thread_data_t) (start_port : Nat)
    (tr : List Call) : Run :=
  let r := with_retry env.rpc_ok Call.class_port_info tr
  if r.2.1 = false then
    fail_with ": Failed to query class port info for ".toList Terminal.failed_class_info
      td env r.2.2
  else port_stage M env td start_port r.2.2

/-- Lines 442-463: `start_port` is 1 unless the node is a switch whose
switch-info reports an enhanced port 0. -/
def query_switch (M : Mad) (env : Env) (td : thread_data_t) (tr : List Call) : Run :=
  if env.node_type = M.IB_NODE_SWITCH then
    let r := with_retry env.rpc_ok Call.switch_info tr
    if r.2.1 = false then
      fail_with ": Failed to query switch info for ".toList Terminal.failed_switch_info
        td env r.2.2
    else
      let start_port := if env.enhancedport0 ≠ 0 then 0 else 1
      query_ports M env td start_port r.2.2
  else query_ports M env td 1 tr

/-- Source `query_guid_thread`. -/
def query_guid_thread (M : Mad) (env : Env) (td : thread_data_t) : Run :=
  let r := with_retry env.rpc_ok Call.resolve []
  if r.2.1 = false then
    fail_with ": Failed to resolve GUID ".toList Terminal.failed_resolve td env r.2.2
  else
    let r1 := with_retry env.rpc_ok Call.node_info r.2.2
    if r1.2.1 = false then
      fail_with ": Failed to query node info for ".toList Terminal.failed_node_info
        td env r1.2.2
    else if env.num_ports = 0 then
      fail_with ": Invalid number of ports for ".toList Terminal.invalid_ports
        td env r1.2.2
    else query_switch M env td r1.2.2

/-! ## OutputSink and WaveScheduler (batch loop of `main`) -/

/-- Largest `int`. -/
def INT_MAX : Int := 2 ^ 31 - 1

/-- Source `write_output_to_file` with the output file open: `fwrite(output, 1,
size, output_file)` adds the first `size` bytes of `output` as one blob. -/
def write_output_to_file (file : List (List Char)) (output : List Char) (size : Int) :
    List (List Char) :=
  file ++ [output.take size.toNat]

/-- Line 703:
`batch_size = ((i + max_threads) <= num_guids) ? max_threads : (num_guids - i)`. -/
def batch_size (i max_threads num_guids : Int) : Int :=
  if i + max_threads ≤ num_guids then max_threads else num_guids - i

/-- The state of the batch loop.

* `tds`: the array of `num_guids` thread data;
* `threads`: the array of `max_threads` handles; a handle is the index in `tds`
  of the worker it was created for (`none`: no handle stored yet);
* `running`: the workers created and not yet terminated;
* `output_file`: the blobs written so far;
* `waves`: ghost, `(i, batch_size)` of each iteration so far. -/
structure MainState where
  tds : List thread_data_t
  threads : List (Option Nat)
  running : List Nat
  output_file : List (List Char)
  waves : List (Int × Int)

/-- The run parameters the batch loop reads: `guids`, `extended`, `timeout`,
`verbose`, the environment of each worker (by index in `tds`), and whether the
`pthread_create` for that index succeeds. -/
structure Params where
  mad : Mad
  guids : List Nat
  extended : Int
  timeout : Int
  verbose : Int
  envs : Nat → Env
  create_ok : Nat → Bool

/-- Lines 709-714: the fields the scheduler stores into `tds[i + j]` before
creating the worker; `output_buffer` keeps what the allocation left there. -/
def init_td (P : Params) (old : thread_data_t) (idx : Nat) : thread_data_t :=
  { old with
    thread_id := (idx : Int) + 1, guid := P.guids.getD idx 0, extended := P.extended,
    timeout := P.timeout, verbose := P.verbose, output_size := 0 }

/-- One iteration of the creation loop (lines 708-721) for slot `j` of the wave
starting at `i`; the second component is `active`. -/
def create_one (P : Params) (i : Int) (sa : MainState × Int) (j : Nat) : MainState × Int :=
  let idx := (i + j).toNat
  let st := { sa.1 with tds := sa.1.tds.set idx (init_td P (sa.1.tds.getD idx default) idx) }
  if P.create_ok idx then
    ({ st with threads := st.threads.set j (some idx), running := st.running ++ [idx] },
      sa.2 + 1)
  else (st, sa.2)

/-- Worker `w` terminates: if it is running, `tds[w]` becomes what
`query_guid_thread` leaves there, in one step (a worker writes nothing but its
own element of `tds`). -/
def finish (P : Params) (st : MainState) (w : Nat) : MainState :=
  if w ∈ st.running then
    { st with
      tds := st.tds.set w (query_guid_thread P.mad (P.envs w) (st.tds.getD w default)).td,
      running := st.running.filter (fun x => x != w) }
  else st

/-- Line 724, `pthread_join(threads[j], NULL)`: returns once the worker behind
the handle has terminated. -/
def join (P : Params) (st : MainState) (j : Nat) : MainState :=
  match st.threads.getD j none with
  | some w => finish P st w
  | none => st

/-- One iteration of the flush loop (lines 727-731) for slot `j`. -/
def flush_one (i : Int) (st : MainState) (j : Nat) : MainState :=
  let td := st.tds.getD (i + j).toNat default
  if td.output_size > 0 then
    { st with output_file := write_output_to_file st.output_file td.output_buffer td.output_size }
  else st

/-- One iteration of the batch loop (lines 703-731) for the wave starting at
`i`. `early` lists, in order, the workers that terminate on their own before
the flush; every other running worker terminates when it is joined. Workers
write disjoint elements of `tds`, so this covers every order of termination. -/
def wave (P : Params) (early : List Nat) (max_threads num_guids : Int) (i : Int)
    (st : MainState) : MainState :=
  let bs := batch_size i max_threads num_guids
  let c := (List.range bs.toNat).foldl (create_one P i) (st, 0)
  let st1 := early.foldl (finish P) c.1
  let st2 := (List.range c.2.toNat).foldl (join P) st1
  let st3 := (List.range bs.toNat).foldl (flush_one i) st2
  { st3 with waves := st3.waves ++ [(i, bs)] }

/-- The batch loop `for (i = 0; i < num_guids; i += max_threads)`, entered at
`i`. The first argument bounds the number of iterations; the result is `none`
when that bound is reached with the loop still running, or when `i +
max_threads` leaves the range of `int`. `sched i` is the `early` list of the
wave starting at `i`. -/
def batch_loop (P : Params) (sched : Int → List Nat) (max_threads num_guids : Int) :
    Nat → Int → MainState → Option MainState
  | 0, i, st => if i < num_guids then none else some st
  | fuel + 1, i, st =>
    if i < num_guids then
      if i + max_threads > INT_MAX then none
      else
        batch_loop P sched max_threads num_guids fuel (i + max_threads)
          (wave P (sched i) max_threads num_guids i st)
    else some st

/-! ## Predicates used in the statements -/

/-- A character that is neither the terminator, nor `'#'`, nor a newline. -/
def plain (c : Char) : Prop := c ≠ NUL ∧ c ≠ '#' ∧ c ≠ '\n'

/-- The five texts `what` of the failure exits. -/
def failure_texts : List (List Char) :=
  [": Failed to resolve GUID ".toList, ": Failed to query node info for ".toList,
   ": Invalid number of ports for ".toList, ": Failed to query switch info for ".toList,
   ": Failed to query class port info for ".toList]

/-- The stage of the pipeline a transport call belongs to: 0 resolve, 1 node
info, 2 switch info, 3 class port info, 4 the port loop. -/
def Call.stage : Call → Nat
  | Call.resolve => 0
  | Call.node_info => 1
  | Call.switch_info => 2
  | Call.class_port_info => 3
  | Call.port_counters _ => 4
  | Call.port_counters_ext _ => 4

/-- The stage in which a run ends. -/
def Terminal.stage : Terminal → Nat
  | Terminal.failed_resolve => 0
  | Terminal.failed_node_info => 1
  | Terminal.invalid_ports => 1
  | Terminal.failed_switch_info => 2
  | Terminal.failed_class_info => 3
  | Terminal.done => 4

/-- What `ctime` returns: 24 characters of date and time, then a newline. -/
def ctime_line (s : List Char) : Prop :=
  ∃ body : List Char, cstr s = body ++ ['\n'] ∧ body.length = 24 ∧ ∀ c ∈ body, plain c

/-- The first port index of the claims: 0 when the node is a switch whose
switch-info reports an enhanced port 0, and 1 otherwise. -/
def expected_start (M : Mad) (env : Env) : Nat :=
  if env.node_type = M.IB_NODE_SWITCH ∧ env.enhancedport0 ≠ 0 then 0 else 1

/-- The cause behind a failed terminal state `t` of a run with trace `tr`: a
zero port count, or three failed calls of the stage at the end of the trace. -/
def failure_cause (env : Env) (t : Terminal) (tr : List Call) : Prop :=
  (t = Terminal.invalid_ports → env.num_ports = 0)
  ∧ (t ≠ Terminal.invalid_ports →
      ∃ pre c, tr = pre ++ [c, c, c] ∧ c.stage = t.stage
        ∧ env.rpc_ok pre.length = false ∧ env.rpc_ok (pre.length + 1) = false
        ∧ env.rpc_ok (pre.length + 2) = false)

/-- The bytes handed to the output for a run: `output_buffer` up to
`output_size`. -/
def Run.blob (r : Run) : List Char := r.td.output_buffer.take r.td.output_size.toNat

/-- Invariant of the port loop; `H` is the string in `header`. -/
def LoopInv (H : List Char) (st : LoopState) : Prop :=
  0 ≤ st.off ∧ st.off ≤ MAX_OUTPUT_SIZE
  ∧ (st.broke = false → strlen st.buf = st.off ∧ st.off < MAX_OUTPUT_SIZE)
  ∧ (st.broke = true → st.off = MAX_OUTPUT_SIZE ∧ strlen st.buf = MAX_OUTPUT_SIZE - 1)
  ∧ (∀ o ∈ st.offs, 0 ≤ o ∧ o ≤ MAX_OUTPUT_SIZE)
  ∧ H <+: cstr st.buf
  ∧ (st.broke = false → ∀ o ∈ st.offs, o < MAX_OUTPUT_SIZE)
  ∧ (st.broke = true → MAX_OUTPUT_SIZE ∈ st.offs)

/-- The thread data a worker for index `idx` starts from. -/
def worker_input (P : Params) (tds0 : List thread_data_t) (idx : Nat) : thread_data_t :=
  init_td P (tds0.getD idx default) idx

/-- The thread data a worker for index `idx` leaves behind. -/
def worker_output (P : Params) (tds0 : List thread_data_t) (idx : Nat) : thread_data_t :=
  (query_guid_thread P.mad (P.envs idx) (worker_input P tds0 idx)).td

/-- The blob a worker for index `idx` hands to the output: the first
`output_size` bytes of its `output_buffer` after `query_guid_thread`. -/
def result_blob (P : Params) (tds0 : List thread_data_t) (idx : Nat) : List Char :=
  (worker_output P tds0 idx).output_buffer.take (worker_output P tds0 idx).output_size.toNat

/-- Invariant of a wave over the slots `a .. a + m - 1`, between the creation
of its workers and the flush: the handles of the wave stand for its workers,
only workers of the wave run, the thread data of a running worker is its
input, that of a terminated worker is its output, and the thread data behind
the wave are as allocated (`tds0`). -/
def WaveInv (P : Params) (tds0 : List thread_data_t) (N K a m : Nat)
    (out : List (List Char)) (st : MainState) : Prop :=
  st.tds.length = N ∧ st.threads.length = K ∧ st.output_file = out
  ∧ (∀ j, j < m → st.threads.getD j none = some (a + j))
  ∧ (∀ w ∈ st.running, a ≤ w ∧ w < a + m)
  ∧ (∀ idx, a ≤ idx → idx < a + m →
      (idx ∈ st.running → st.tds.getD idx default = worker_input P tds0 idx)
      ∧ (idx ∉ st.running → st.tds.getD idx default = worker_output P tds0 idx))
  ∧ (∀ idx, a + m ≤ idx → st.tds.getD idx default = tds0.getD idx default)

/-- The state between two waves, the next one starting at `a`: no worker runs
and the thread data from `a` on are as allocated. -/
def BetweenWaves (tds0 : List thread_data_t) (N K a : Nat) (st : MainState) : Prop :=
  st.tds.length = N ∧ st.threads.length = K ∧ st.running = []
  ∧ (∀ idx, a ≤ idx → st.tds.getD idx default = tds0.getD idx default)

/-- The port-header line of a port block: `port_block` without the dump. -/
def port_header (M : Mad) (env : Env) (cap_mask : Nat) (i : Nat) : List Char :=
  "# Port counters: ".toList ++ fmt_s env.portid2str ++ " port ".toList
    ++ fmt_d (i : Int) ++ " (CapMask: 0x".toList ++ fmt_02X (M.ntohs cap_mask)
    ++ ")\n".toList

/-- The string in `dump` after `mad_dump_perfcounters` for port `i` in legacy
mode (lines 526-531). -/
def legacy_dump (M : Mad) (env : Env) (cap_mask i : Nat) : List Char :=
  cstr (env.mad_dump_perfcounters i (decide (cap_mask &&& M.IB_PM_PC_XMIT_WAIT_SUP = 0)))

/-- Some attempt of the call `c` recorded in the trace succeeded (the `k`-th
call of the trace has the outcome `rpc_ok k`). -/
def call_succeeded (env : Env) (tr : List Call) (c : Call) : Bool :=
  (List.range tr.length).any (fun k => decide (tr[k]? = some c) && env.rpc_ok k)

/-- What port `j` contributes to the result in legacy mode, given the trace of
the run: its block when its counter query succeeded and its dump is not empty,
nothing otherwise. -/
def legacy_block (M : Mad) (env : Env) (cap_mask : Nat) (tr : List Call) (j : Nat) :
    List Char :=
  if call_succeeded env tr (Call.port_counters j) = true ∧ legacy_dump M env cap_mask j ≠ []
  then port_block M env cap_mask j (legacy_dump M env cap_mask j) else []

/-- The ports from `start` to the port count whose legacy counter query
succeeded with a dump that is not empty, in ascending order. -/
def reported_ports (M : Mad) (env : Env) (trace : List Call) (start : Nat) : List Nat :=
  (List.range' start (env.num_ports + 1 - start)).filter (fun i =>
    call_succeeded env trace (Call.port_counters i)
      && decide (legacy_dump M env env.cap_mask i ≠ []))

/-- The transport call the body of the port loop issues for port `i`: the
legacy query unless `extended` is 1 (lines 509 and 537). -/
def port_query (td : thread_data_t) (i : Nat) : Call :=
  if td.extended ≠ 1 then Call.port_counters i else Call.port_counters_ext i

/-- The string in `dump` for port `i` in the mode of the run (lines 526-531,
line 549). -/
def port_dump (M : Mad) (env : Env) (td : thread_data_t) (i : Nat) : List Char :=
  if td.extended ≠ 1 then legacy_dump M env env.cap_mask i
  else dump_perfcounters_ext M env i 1536 env.cap_mask env.cap_mask2

/-- The body of the port loop issues a query: always in legacy mode, in
extended mode when one of the two extended-width bits is set (line 532). -/
def queries_ports (M : Mad) (env : Env) (td : thread_data_t) : Bool :=
  decide (td.extended ≠ 1)
    || decide (env.cap_mask &&& M.IB_PM_EXT_WIDTH_SUPPORTED ≠ 0)
    || decide (env.cap_mask &&& M.IB_PM_EXT_WIDTH_NOIETF_SUP ≠ 0)

/-- Port `i` gets as far as the `appendf` call of line 555: its query is
issued, one of its attempts in the trace succeeded, and its dump is not
empty. -/
def reaches_append (M : Mad) (env : Env) (td : thread_data_t) (tr : List Call) (i : Nat) :
    Bool :=
  queries_ports M env td && call_succeeded env tr (port_query td i)
    && decide (port_dump M env td i ≠ [])

/-- The block `appendf` is called with for port `i`. -/
def port_text (M : Mad) (env : Env) (td : thread_data_t) (i : Nat) : List Char :=
  port_block M env env.cap_mask i (port_dump M env td i)

/-- What port `i` adds to the result when its block fits: the block when the
port gets as far as `appendf`, nothing otherwise. -/
def mode_block (M : Mad) (env : Env) (td : thread_data_t) (tr : List Call) (i : Nat) :
    List Char :=
  if reaches_append M env td tr i then port_text M env td i else []

/-- The text of the result once the ports `start`, ..., `start + m - 1` are
done, when all their blocks fit: the string of `header`, then their blocks. -/
def text_before (M : Mad) (env : Env) (td : thread_data_t) (tr : List Call)
    (start m : Nat) : List Char :=
  header_line td env ++ (List.range' start m).flatMap (mode_block M env td tr)

/-- The call `c` has three attempts in a row in the trace, all failed (the
`k`-th call of the trace has the outcome `rpc_ok k`). -/
def failed_thrice (env : Env) (tr : List Call) (c : Call) : Prop :=
  ∃ k, tr[k]? = some c ∧ tr[k + 1]? = some c ∧ tr[k + 2]? = some c
    ∧ env.rpc_ok k = false ∧ env.rpc_ok (k + 1) = false ∧ env.rpc_ok (k + 2) = false

/-- The ways the pipeline of a node fails: the node-info response reports no
port, or one of the calls before the port loop (address resolution, node info,
switch info, class port info) fails on three attempts. -/
def pipeline_fails (env : Env) (tr : List Call) : Prop :=
  env.num_ports = 0 ∨ ∃ c : Call, c.stage ≤ 3 ∧ failed_thrice env tr c

/-- The terminal state of the failure exit behind a transport call (lines
399-483). -/
def Call.failure : Call → Terminal
  | Call.resolve => Terminal.failed_resolve
  | Call.node_info => Terminal.failed_node_info
  | Call.switch_info => Terminal.failed_switch_info
  | Call.class_port_info => Terminal.failed_class_info
  | Call.port_counters _ => Terminal.done
  | Call.port_counters_ext _ => Terminal.done

/-- The number of positions of a text at which `pat` starts. -/
def occurrences (pat : List Char) : List Char → Nat
  | [] => 0
  | c :: t => (if pat.isPrefixOf (c :: t) then 1 else 0) + occurrences pat t

/-- The slots of the wave starting at `i` whose `pthread_create` succeeds. -/
def started_slots (P : Params) (i bs : Int) : List Nat :=
  (List.range bs.toNat).filter (fun j => P.create_ok (i + j).toNat)

/-- The slots `j` of the join loop `for (j = 0; j < active; j++)` of the wave
starting at `i`, with `active` as the creation loop leaves it. -/
def joined_slots (P : Params) (i bs : Int) (st : MainState) : List Nat :=
  List.range ((List.range bs.toNat).foldl (create_one P i) (st, 0)).2.toNat

/-- The members of `perf_count_t`. -/
inductive perf_slot where
  | portselect
  | counterselect
  | symbolerrors
  | linkrecovers
  | linkdowned
  | rcverrors
  | rcvremotephyerrors
  | rcvswrelayerrors
  | xmtdiscards
  | xmtconstrainterrors
  | rcvconstrainterrors
  | linkintegrityerrors
  | excbufoverrunerrors
  | qp1dropped
  | vl15dropped
  | xmtdata
  | rcvdata
  | xmtpkts
  | rcvpkts
  | xmtwait
  deriving DecidableEq, Repr

/-- All members of `perf_count_t`, in the order of the declaration. -/
def perf_slot.all : List perf_slot :=
  [perf_slot.portselect, perf_slot.counterselect, perf_slot.symbolerrors,
   perf_slot.linkrecovers, perf_slot.linkdowned, perf_slot.rcverrors,
   perf_slot.rcvremotephyerrors, perf_slot.rcvswrelayerrors, perf_slot.xmtdiscards,
   perf_slot.xmtconstrainterrors, perf_slot.rcvconstrainterrors,
   perf_slot.linkintegrityerrors, perf_slot.excbufoverrunerrors, perf_slot.qp1dropped,
   perf_slot.vl15dropped, perf_slot.xmtdata, perf_slot.rcvdata, perf_slot.xmtpkts,
   perf_slot.rcvpkts, perf_slot.xmtwait]

/-- The value of a member of `perf_count_t`. -/
def perf_count_t.get (acc : perf_count_t) : perf_slot → Nat
  | perf_slot.portselect => acc.portselect
  | perf_slot.counterselect => acc.counterselect
  | perf_slot.symbolerrors => acc.symbolerrors
  | perf_slot.linkrecovers => acc.linkrecovers
  | perf_slot.linkdowned => acc.linkdowned
  | perf_slot.rcverrors => acc.rcverrors
  | perf_slot.rcvremotephyerrors => acc.rcvremotephyerrors
  | perf_slot.rcvswrelayerrors => acc.rcvswrelayerrors
  | perf_slot.xmtdiscards => acc.xmtdiscards
  | perf_slot.xmtconstrainterrors => acc.xmtconstrainterrors
  | perf_slot.rcvconstrainterrors => acc.rcvconstrainterrors
  | perf_slot.linkintegrityerrors => acc.linkintegrityerrors
  | perf_slot.excbufoverrunerrors => acc.excbufoverrunerrors
  | perf_slot.qp1dropped => acc.qp1dropped
  | perf_slot.vl15dropped => acc.vl15dropped
  | perf_slot.xmtdata => acc.xmtdata
  | perf_slot.rcvdata => acc.rcvdata
  | perf_slot.xmtpkts => acc.xmtpkts
  | perf_slot.rcvpkts => acc.rcvpkts
  | perf_slot.xmtwait => acc.xmtwait

/-- The record field `aggregate_perfcounters` decodes for a member. -/
def perf_slot.wire : perf_slot → pc_field
  | perf_slot.portselect => pc_field.IB_PC_PORT_SELECT_F
  | perf_slot.counterselect => pc_field.IB_PC_COUNTER_SELECT_F
  | perf_slot.symbolerrors => pc_field.IB_PC_ERR_SYM_F
  | perf_slot.linkrecovers => pc_field.IB_PC_LINK_RECOVERS_F
  | perf_slot.linkdowned => pc_field.IB_PC_LINK_DOWNED_F
  | perf_slot.rcverrors => pc_field.IB_PC_ERR_RCV_F
  | perf_slot.rcvremotephyerrors => pc_field.IB_PC_ERR_PHYSRCV_F
  | perf_slot.rcvswrelayerrors => pc_field.IB_PC_ERR_SWITCH_REL_F
  | perf_slot.xmtdiscards => pc_field.IB_PC_XMT_DISCARDS_F
  | perf_slot.xmtconstrainterrors => pc_field.IB_PC_ERR_XMTCONSTR_F
  | perf_slot.rcvconstrainterrors => pc_field.IB_PC_ERR_RCVCONSTR_F
  | perf_slot.linkintegrityerrors => pc_field.IB_PC_ERR_LOCALINTEG_F
  | perf_slot.excbufoverrunerrors => pc_field.IB_PC_ERR_EXCESS_OVR_F
  | perf_slot.qp1dropped => pc_field.IB_PC_QP1_DROP_F
  | perf_slot.vl15dropped => pc_field.IB_PC_VL15_DROPPED_F
  | perf_slot.xmtdata => pc_field.IB_PC_XMT_BYTES_F
  | perf_slot.rcvdata => pc_field.IB_PC_RCV_BYTES_F
  | perf_slot.xmtpkts => pc_field.IB_PC_XMT_PKTS_F
  | perf_slot.rcvpkts => pc_field.IB_PC_RCV_PKTS_F
  | perf_slot.xmtwait => pc_field.IB_PC_XMT_WAIT_F

/-- The width of the `aggregate_<w>bit` that `aggregate_perfcounters` applies to
a member; `none` for the two members it assigns directly. -/
def clamp_width : perf_slot → Option Nat
  | perf_slot.portselect => none
  | perf_slot.counterselect => none
  | perf_slot.symbolerrors => some 16
  | perf_slot.linkrecovers => some 8
  | perf_slot.linkdowned => some 8
  | perf_slot.rcverrors => some 16
  | perf_slot.rcvremotephyerrors => some 16
  | perf_slot.rcvswrelayerrors => some 16
  | perf_slot.xmtdiscards => some 16
  | perf_slot.xmtconstrainterrors => some 8
  | perf_slot.rcvconstrainterrors => some 8
  | perf_slot.linkintegrityerrors => some 4
  | perf_slot.excbufoverrunerrors => some 4
  | perf_slot.qp1dropped => some 16
  | perf_slot.vl15dropped => some 16
  | perf_slot.xmtdata => some 32
  | perf_slot.rcvdata => some 32
  | perf_slot.xmtpkts => some 32
  | perf_slot.rcvpkts => some 32
  | perf_slot.xmtwait => some 32

/-- A member is clamped at `w` bits: after `aggregate_perfcounters` it is the
smaller of the unbounded sum of its old value and the decoded value, and
`2 ^ w - 1`, for every record and accumulator with `uint32_t` values. -/
def clamped_at (s : perf_slot) (w : Nat) : Prop :=
  ∀ (pc : pc_field → Nat) (acc : perf_count_t),
    (∀ f, pc f < 2 ^ 32) → (∀ t, acc.get t < 2 ^ 32) →
    (aggregate_perfcounters pc acc).get s = min (acc.get s + pc s.wire) (2 ^ w - 1)

/-- A member is copied raw: after `aggregate_perfcounters` it is the decoded
value, whatever it was before. -/
def copied_raw (s : perf_slot) : Prop :=
  ∀ (pc : pc_field → Nat) (acc : perf_count_t),
    (aggregate_perfcounters pc acc).get s = pc s.wire

/-- An accumulator with the same value in every member. -/
def perf_const (v : Nat) : perf_count_t :=
  { portselect := v, counterselect := v, symbolerrors := v, linkrecovers := v, linkdowned := v,
    rcverrors := v, rcvremotephyerrors := v, rcvswrelayerrors := v, xmtdiscards := v,
    xmtconstrainterrors := v, rcvconstrainterrors := v, linkintegrityerrors := v,
    excbufoverrunerrors := v, qp1dropped := v, vl15dropped := v, xmtdata := v,
    rcvdata := v, xmtpkts := v, rcvpkts := v, xmtwait := v }

/-- An extended accumulator with the same value in every member. -/
def perf_ext_const (v : Nat) : perf_count_ext_t :=
  { portselect := v, counterselect := v, portxmitdata := v, portrcvdata := v,
    portxmitpkts := v, portrcvpkts := v, portunicastxmitpkts := v,
    portunicastrcvpkts := v, portmulticastxmitpkits := v, portmulticastrcvpkts := v,
    counterSelect2 := v, symbolErrorCounter := v, linkErrorRecoveryCounter := v,
    linkDownedCounter := v, portRcvErrors := v, portRcvRemotePhysicalErrors := v,
    portRcvSwitchRelayErrors := v, portXmitDiscards := v, portXmitConstraintErrors := v,
    portRcvConstraintErrors := v, localLinkIntegrityErrors := v, excessiveBufferOverrunErrors := v,
    VL15Dropped := v, portXmitWait := v, QP1Dropped := v }

/-! ## Concrete inputs for the examples -/

/-- Values of the `mad.h` constants, with `ntohs` of a little-endian host. -/
def mad0 : Mad :=
  { IB_NODE_SWITCH := 2, IB_PM_EXT_WIDTH_SUPPORTED := 512,
    IB_PM_EXT_WIDTH_NOIETF_SUP := 1024, IB_PM_PC_XMIT_WAIT_SUP := 4096,
    IB_PM_IS_ADDL_PORT_CTRS_EXT_SUP := 2,
    ntohs := fun x => x % 256 * 256 + x / 256 }

/-- A channel adapter with `ports` ports whose transport calls all succeed and
whose port dumps are `dump_len` bytes long. -/
def env_ca (ports dump_len : Nat) : Env :=
  { rpc_ok := fun _ => true, node_type := 1, num_ports := ports, enhancedport0 := 0,
    cap_mask := 0, cap_mask2 := 0, portid2str := "Lid 1".toList,
    ctime := "Wed Jun 30 21:49:08 1993\n".toList,
    mad_dump_perfcounters := fun _ _ => List.replicate dump_len 'A',
    mad_dump_fields := fun _ _ _ => List.replicate dump_len 'B' }

/-- The same node with every transport call from the `k`-th on failing. -/
def env_failing_from (k : Nat) : Env :=
  { env_ca 2 40 with rpc_ok := fun n => decide (n < k) }

/-- Thread data as the scheduler prepares it for the first GUID, in legacy
(`extended = 0`) or extended (`extended = 1`) mode. -/
def td_first (extended : Int) : thread_data_t :=
  { thread_id := 1, guid := 1, output_buffer := List.replicate 8192 NUL, output_size := 0,
    extended := extended, timeout := 20, verbose := 1 }

/-- A loop state whose buffer holds 8170 bytes of text, 22 bytes before the
capacity. -/
def nearly_full : LoopState :=
  { buf := List.replicate 8170 'a' ++ List.replicate 22 NUL, off := 8170, trace := [],
    visited := [], offs := [], broke := false }

/-- Run parameters for the GUID list `[0x1, 0x2, 0x3]` with two ports per node,
every transport call and every `pthread_create` succeeding, legacy mode. -/
def params3 : Params :=
  { mad := mad0, guids := [1, 2, 3], extended := 0, timeout := 20, verbose := 1,
    envs := fun _ => env_ca 2 40, create_ok := fun _ => true }

/-- The state in which the batch loop is entered: `n` thread data and
`max_threads` handles as allocated, no worker, nothing written. -/
def main_state0 (n max_threads : Nat) : MainState :=
  { tds := List.replicate n (td_first 0), threads := List.replicate max_threads none,
    running := [], output_file := [], waves := [] }

/-- A two-port channel adapter whose counter query for port 1 fails three times
(calls 3, 4 and 5 of the worker); every other transport call succeeds. -/
def env_port1_fails : Env :=
  { env_ca 2 40 with rpc_ok := fun k => decide (k < 3 ∨ 5 < k) }

/-- Run parameters for the GUID list `[0x1, 0x2]` where `pthread_create` fails
for the first GUID and succeeds for the second. -/
def params_first_start_fails : Params :=
  { mad := mad0, guids := [1, 2], extended := 0, timeout := 20, verbose := 1,
    envs := fun _ => env_ca 2 40, create_ok := fun idx => decide (idx ≠ 0) }

/-! # Theorems -/

set_option maxRecDepth 100000

/-! ## SaturatingAggregator -/

/-- C1: for every width 4, 8, 16, 32 (destination and increment in `uint32_t`)
and 64 (in `uint64_t`), `aggregate_<w>bit` leaves `min (d + v) (2 ^ w - 1)` in
the destination, `d + v` being the unbounded sum. -/
theorem aggregate_saturates (d v : Nat) (hd : d < 2 ^ 32) (hv : v < 2 ^ 32)
    (d64 v64 : Nat) (hd64 : d64 < 2 ^ 64) (hv64 : v64 < 2 ^ 64) :
    aggregate_4bit d v = min (d + v) (2 ^ 4 - 1)
    ∧ aggregate_8bit d v = min (d + v) (2 ^ 8 - 1)
    ∧ aggregate_16bit d v = min (d + v) (2 ^ 16 - 1)
    ∧ aggregate_32bit d v = min (d + v) (2 ^ 32 - 1)
    ∧ aggregate_64bit d64 v64 = min (d64 + v64) (2 ^ 64 - 1) := by
  unfold aggregate_4bit aggregate_8bit aggregate_16bit aggregate_32bit aggregate_64bit
    UINT32_MOD UINT64_MOD
  simp only []
  refine ⟨?_, ?_, ?_, ?_, ?_⟩ <;> split_ifs <;> omega

/-- Witness of C1: a wrapping 32-bit sum and a wrapping 64-bit sum. -/
theorem aggregate_saturates_witness :
    aggregate_4bit 4294967295 1 = min (4294967295 + 1) (2 ^ 4 - 1)
    ∧ aggregate_8bit 4294967295 1 = min (4294967295 + 1) (2 ^ 8 - 1)
    ∧ aggregate_16bit 4294967295 1 = min (4294967295 + 1) (2 ^ 16 - 1)
    ∧ aggregate_32bit 4294967295 1 = min (4294967295 + 1) (2 ^ 32 - 1)
    ∧ aggregate_64bit 18446744073709551615 2
        = min (18446744073709551615 + 2) (2 ^ 64 - 1) :=
  aggregate_saturates 4294967295 1 (by decide) (by decide)
    18446744073709551615 2 (by decide) (by decide)

/-! ## C strings and printf conversions -/

theorem digitChar_big (e : Nat) : Nat.digitChar (e + 16) = '*' := by
  rfl

/-- Every value of `Nat.digitChar` is a hex digit or the star. -/
theorem digitChar_mem (d : Nat) : Nat.digitChar d ∈ "0123456789abcdef*".toList := by
  by_cases h : d < 16
  · interval_cases d <;> decide
  · obtain ⟨e, rfl⟩ : ∃ e, d = e + 16 := ⟨d - 16, by omega⟩
    rw [digitChar_big]; decide

theorem digitChar_plain (d : Nat) : plain (Nat.digitChar d) := by
  have h := digitChar_mem d
  have : ∀ c ∈ "0123456789abcdef*".toList, plain c := by
    unfold plain NUL
    decide
  exact this _ h

theorem digitChar_upper_plain (d : Nat) : plain (Char.toUpper (Nat.digitChar d)) := by
  have h := digitChar_mem d
  have : ∀ c ∈ "0123456789abcdef*".toList, plain (Char.toUpper c) := by
    unfold plain NUL
    decide
  exact this _ h
theorem toDigitsCore_mem (b : Nat) : ∀ (f n : Nat) (acc : List Char) (c : Char),
    c ∈ Nat.toDigitsCore b f n acc → c ∈ acc ∨ ∃ d, c = Nat.digitChar d := by
  intro f
  induction f with
  | zero => intro n acc c h; simp [Nat.toDigitsCore] at h; exact Or.inl h
  | succ f ih =>
    intro n acc c h
    simp only [Nat.toDigitsCore] at h
    split_ifs at h
    · rcases List.mem_cons.1 h with h | h
      · exact Or.inr ⟨_, h⟩
      · exact Or.inl h
    · rcases ih _ _ _ h with h | h
      · rcases List.mem_cons.1 h with h | h
        · exact Or.inr ⟨_, h⟩
        · exact Or.inl h
      · exact Or.inr h

theorem toDigits_plain (b n : Nat) : ∀ c ∈ Nat.toDigits b n, plain c := by
  intro c h
  rcases toDigitsCore_mem b _ _ _ c h with h | ⟨d, rfl⟩
  · simp at h
  · exact digitChar_plain d

theorem fmt_016x_plain (x : Nat) : ∀ c ∈ fmt_016x x, plain c := by
  intro c h
  unfold fmt_016x zero_pad at h
  rcases List.mem_append.1 h with h | h
  · rw [List.mem_replicate] at h
    rw [h.2]; unfold plain NUL; decide
  · exact toDigits_plain _ _ c h

theorem fmt_02X_plain (x : Nat) : ∀ c ∈ fmt_02X x, plain c := by
  intro c h
  unfold fmt_02X zero_pad at h
  rcases List.mem_append.1 h with h | h
  · rw [List.mem_replicate] at h
    rw [h.2]; unfold plain NUL; decide
  · rw [List.mem_map] at h
    obtain ⟨a, ha, rfl⟩ := h
    rcases toDigitsCore_mem 16 _ _ _ a ha with h | ⟨d, rfl⟩
    · simp at h
    · exact digitChar_upper_plain d

/-- The characters of `%d` output are no terminator, no `'#'` and no newline. -/
theorem fmt_d_plain (x : Int) : ∀ c ∈ fmt_d x, plain c := by
  intro c h
  unfold fmt_d at h
  split_ifs at h
  · rcases List.mem_cons.1 h with h | h
    · rw [h]; unfold plain NUL; decide
    · exact toDigits_plain _ _ c h
  · exact toDigits_plain _ _ c h

theorem cstr_no_nul (p : List Char) : ∀ c ∈ cstr p, c ≠ NUL := by
  intro c h
  have := List.mem_takeWhile_imp h
  simpa using this

theorem cstr_of_no_nul (t : List Char) (h : ∀ c ∈ t, c ≠ NUL) : cstr t = t := by
  unfold cstr
  rw [List.takeWhile_eq_self_iff]
  intro c hc
  simpa using h c hc

theorem cstr_append_nul (t rest : List Char) (h : ∀ c ∈ t, c ≠ NUL) :
    cstr (t ++ NUL :: rest) = t := by
  unfold cstr
  induction t with
  | nil => simp [List.takeWhile]
  | cons a t ih =>
    have ha : a ≠ NUL := h a (List.mem_cons_self _ _)
    have := ih (fun c hc => h c (List.mem_cons_of_mem _ hc))
    simp [List.takeWhile_cons, ha, this]

theorem cstr_eq_take (p : List Char) : cstr p = p.take (cstr p).length := by
  unfold cstr
  have h := List.takeWhile_prefix (fun c => c != NUL) (l := p)
  exact (List.prefix_iff_eq_take.1 h)

theorem cstr_length_le (p : List Char) : (cstr p).length ≤ p.length := by
  unfold cstr
  exact (List.takeWhile_sublist _).length_le

/-- Storing a terminated text right behind the string of a buffer appends it
to that string. -/
theorem cstr_poke (buf x : List Char) (k : Nat) (hk : (cstr buf).length = k)
    (hx : ∀ c ∈ x, c ≠ NUL) : cstr (poke buf k (x ++ [NUL])) = cstr buf ++ x := by
  unfold poke
  have e : buf.take k = cstr buf := by rw [← hk]; exact (cstr_eq_take buf).symm
  rw [e]
  have : cstr buf ++ (x ++ [NUL]) ++ List.drop (k + (x ++ [NUL]).length) buf
      = (cstr buf ++ x) ++ NUL :: List.drop (k + (x ++ [NUL]).length) buf := by simp
  rw [this]
  apply cstr_append_nul
  intro c hc
  rcases List.mem_append.1 hc with h | h
  · exact cstr_no_nul _ c h
  · exact hx c h

theorem poke_length (buf x : List Char) (k : Nat) (h : k + x.length ≤ buf.length) :
    (poke buf k x).length = buf.length := by
  unfold poke
  simp
  omega

theorem poke_length_ge (buf x : List Char) (k : Nat) (h : k ≤ buf.length) :
    buf.length ≤ (poke buf k x).length := by
  unfold poke
  simp
  omega

/-! ## RetryPolicy -/

/-- The retry loop run with three iterations, unfolded: the outcomes of the
next three calls decide the result. -/
theorem with_retry_eq (rpc_ok : Nat → Bool) (c : Call) (tr : List Call) :
    with_retry rpc_ok c tr =
      if rpc_ok tr.length then (1, true, tr ++ [c])
      else if rpc_ok (tr.length + 1) then (2, true, tr ++ [c, c])
      else (3, rpc_ok (tr.length + 2), tr ++ [c, c, c]) := by
  simp only [with_retry, retry_loop]
  cases h0 : rpc_ok tr.length <;> cases h1 : rpc_ok (tr.length + 1) <;>
    cases h2 : rpc_ok (tr.length + 2) <;> simp [h0, h1, h2]

/-- More than three iterations of room change nothing. -/
theorem retry_loop_fuel (rpc_ok : Nat → Bool) (c : Call) (tr : List Call) (extra : Nat) :
    retry_loop rpc_ok c (3 + extra) 0 false tr = with_retry rpc_ok c tr := by
  rw [with_retry_eq]
  have e : 3 + extra = (extra + 1) + 1 + 1 := by omega
  rw [e]
  cases extra <;>
  simp only [retry_loop] <;>
  cases h0 : rpc_ok tr.length <;> cases h1 : rpc_ok (tr.length + 1) <;>
    cases h2 : rpc_ok (tr.length + 2) <;> simp [h0, h1, h2]

/-- C7: the retry loop makes `attempts` calls, at most three; every call before
the last one failed (no attempt follows a success); it reports success exactly
when one of the first three attempts succeeds and failure exactly when all
three fail, having then made three attempts; more room for iterations does not
change the result. -/
theorem retry_at_most_three (rpc_ok : Nat → Bool) (c : Call) (tr : List Call) :
    (with_retry rpc_ok c tr).1 ≤ 3
    ∧ 1 ≤ (with_retry rpc_ok c tr).1
    ∧ (with_retry rpc_ok c tr).2.2 = tr ++ List.replicate (with_retry rpc_ok c tr).1 c
    ∧ (∀ a, a + 1 < (with_retry rpc_ok c tr).1 → rpc_ok (tr.length + a) = false)
    ∧ ((with_retry rpc_ok c tr).2.1 = true →
        rpc_ok (tr.length + ((with_retry rpc_ok c tr).1 - 1)) = true)
    ∧ ((with_retry rpc_ok c tr).2.1 = true ↔ ∃ a, a < 3 ∧ rpc_ok (tr.length + a) = true)
    ∧ ((with_retry rpc_ok c tr).2.1 = false ↔ ∀ a, a < 3 → rpc_ok (tr.length + a) = false)
    ∧ ((with_retry rpc_ok c tr).2.1 = false → (with_retry rpc_ok c tr).1 = 3)
    ∧ (∀ extra, retry_loop rpc_ok c (3 + extra) 0 false tr = with_retry rpc_ok c tr) := by
  have key := with_retry_eq rpc_ok c tr
  have hf := retry_loop_fuel rpc_ok c tr
  have all3 : ∀ P : Nat → Prop, (∀ a, a < 3 → P a) ↔ (P 0 ∧ P 1 ∧ P 2) := by
    intro P
    constructor
    · intro h; exact ⟨h 0 (by omega), h 1 (by omega), h 2 (by omega)⟩
    · rintro ⟨h0, h1, h2⟩ a ha
      interval_cases a <;> assumption
  have ex3 : ∀ P : Nat → Prop, (∃ a, a < 3 ∧ P a) ↔ (P 0 ∨ P 1 ∨ P 2) := by
    intro P
    constructor
    · rintro ⟨a, ha, h⟩
      interval_cases a
      · exact Or.inl h
      · exact Or.inr (Or.inl h)
      · exact Or.inr (Or.inr h)
    · rintro (h | h | h)
      · exact ⟨0, by omega, h⟩
      · exact ⟨1, by omega, h⟩
      · exact ⟨2, by omega, h⟩
  rw [all3, ex3]
  refine ⟨?_, ?_, ?_, ?_, ?_, ?_, ?_, ?_, hf⟩ <;>
  cases h0 : rpc_ok tr.length <;> cases h1 : rpc_ok (tr.length + 1) <;>
    cases h2 : rpc_ok (tr.length + 2) <;>
    simp only [h0, h1, h2, if_true, if_false, Bool.false_eq_true] at key <;>
    rw [key] <;>
    simp [h0, h1, h2, List.replicate] <;>
    (intro a ha; (have : a = 0 ∨ a = 1 := by omega); rcases this with rfl | rfl <;> first | omega | simp [h0, h1])

/-! ## Waves of the batch loop -/

/-- A property kept by every step is kept by a left fold. -/
theorem foldl_keeps {α β : Type} (Q : β → Prop) (f : β → α → β) (l : List α) (b : β)
    (hb : Q b) (hf : ∀ b a, Q b → Q (f b a)) : Q (l.foldl f b) := by
  induction l generalizing b with
  | nil => exact hb
  | cons a l ih => exact ih (f b a) (hf b a hb)

/-- A wave adds its `(i, batch_size)` to the ghost list and nothing else. -/
theorem wave_waves (P : Params) (early : List Nat) (K N i : Int) (st : MainState) :
    (wave P early K N i st).waves = st.waves ++ [(i, batch_size i K N)] := by
  unfold wave
  simp only []
  congr 1
  apply foldl_keeps (fun s : MainState => s.waves = st.waves)
  · apply foldl_keeps (fun s : MainState => s.waves = st.waves)
    · apply foldl_keeps (fun s : MainState => s.waves = st.waves)
      · apply foldl_keeps (fun s : MainState × Int => s.1.waves = st.waves)
        · rfl
        · intro b a hb
          unfold create_one
          simp only []
          split_ifs <;> exact hb
      · intro b a hb
        unfold finish
        split_ifs <;> exact hb
    · intro b a hb
      unfold join finish
      split
      · split_ifs <;> exact hb
      · exact hb
  · intro b a hb
    unfold flush_one
    simp only []
    split_ifs <;> exact hb

/-- The waves the batch loop adds from index `i` on, with enough room for the
iterations. -/
theorem batch_loop_waves (P : Params) (sched : Int → List Nat) (K N : Nat)
    (hK : 1 ≤ K) (hKmax : (K : Int) ≤ INT_MAX) (hN : N ≤ 1000) :
    ∀ (fuel : Nat) (w : Nat) (st : MainState),
      (N + K - 1) / K ≤ w + fuel →
      ∃ st1, batch_loop P sched K N fuel ((w * K : Nat) : Int) st = some st1
        ∧ st1.waves = st.waves ++
            (List.range' w ((N + K - 1) / K - w)).map
              (fun v => (((v * K : Nat) : Int), ((min K (N - v * K) : Nat) : Int))) := by
  have hceil : ∀ v : Nat, v * K < N ↔ v < (N + K - 1) / K := by
    intro v
    rw [Nat.lt_iff_add_one_le (m := v), Nat.le_div_iff_mul_le (by omega), Nat.add_mul]
    omega
  intro fuel
  induction fuel with
  | zero =>
    intro w st hw
    have : ¬ (w * K < N) := by rw [hceil]; omega
    refine ⟨st, ?_, ?_⟩
    · simp only [batch_loop]
      rw [if_neg]
      push_cast
      push_cast at this
      exact_mod_cast this
    · have : (N + K - 1) / K - w = 0 := by omega
      simp [this]
  | succ fuel ih =>
    intro w st hw
    by_cases hlt : w * K < N
    · have hw1 : w < (N + K - 1) / K := (hceil w).1 hlt
      have hov : ¬ (((w * K : Nat) : Int) + (K : Int) > INT_MAX) := by
        unfold INT_MAX at *
        rcases Nat.eq_zero_or_pos w with h0 | hpos
        · subst h0; simp; omega
        · have : K ≤ w * K := Nat.le_mul_of_pos_left K hpos
          push_cast
          omega
      obtain ⟨st1, h1, h2⟩ := ih (w + 1) (wave P (sched ((w * K : Nat) : Int)) K N ((w * K : Nat) : Int) st) (by omega)
      refine ⟨st1, ?_, ?_⟩
      · simp only [batch_loop]
        rw [if_pos (by exact_mod_cast hlt), if_neg hov]
        have e : ((w * K : Nat) : Int) + (K : Int) = (((w + 1) * K : Nat) : Int) := by
          push_cast; ring
        rw [e]
        exact h1
      · rw [h2, wave_waves]
        have e : (N + K - 1) / K - w = ((N + K - 1) / K - (w + 1)) + 1 := by omega
        rw [e, List.range'_succ, List.map_cons, List.append_assoc]
        congr 2
        simp only [List.singleton_append, List.cons.injEq, Prod.mk.injEq, true_and, and_true]
        unfold batch_size
        split_ifs with hb
        · have : (w * K : Nat) + K ≤ N := by exact_mod_cast hb
          rw [Nat.min_eq_left (by omega)]
        · have : ¬ ((w * K : Nat) + K ≤ N) := by
            intro h; apply hb; exact_mod_cast h
          rw [Nat.min_eq_right (by omega)]
          push_cast
          omega
    · have hz : (N + K - 1) / K - w = 0 := by
        have := (hceil w).not.1 hlt
        omega
      refine ⟨st, ?_, ?_⟩
      · simp only [batch_loop]
        rw [if_neg]
        exact_mod_cast hlt
      · simp [hz]

/-- C3: for a concurrency limit `1 <= K` (an `int`) and `N <= 1000` GUIDs the
batch loop terminates (with room for `N` iterations, without leaving the range
of `int`) after exactly `(N + K - 1) / K` waves, the least `c` with `N <= c * K`
(the ceiling of `N / K`). Wave number `v` starts at `i = v * K` and has
`batch_size = min K (N - v * K)`, which is at least 1 and at most `K`, equal to
`K` for every wave but the last, and `N - K * (c - 1)` for the last, which ends
at `N`: the waves are consecutive index ranges that partition `0 .. N - 1`. -/
theorem waves_partition (P : Params) (sched : Int → List Nat) (st0 : MainState)
    (K N : Nat) (hK : 1 ≤ K) (hKmax : (K : Int) ≤ INT_MAX) (hN : N ≤ 1000) :
    (∃ st, batch_loop P sched K N N 0 st0 = some st
      ∧ st.waves = st0.waves ++
          (List.range ((N + K - 1) / K)).map
            (fun v => (((v * K : Nat) : Int), ((min K (N - v * K) : Nat) : Int)))
      ∧ st.waves.length = st0.waves.length + (N + K - 1) / K)
    ∧ N ≤ (N + K - 1) / K * K
    ∧ (∀ c, N ≤ c * K → (N + K - 1) / K ≤ c)
    ∧ (∀ v, v < (N + K - 1) / K →
        1 ≤ min K (N - v * K) ∧ min K (N - v * K) ≤ K
        ∧ v * K + min K (N - v * K) ≤ N
        ∧ (v + 1 < (N + K - 1) / K → min K (N - v * K) = K)
        ∧ (v + 1 = (N + K - 1) / K →
            min K (N - v * K) = N - K * ((N + K - 1) / K - 1)
            ∧ v * K + min K (N - v * K) = N)) := by
  have hceil : ∀ v : Nat, v * K < N ↔ v < (N + K - 1) / K := by
    intro v
    rw [Nat.lt_iff_add_one_le (m := v), Nat.le_div_iff_mul_le (by omega), Nat.add_mul]
    omega
  have hfuel : (N + K - 1) / K ≤ 0 + N := by
    rw [Nat.zero_add]
    by_contra hc
    push_neg at hc
    have h1 := (hceil N).2 hc
    have h2 : N * 1 ≤ N * K := Nat.mul_le_mul_left N hK
    omega
  obtain ⟨st, h1, h2⟩ := batch_loop_waves P sched K N hK hKmax hN N 0 st0 hfuel
  refine ⟨⟨st, ?_, ?_, ?_⟩, ?_, ?_, ?_⟩
  · simpa using h1
  · rw [h2, Nat.sub_zero, List.range_eq_range']
  · rw [h2]
    simp
  · by_contra hc
    push_neg at hc
    have := (hceil _).1 hc
    omega
  · intro c hc
    by_contra hlt
    push_neg at hlt
    have := (hceil c).2 hlt
    omega
  · intro v hv
    have hv1 : v * K < N := (hceil v).2 hv
    refine ⟨by omega, by omega, by omega, ?_, ?_⟩
    · intro hnext
      have h3 : (v + 1) * K < N := (hceil (v + 1)).2 hnext
      rw [Nat.add_mul] at h3
      omega
    · intro hlast
      have h3 : ¬ ((v + 1) * K < N) := by
        rw [hceil]; omega
      rw [Nat.add_mul] at h3
      have e : (N + K - 1) / K - 1 = v := by omega
      rw [e, Nat.mul_comm K v]
      omega

/-- Witness of C3: three GUIDs and `K = 2` give the waves `[0, 2)` and
`[2, 3)`. -/
theorem waves_partition_witness :
    (1 ≤ 2) ∧ ((2 : Nat) : Int) ≤ INT_MAX ∧ 3 ≤ 1000
    ∧ ∃ st, batch_loop params3 (fun _ => []) 2 3 3 0 (main_state0 3 2) = some st
        ∧ st.waves = [(0, 2), (2, 1)] := by
  obtain ⟨⟨st, h1, h2, _⟩, _⟩ := waves_partition params3 (fun _ => []) (main_state0 3 2) 2 3
    (by decide) (by decide) (by decide)
  refine ⟨by decide, by decide, by decide, st, by simpa using h1, ?_⟩
  rw [h2]
  decide

/-! ## The checked append -/

/-- Call of `appendf` at or past the capacity: nothing changes. -/
theorem appendf_closed (dst : List Char) (cap off : Int) (s : List Char) (h : cap ≤ off) :
    appendf dst cap off s = (-1, off, dst) := by
  unfold appendf
  rw [if_pos (by omega)]

/-- Call of `appendf` where the text and its terminator fit. -/
theorem appendf_ok (dst : List Char) (cap off : Int) (s : List Char)
    (h : off + s.length < cap) :
    appendf dst cap off s = (0, off + s.length, poke dst off.toNat (s ++ [NUL])) := by
  unfold appendf vsnprintf
  have hs : (0 : Int) ≤ s.length := Int.natCast_nonneg _
  have hsz : ¬ (cap - off ≤ 0) := by omega
  simp only [if_neg hsz]
  rw [if_neg (by omega), if_neg (by omega), if_neg (by omega)]
  rw [List.take_of_length_le (by omega)]

/-- Call of `appendf` where the text and its terminator do not fit. -/
theorem appendf_full (dst : List Char) (cap off : Int) (s : List Char)
    (h1 : off < cap) (h : cap ≤ off + s.length) :
    appendf dst cap off s
      = (-1, cap, poke dst off.toNat (s.take (cap - off - 1).toNat ++ [NUL])) := by
  unfold appendf vsnprintf
  have hs : (0 : Int) ≤ s.length := Int.natCast_nonneg _
  have hsz : ¬ (cap - off ≤ 0) := by omega
  simp only [if_neg hsz]
  rw [if_neg (by omega), if_neg (by omega), if_pos (by omega)]

/-- C5 as stated fails: a buffer holding 8000 bytes of text and a block of 192
bytes, so that `off + n = 8192`: `appendf` returns -1, and the string left in
the buffer lacks the last byte of the block. -/
theorem appendf_exact_fill_rejected :
    (8000 : Int) + ((List.replicate 192 'b').length : Int) = 8192
    ∧ (appendf (List.replicate 8000 'a' ++ List.replicate 192 NUL) 8192 8000
        (List.replicate 192 'b')).1 = -1
    ∧ (appendf (List.replicate 8000 'a' ++ List.replicate 192 NUL) 8192 8000
        (List.replicate 192 'b')).2.2
      = List.replicate 8000 'a' ++ List.replicate 191 'b' ++ [NUL] := by
  have hl : ((List.replicate 192 'b').length : Int) = 192 := by
    rw [List.length_replicate]; rfl
  refine ⟨by rw [hl]; decide, ?_, ?_⟩
  · rw [appendf_full _ _ _ _ (by decide) (by rw [hl]; decide)]
  · rw [appendf_full _ _ _ _ (by decide) (by rw [hl]; decide)]
    show poke _ (8000 : Int).toNat (List.take ((8192 : Int) - 8000 - 1).toNat _ ++ [NUL]) = _
    have e1 : (8000 : Int).toNat = 8000 := by decide
    have e2 : ((8192 : Int) - 8000 - 1).toNat = 191 := by decide
    rw [e1, e2]
    unfold poke
    rw [List.take_left' (List.length_replicate _ _), List.take_replicate,
      List.drop_of_length_le]
    · simp only [List.append_nil, List.append_assoc]
      have e3 : (191 ⊓ 192 : Nat) = 191 := by decide
      rw [e3]
    · simp only [List.length_append, List.length_replicate, List.length_take,
        List.length_singleton]
      decide

/-- The string of a text followed by terminators. -/
theorem strlen_text_pad (t : List Char) (k : Nat) (ht : ∀ c ∈ t, c ≠ NUL) :
    strlen (t ++ List.replicate (k + 1) NUL) = t.length := by
  unfold strlen
  rw [List.replicate_succ, cstr_append_nul t _ ht]

theorem replicate_no_nul (k : Nat) (a : Char) (ha : a ≠ NUL) :
    ∀ c ∈ List.replicate k a, c ≠ NUL := by
  intro c hc
  rw [List.mem_replicate] at hc
  rw [hc.2]; exact ha

/-- C5 (amended): with `cap = 8192` a block of length `n` behind `off` bytes of
text is stored whole, with return value 0 and the offset advanced to `off + n`,
when `off + n <= 8191` (the block and its terminator fit; `off + n = 8191`
fills the buffer). With `off + n = 8192` the call returns -1, sets the offset
to 8192 and leaves the block without its last byte. -/
theorem appendf_fill_boundary (dst : List Char) (off : Int) (s : List Char)
    (h0 : 0 ≤ off) (hs : ∀ c ∈ s, c ≠ NUL) (hstr : strlen dst = off) :
    (off + s.length ≤ 8191 →
      appendf dst 8192 off s = (0, off + s.length, poke dst off.toNat (s ++ [NUL]))
      ∧ cstr (appendf dst 8192 off s).2.2 = cstr dst ++ s
      ∧ strlen (appendf dst 8192 off s).2.2 = off + s.length)
    ∧ (off + s.length = 8192 →
      (appendf dst 8192 off s).1 = -1
      ∧ (appendf dst 8192 off s).2.1 = 8192
      ∧ cstr (appendf dst 8192 off s).2.2 = cstr dst ++ s.take (s.length - 1)) := by
  have hk : (cstr dst).length = off.toNat := by
    unfold strlen at hstr; omega
  constructor
  · intro h
    rw [appendf_ok dst 8192 off s (by omega)]
    refine ⟨rfl, ?_, ?_⟩
    · exact cstr_poke dst s _ hk hs
    · show strlen (poke dst off.toNat (s ++ [NUL])) = _
      unfold strlen
      rw [cstr_poke dst s _ hk hs, List.length_append]
      push_cast
      omega
  · intro h
    by_cases hc : off < 8192
    · rw [appendf_full dst 8192 off s hc (by omega)]
      refine ⟨rfl, rfl, ?_⟩
      show cstr (poke dst off.toNat (s.take ((8192 : Int) - off - 1).toNat ++ [NUL])) = _
      have e : ((8192 : Int) - off - 1).toNat = s.length - 1 := by omega
      rw [e]
      exact cstr_poke dst _ _ hk (fun c hc => hs c (List.mem_of_mem_take hc))
    · rw [appendf_closed dst 8192 off s (by omega)]
      have e : s.length = 0 := by omega
      have e2 : s = [] := List.length_eq_zero.1 e
      subst e2
      refine ⟨rfl, by simp; omega, by simp⟩

/-- Witness of C5 (amended): 8000 bytes of text and a block of 191 bytes. -/
theorem appendf_fill_boundary_witness :
    (0 : Int) ≤ 8000
    ∧ (∀ c ∈ List.replicate 191 'b', c ≠ NUL)
    ∧ strlen (List.replicate 8000 'a' ++ List.replicate 192 NUL) = 8000
    ∧ ((8000 : Int) + ((List.replicate 191 'b').length : Int) ≤ 8191 →
      appendf (List.replicate 8000 'a' ++ List.replicate 192 NUL) 8192 8000
          (List.replicate 191 'b')
        = (0, 8000 + ((List.replicate 191 'b').length : Int),
            poke (List.replicate 8000 'a' ++ List.replicate 192 NUL) (8000 : Int).toNat
              (List.replicate 191 'b' ++ [NUL]))) := by
  have hs : ∀ c ∈ List.replicate 191 'b', c ≠ NUL := replicate_no_nul _ _ (by decide)
  have hstr : strlen (List.replicate 8000 'a' ++ List.replicate 192 NUL) = 8000 := by
    rw [strlen_text_pad _ 191 (replicate_no_nul _ _ (by decide)), List.length_replicate]
    rfl
  exact ⟨by decide, hs, hstr, fun h =>
    ((appendf_fill_boundary _ 8000 _ (by decide) hs hstr).1 h).1⟩

/-! ## The failure diagnostic -/

theorem fmt_d_length (x : Int) (h1 : -(2 ^ 31) ≤ x) (h2 : x < 2 ^ 31) :
    (fmt_d x).length ≤ 11 := by
  have hn : x.natAbs < 10 ^ 10 := by omega
  have hl : (Nat.toDigits 10 x.natAbs).length ≤ 10 :=
    Nat.toDigitsCore_length 10 (by decide) _ _ 10 hn (by decide)
  unfold fmt_d
  split_ifs
  · simp only [List.length_cons]; omega
  · omega

theorem fmt_016x_length (g : Nat) (h : g < 2 ^ 64) : (fmt_016x g).length = 16 := by
  have hn : g < 16 ^ 16 := by
    have : (16 : Nat) ^ 16 = 2 ^ 64 := by norm_num
    omega
  have hl : (Nat.toDigits 16 g).length ≤ 16 :=
    Nat.toDigitsCore_length 16 (by decide) _ _ 16 hn (by decide)
  unfold fmt_016x zero_pad
  simp only [List.length_append, List.length_replicate]
  omega

theorem plain_no_nul {l : List Char} (h : ∀ c ∈ l, plain c) : ∀ c ∈ l, c ≠ NUL :=
  fun c hc => (h c hc).1

theorem failure_texts_clean : ∀ w ∈ failure_texts,
    w.length ≤ 40 ∧ ∀ c ∈ w, plain c := by
  unfold failure_texts plain NUL
  decide

/-- The diagnostic has no terminator inside. -/
theorem diagnostic_no_nul (what : List Char) (hw : what ∈ failure_texts)
    (td : thread_data_t) (env : Env) : ∀ c ∈ diagnostic what td env, c ≠ NUL := by
  intro c hc
  unfold diagnostic at hc
  simp only [List.mem_append] at hc
  rcases hc with ((((((h | h) | h) | h) | h) | h) | h)
  · revert c; unfold NUL; decide
  · exact (fmt_d_plain _ c h).1
  · exact ((failure_texts_clean what hw).2 c h).1
  · revert c; unfold NUL; decide
  · exact (fmt_016x_plain _ c h).1
  · revert c; unfold NUL; decide
  · exact cstr_no_nul _ c h

theorem diagnostic_length (what : List Char) (hw : what ∈ failure_texts)
    (td : thread_data_t) (env : Env) (hct : ctime_line env.ctime)
    (h1 : -(2 ^ 31) ≤ td.thread_id) (h2 : td.thread_id < 2 ^ 31) (hg : td.guid < 2 ^ 64) :
    9 ≤ (diagnostic what td env).length ∧ (diagnostic what td env).length ≤ 107 := by
  obtain ⟨body, hb, hbl, _⟩ := hct
  have a := fmt_d_length td.thread_id h1 h2
  have b := fmt_016x_length td.guid hg
  have c := (failure_texts_clean what hw).1
  unfold diagnostic fmt_s
  rw [hb]
  simp only [List.length_append, b, hbl, List.length_singleton]
  have e1 : "# Thread ".toList.length = 9 := by decide
  have e2 : "0x".toList.length = 2 := by decide
  have e3 : " at ".toList.length = 4 := by decide
  rw [e1, e2, e3]
  omega

theorem diagnostic_length_pos (what : List Char) (td : thread_data_t) (env : Env) :
    9 ≤ (diagnostic what td env).length := by
  unfold diagnostic
  simp only [List.length_append]
  have e1 : "# Thread ".toList.length = 9 := by decide
  omega

/-- The number of newlines in a list of plain characters. -/
theorem count_nl_plain {l : List Char} (h : ∀ c ∈ l, plain c) : l.count '\n' = 0 := by
  rw [List.count_eq_zero]
  intro hm
  exact (h _ hm).2.2 rfl

theorem not_hash_plain {l : List Char} (h : ∀ c ∈ l, plain c) : '#' ∉ l :=
  fun hm => (h _ hm).2.1 rfl

/-- A text that starts with `"# T"` and has no other `'#'` holds no port header. -/
theorem no_port_header (L : List Char) (h1 : L.take 3 = ['#', ' ', 'T'])
    (h2 : '#' ∉ L.tail) : ¬ ("# Port counters:".toList <:+: L) := by
  rintro ⟨s, t, h⟩
  cases s with
  | nil =>
    have : L.take 3 = ['#', ' ', 'P'] := by rw [← h]; rfl
    rw [h1] at this
    exact absurd this (by decide)
  | cons a s =>
    apply h2
    rw [← h]
    simp only [List.cons_append, List.tail_cons, List.mem_append, List.append_assoc]
    right; left
    decide

/-- The diagnostic is one line that names the GUID and holds no port header. -/
theorem diagnostic_one_line (what : List Char) (hw : what ∈ failure_texts)
    (td : thread_data_t) (env : Env) (hct : ctime_line env.ctime) :
    (diagnostic what td env).count '\n' = 1
    ∧ (diagnostic what td env).getLast? = some '\n'
    ∧ ("0x".toList ++ fmt_016x td.guid) <:+: diagnostic what td env
    ∧ ¬ ("# Port counters:".toList <:+: diagnostic what td env) := by
  obtain ⟨body, hb, hbl, hbp⟩ := hct
  have hwp := (failure_texts_clean what hw).2
  have hd := fmt_d_plain td.thread_id
  have hx := fmt_016x_plain td.guid
  refine ⟨?_, ?_, ?_, ?_⟩
  · unfold diagnostic fmt_s
    rw [hb]
    simp only [List.count_append, count_nl_plain hd, count_nl_plain hwp, count_nl_plain hx,
      count_nl_plain hbp]
    decide
  · unfold diagnostic fmt_s
    rw [hb, ← List.append_assoc]
    exact List.getLast?_concat _
  · unfold diagnostic
    exact ⟨"# Thread ".toList ++ fmt_d td.thread_id ++ what, " at ".toList ++ fmt_s env.ctime,
      by simp only [List.append_assoc]⟩
  · apply no_port_header
    · unfold diagnostic
      simp only [List.append_assoc]
      rfl
    · unfold diagnostic fmt_s
      rw [hb]
      simp only [List.append_assoc]
      show '#' ∉ (" Thread ".toList ++ _)
      simp only [List.mem_append, not_or]
      refine ⟨by decide, not_hash_plain hd, not_hash_plain hwp, by decide, not_hash_plain hx,
        by decide, not_hash_plain hbp, by decide⟩

/-! ## Header and port block -/

theorem header_text_no_nul (td : thread_data_t) (env : Env) :
    ∀ c ∈ header_text td env, c ≠ NUL := by
  intro c hc
  unfold header_text at hc
  simp only [List.mem_append] at hc
  rcases hc with (((((((h | h) | h) | h) | h) | h) | h) | h)
  · revert c; unfold NUL; decide
  · exact (fmt_d_plain _ c h).1
  · revert c; unfold NUL; decide
  · exact (fmt_016x_plain _ c h).1
  · revert c; unfold NUL; decide
  · exact (fmt_d_plain _ c h).1
  · revert c; unfold NUL; decide
  · exact cstr_no_nul _ c h

theorem header_line_no_nul (td : thread_data_t) (env : Env) :
    ∀ c ∈ header_line td env, c ≠ NUL :=
  fun c hc => header_text_no_nul td env c (List.mem_of_mem_take hc)

theorem header_line_length (td : thread_data_t) (env : Env) :
    9 ≤ (header_line td env).length ∧ (header_line td env).length ≤ 255 := by
  unfold header_line
  rw [List.length_take]
  have : 9 ≤ (header_text td env).length := by
    unfold header_text
    simp only [List.length_append]
    have e1 : "# Thread ".toList.length = 9 := by decide
    omega
  omega

theorem port_block_no_nul (M : Mad) (env : Env) (cm i : Nat) (dump : List Char) :
    ∀ c ∈ port_block M env cm i dump, c ≠ NUL := by
  intro c hc
  unfold port_block at hc
  simp only [List.mem_append] at hc
  rcases hc with (((((((h | h) | h) | h) | h) | h) | h) | h)
  · revert c; unfold NUL; decide
  · exact cstr_no_nul _ c h
  · revert c; unfold NUL; decide
  · exact (fmt_d_plain _ c h).1
  · revert c; unfold NUL; decide
  · exact (fmt_02X_plain _ c h).1
  · revert c; unfold NUL; decide
  · exact cstr_no_nul _ c h

/-- The buffer after lines 499-500 holds the header string. -/
theorem header_stored (ob H : List Char) (hH : ∀ c ∈ H, c ≠ NUL) (hl : H.length ≤ 255) :
    cstr (poke (strncpy ob H 8191) 8191 [NUL]) = H := by
  have e : 8191 - H.length = (8190 - H.length) + 1 := by omega
  have hX : strncpy ob H 8191
      = H ++ NUL :: (List.replicate (8190 - H.length) NUL
          ++ ob.drop (0 + (H.take 8191 ++ List.replicate (8191 - H.length) NUL).length)) := by
    unfold strncpy poke
    rw [List.take_zero, List.nil_append]
    rw [List.take_of_length_le (by omega : H.length ≤ 8191)]
    rw [e, List.replicate_succ]
    simp only [List.append_assoc, List.cons_append]
  rw [hX]
  unfold poke
  rw [List.take_append_eq_append_take, List.take_of_length_le (by omega : H.length ≤ 8191),
    e, List.take_succ_cons]
  simp only [List.append_assoc, List.cons_append]
  exact cstr_append_nul H _ hH

/-! ## The port loop -/

/-- What `emit` does to a state that satisfies the loop invariant. -/
theorem emit_spec (M : Mad) (env : Env) (cm i : Nat) (dump H : List Char) (st : LoopState)
    (hinv : LoopInv H st) (hb : st.broke = false) :
    LoopInv H (emit M env cm i dump st).2
    ∧ (emit M env cm i dump st).1 = (emit M env cm i dump st).2.broke
    ∧ (emit M env cm i dump st).2.trace = st.trace
    ∧ (emit M env cm i dump st).2.visited = st.visited := by
  obtain ⟨h0, h1, h2, h3, h4, h5, h6, h7⟩ := hinv
  obtain ⟨hstr, hlt⟩ := h2 hb
  have hk : (cstr st.buf).length = st.off.toNat := by unfold strlen at hstr; omega
  unfold emit
  split_ifs with hd
  · have hs := port_block_no_nul M env cm i dump
    by_cases hfit : st.off + (port_block M env cm i dump).length < MAX_OUTPUT_SIZE
    · rw [appendf_ok _ _ _ _ hfit]
      simp only [Int.lt_irrefl, if_false, hb]
      refine ⟨⟨?_, ?_, ?_, ?_, ?_, ?_, ?_, ?_⟩, trivial, trivial, trivial⟩
      · show 0 ≤ st.off + _
        omega
      · show st.off + _ ≤ _
        omega
      · intro _
        refine ⟨?_, hfit⟩
        unfold strlen
        rw [cstr_poke _ _ _ hk hs, List.length_append]
        push_cast
        omega
      · intro h; exact absurd h (by simp)
      · intro o ho
        rcases List.mem_append.1 ho with h | h
        · exact h4 o h
        · simp only [List.mem_singleton] at h
          subst h; constructor <;> omega
      · rw [cstr_poke _ _ _ hk hs]
        exact h5.trans (List.prefix_append _ _)
      · intro _ o ho
        rcases List.mem_append.1 ho with h | h
        · exact h6 hb o h
        · simp only [List.mem_singleton] at h
          subst h; exact hfit
      · intro h; exact absurd h (by simp)
    · rw [appendf_full _ _ _ _ hlt (by omega)]
      have hneg : ((-1 : Int) < 0) := by decide
      simp only [hneg, if_true]
      have hx : ∀ c ∈ (port_block M env cm i dump).take (MAX_OUTPUT_SIZE - st.off - 1).toNat,
          c ≠ NUL := fun c hc => hs c (List.mem_of_mem_take hc)
      refine ⟨⟨?_, le_refl _, ?_, ?_, ?_, ?_, ?_, ?_⟩, trivial, trivial, trivial⟩
      · show 0 ≤ MAX_OUTPUT_SIZE
        unfold MAX_OUTPUT_SIZE; decide
      · intro h; exact absurd h (by simp)
      · intro _
        refine ⟨rfl, ?_⟩
        show strlen (poke _ _ _) = _
        unfold strlen
        rw [cstr_poke _ _ _ hk hx, List.length_append, List.length_take]
        push_cast
        omega
      · intro o ho
        rcases List.mem_append.1 ho with h | h
        · exact h4 o h
        · simp only [List.mem_singleton] at h
          subst h
          exact ⟨by unfold MAX_OUTPUT_SIZE; decide, le_refl _⟩
      · show H <+: cstr (poke _ _ _)
        rw [cstr_poke _ _ _ hk hx]
        exact h5.trans (List.prefix_append _ _)
      · intro h; exact absurd h (by simp)
      · intro _
        exact List.mem_append.2 (Or.inr (List.mem_singleton.2 rfl))
  · exact ⟨⟨h0, h1, h2, h3, h4, h5, h6, h7⟩, hb.symm, rfl, rfl⟩

/-- The calls a retry loop adds to the trace are copies of its call. -/
theorem with_retry_trace (rpc_ok : Nat → Bool) (c : Call) (tr : List Call) :
    ∃ a, 1 ≤ a ∧ a ≤ 3 ∧ (with_retry rpc_ok c tr).2.2 = tr ++ List.replicate a c := by
  rw [with_retry_eq]
  split_ifs
  · exact ⟨1, by omega, by omega, rfl⟩
  · exact ⟨2, by omega, by omega, rfl⟩
  · exact ⟨3, by omega, by omega, rfl⟩

theorem with_retry_mem (rpc_ok : Nat → Bool) (c : Call) (tr : List Call) (x : Call)
    (hx : x ∈ (with_retry rpc_ok c tr).2.2) : x ∈ tr ∨ x = c := by
  obtain ⟨a, _, _, e⟩ := with_retry_trace rpc_ok c tr
  rw [e] at hx
  rcases List.mem_append.1 hx with h | h
  · exact Or.inl h
  · exact Or.inr (List.eq_of_mem_replicate h)

/-- One pass through the body of the port loop keeps the invariant, reports
`break` as the ghost flag does, records the index and adds only port-counter
calls to the trace. -/
theorem port_body_spec (M : Mad) (env : Env) (td : thread_data_t) (cm cm2 i : Nat)
    (H : List Char) (st : LoopState) (hinv : LoopInv H st) (hb : st.broke = false) :
    LoopInv H (port_body M env td cm cm2 i st).2
    ∧ (port_body M env td cm cm2 i st).1 = (port_body M env td cm cm2 i st).2.broke
    ∧ (port_body M env td cm cm2 i st).2.visited = st.visited ++ [i]
    ∧ (∀ x ∈ (port_body M env td cm cm2 i st).2.trace, x ∈ st.trace ∨ x.stage = 4) := by
  have hinv1 : ∀ tr, LoopInv H { st with visited := st.visited ++ [i], trace := tr } := by
    intro tr; exact hinv
  unfold port_body
  simp only []
  split_ifs with h1 h2 h3 h4
  · refine ⟨hinv1 _, hb.symm, rfl, ?_⟩
    intro x hx
    rcases with_retry_mem _ _ _ x hx with h | h
    · exact Or.inl h
    · right; rw [h]; rfl
  · obtain ⟨a, b, c, d⟩ := emit_spec M env cm i
      (cstr (env.mad_dump_perfcounters i (decide (cm &&& M.IB_PM_PC_XMIT_WAIT_SUP = 0)))) H
      { st with visited := st.visited ++ [i],
                trace := (with_retry env.rpc_ok (Call.port_counters i) st.trace).2.2 }
      (hinv1 _) hb
    refine ⟨a, b, d, ?_⟩
    intro x hx
    rw [c] at hx
    rcases with_retry_mem _ _ _ x hx with h | h
    · exact Or.inl h
    · right; rw [h]; rfl
  · refine ⟨hinv1 _, hb.symm, rfl, ?_⟩
    intro x hx
    rcases with_retry_mem _ _ _ x hx with h | h
    · exact Or.inl h
    · right; rw [h]; rfl
  · obtain ⟨a, b, c, d⟩ := emit_spec M env cm i
      (dump_perfcounters_ext M env i 1536 cm cm2) H
      { st with visited := st.visited ++ [i],
                trace := (with_retry env.rpc_ok (Call.port_counters_ext i) st.trace).2.2 }
      (hinv1 _) hb
    refine ⟨a, b, d, ?_⟩
    intro x hx
    rw [c] at hx
    rcases with_retry_mem _ _ _ x hx with h | h
    · exact Or.inl h
    · right; rw [h]; rfl
  · exact ⟨hinv, hb.symm, rfl, fun x hx => Or.inl hx⟩

/-- The port loop keeps the invariant; it visits consecutive indices from `i`
on, all of them up to `num_ports` unless it is left through `break`. -/
theorem port_loop_spec (M : Mad) (env : Env) (td : thread_data_t) (cm cm2 P : Nat)
    (H : List Char) : ∀ (fuel i : Nat) (st : LoopState), LoopInv H st → st.broke = false →
    LoopInv H (port_loop M env td cm cm2 P fuel i st)
    ∧ (∀ x ∈ (port_loop M env td cm cm2 P fuel i st).trace, x ∈ st.trace ∨ x.stage = 4)
    ∧ ∃ n, (port_loop M env td cm cm2 P fuel i st).visited = st.visited ++ List.range' i n
        ∧ n ≤ min fuel (P + 1 - i)
        ∧ ((port_loop M env td cm cm2 P fuel i st).broke = false → n = min fuel (P + 1 - i))
        ∧ ((port_loop M env td cm cm2 P fuel i st).broke = true → 1 ≤ n) := by
  intro fuel
  induction fuel with
  | zero =>
    intro i st hinv hb
    refine ⟨hinv, fun x hx => Or.inl hx, 0, by simp [port_loop], by omega, fun _ => by omega, ?_⟩
    intro h
    simp only [port_loop] at h
    rw [hb] at h; exact absurd h (by simp)
  | succ fuel ih =>
    intro i st hinv hb
    simp only [port_loop]
    split_ifs with hle hbr
    · obtain ⟨a, b, c, d⟩ := port_body_spec M env td cm cm2 i H st hinv hb
      refine ⟨a, d, 1, by rw [c]; rfl, by omega, ?_, fun _ => le_refl _⟩
      intro h
      rw [← b, hbr] at h
      exact absurd h (by simp)
    · obtain ⟨a, b, c, d⟩ := port_body_spec M env td cm cm2 i H st hinv hb
      have hb2 : (port_body M env td cm cm2 i st).2.broke = false := by
        rw [← b]; simpa using hbr
      obtain ⟨a2, d2, n, e1, e2, e3, e4⟩ := ih (i + 1) _ a hb2
      refine ⟨a2, ?_, n + 1, ?_, by omega, fun h => by have := e3 h; omega, fun _ => by omega⟩
      · intro x hx
        rcases d2 x hx with h | h
        · exact d x h
        · exact Or.inr h
      · rw [e1, c, List.range'_succ, List.append_assoc]
        rfl
    · refine ⟨hinv, fun x hx => Or.inl hx, 0, by simp, by omega, fun _ => by omega, ?_⟩
      intro h
      rw [hb] at h; exact absurd h (by simp)

/-! ## The ways a run ends -/

/-- A retry loop that reports failure has made three calls, all failed. -/
theorem with_retry_fail (rpc_ok : Nat → Bool) (c : Call) (tr : List Call)
    (h : (with_retry rpc_ok c tr).2.1 = false) :
    (with_retry rpc_ok c tr).2.2 = tr ++ [c, c, c]
    ∧ rpc_ok tr.length = false ∧ rpc_ok (tr.length + 1) = false
    ∧ rpc_ok (tr.length + 2) = false := by
  rw [with_retry_eq] at h ⊢
  cases h0 : rpc_ok tr.length <;> cases h1 : rpc_ok (tr.length + 1) <;>
    cases h2 : rpc_ok (tr.length + 2) <;> simp [h0, h1, h2] at h ⊢

theorem stage_le_of_mem_retry (rpc_ok : Nat → Bool) (c : Call) (tr : List Call) (k : Nat)
    (htr : ∀ x ∈ tr, x.stage ≤ k) (hc : c.stage ≤ k) :
    ∀ x ∈ (with_retry rpc_ok c tr).2.2, x.stage ≤ k := by
  intro x hx
  rcases with_retry_mem _ _ _ x hx with h | h
  · exact htr x h
  · rw [h]; exact hc

theorem retry_cause (env : Env) (c : Call) (t : Terminal) (tr : List Call)
    (ht : t ≠ Terminal.invalid_ports) (hs : c.stage = t.stage)
    (hf : (with_retry env.rpc_ok c tr).2.1 = false) :
    failure_cause env t (with_retry env.rpc_ok c tr).2.2 := by
  obtain ⟨e, f0, f1, f2⟩ := with_retry_fail _ _ _ hf
  exact ⟨fun h => absurd h ht, fun _ => ⟨tr, c, e, hs, f0, f1, f2⟩⟩

/-- The two ways `query_ports` ends. -/
theorem ports_cases (M : Mad) (env : Env) (td : thread_data_t) (start : Nat) (tr : List Call)
    (hp : env.num_ports ≠ 0) (hstart : start = expected_start M env)
    (hstage : ∀ x ∈ tr, x.stage ≤ 2)
    (hsw : env.node_type ≠ M.IB_NODE_SWITCH → Call.switch_info ∉ tr) :
    (∃ what t tr1, what ∈ failure_texts ∧ t ≠ Terminal.done
      ∧ query_ports M env td start tr = fail_with what t td env tr1
      ∧ (∀ x ∈ tr1, x.stage ≤ t.stage) ∧ failure_cause env t tr1)
    ∨ (∃ start1 tr1, query_ports M env td start tr = port_stage M env td start1 tr1
      ∧ env.num_ports ≠ 0
      ∧ start1 = expected_start M env
      ∧ (∀ x ∈ tr1, x.stage ≤ 3)
      ∧ (env.node_type ≠ M.IB_NODE_SWITCH → Call.switch_info ∉ tr1)) := by
  have s3 := stage_le_of_mem_retry env.rpc_ok Call.class_port_info tr 3
    (fun x hx => (hstage x hx).trans (by omega)) (le_refl _)
  unfold query_ports
  dsimp only
  by_cases h : (with_retry env.rpc_ok Call.class_port_info tr).2.1 = false
  · left
    rw [if_pos h]
    exact ⟨_, Terminal.failed_class_info, _, by simp [failure_texts], by simp, rfl, s3,
      retry_cause env _ _ _ (by simp) rfl h⟩
  · right
    rw [if_neg h]
    refine ⟨start, _, rfl, hp, hstart, s3, ?_⟩
    intro hn hm
    rcases with_retry_mem _ _ _ _ hm with h | h
    · exact hsw hn h
    · exact absurd h (by simp)

/-- The two ways `query_switch` ends. -/
theorem switch_cases (M : Mad) (env : Env) (td : thread_data_t) (tr : List Call)
    (hp : env.num_ports ≠ 0) (hstage : ∀ x ∈ tr, x.stage ≤ 1) :
    (∃ what t tr1, what ∈ failure_texts ∧ t ≠ Terminal.done
      ∧ query_switch M env td tr = fail_with what t td env tr1
      ∧ (∀ x ∈ tr1, x.stage ≤ t.stage) ∧ failure_cause env t tr1)
    ∨ (∃ start1 tr1, query_switch M env td tr = port_stage M env td start1 tr1
      ∧ env.num_ports ≠ 0
      ∧ start1 = expected_start M env
      ∧ (∀ x ∈ tr1, x.stage ≤ 3)
      ∧ (env.node_type ≠ M.IB_NODE_SWITCH → Call.switch_info ∉ tr1)) := by
  unfold query_switch
  by_cases h4 : env.node_type = M.IB_NODE_SWITCH
  · rw [if_pos h4]
    dsimp only
    have s2 := stage_le_of_mem_retry env.rpc_ok Call.switch_info tr 2
      (fun x hx => (hstage x hx).trans (by omega)) (le_refl _)
    by_cases h5 : (with_retry env.rpc_ok Call.switch_info tr).2.1 = false
    · left
      rw [if_pos h5]
      exact ⟨_, Terminal.failed_switch_info, _, by simp [failure_texts], by simp, rfl, s2,
        retry_cause env _ _ _ (by simp) rfl h5⟩
    · rw [if_neg h5]
      apply ports_cases M env td _ _ hp _ s2 (fun hn => absurd h4 hn)
      unfold expected_start
      by_cases h6 : env.enhancedport0 = 0 <;> simp [h4, h6]
  · rw [if_neg h4]
    apply ports_cases M env td _ _ hp _ (fun x hx => (hstage x hx).trans (by omega))
    · intro _ hm
      have := hstage _ hm
      simp [Call.stage] at this
    · unfold expected_start
      simp [h4]

/-- The two ways a run of `query_guid_thread` ends: through one of the five
failure exits, or through the port stage. -/
theorem run_cases (M : Mad) (env : Env) (td : thread_data_t) :
    (∃ what t tr, what ∈ failure_texts ∧ t ≠ Terminal.done
      ∧ query_guid_thread M env td = fail_with what t td env tr
      ∧ (∀ x ∈ tr, x.stage ≤ t.stage) ∧ failure_cause env t tr)
    ∨ (∃ start tr, query_guid_thread M env td = port_stage M env td start tr
      ∧ env.num_ports ≠ 0
      ∧ start = expected_start M env
      ∧ (∀ x ∈ tr, x.stage ≤ 3)
      ∧ (env.node_type ≠ M.IB_NODE_SWITCH → Call.switch_info ∉ tr)) := by
  have s0 : ∀ x ∈ (with_retry env.rpc_ok Call.resolve []).2.2, x.stage ≤ 0 :=
    stage_le_of_mem_retry _ _ _ 0 (by simp) (le_refl _)
  have s1 : ∀ x ∈ (with_retry env.rpc_ok Call.node_info
      (with_retry env.rpc_ok Call.resolve []).2.2).2.2, x.stage ≤ 1 :=
    stage_le_of_mem_retry _ _ _ 1 (fun x hx => (s0 x hx).trans (by omega)) (le_refl _)
  unfold query_guid_thread
  dsimp only
  by_cases h1 : (with_retry env.rpc_ok Call.resolve []).2.1 = false
  · left
    rw [if_pos h1]
    exact ⟨_, Terminal.failed_resolve, _, by simp [failure_texts], by simp, rfl, s0,
      retry_cause env _ _ _ (by simp) rfl h1⟩
  · rw [if_neg h1]
    by_cases h2 : (with_retry env.rpc_ok Call.node_info
        (with_retry env.rpc_ok Call.resolve []).2.2).2.1 = false
    · left
      rw [if_pos h2]
      exact ⟨_, Terminal.failed_node_info, _, by simp [failure_texts], by simp, rfl, s1,
        retry_cause env _ _ _ (by simp) rfl h2⟩
    · rw [if_neg h2]
      by_cases h3 : env.num_ports = 0
      · left
        rw [if_pos h3]
        exact ⟨_, Terminal.invalid_ports, _, by simp [failure_texts], by simp, rfl, s1,
          ⟨fun _ => h3, fun h => absurd rfl h⟩⟩
      · rw [if_neg h3]
        exact switch_cases M env td _ h3 s1

/-! ## Calls that succeeded -/


theorem call_succeeded_iff (env : Env) (tr : List Call) (c : Call) :
    call_succeeded env tr c = true ↔ ∃ k, tr[k]? = some c ∧ env.rpc_ok k = true := by
  unfold call_succeeded
  rw [List.any_eq_true]
  constructor
  · rintro ⟨k, _, hk⟩
    simp only [Bool.and_eq_true, decide_eq_true_eq] at hk
    exact ⟨k, hk.1, hk.2⟩
  · rintro ⟨k, h1, h2⟩
    have hlt : k < tr.length := by
      by_contra hc
      rw [List.getElem?_eq_none (by omega)] at h1
      exact absurd h1 (by simp)
    exact ⟨k, List.mem_range.2 hlt, by simp [h1, h2]⟩

/-- Calls other than `c` added to a trace do not change whether `c` succeeded. -/
theorem call_succeeded_append (env : Env) (tr ext : List Call) (c : Call) (h : c ∉ ext) :
    call_succeeded env (tr ++ ext) c = call_succeeded env tr c := by
  rw [Bool.eq_iff_iff, call_succeeded_iff, call_succeeded_iff]
  constructor
  · rintro ⟨k, h1, h2⟩
    by_cases hk : k < tr.length
    · rw [List.getElem?_append_left hk] at h1
      exact ⟨k, h1, h2⟩
    · rw [List.getElem?_append_right (by omega)] at h1
      exact absurd (List.mem_iff_getElem?.2 ⟨_, h1⟩) h
  · rintro ⟨k, h1, h2⟩
    have hk : k < tr.length := by
      by_contra hc
      rw [List.getElem?_eq_none (by omega)] at h1
      exact absurd h1 (by simp)
    exact ⟨k, by rw [List.getElem?_append_left hk]; exact h1, h2⟩

/-- What a retry loop leaves for a call that is not yet in the trace: between
one and three copies of the call, and the call succeeded exactly when the loop
reports success; three copies when it reports failure. -/
theorem with_retry_fresh (env : Env) (c : Call) (tr : List Call) (hc : c ∉ tr) :
    ∃ a, 1 ≤ a ∧ a ≤ 3
      ∧ (with_retry env.rpc_ok c tr).2.2 = tr ++ List.replicate a c
      ∧ call_succeeded env (tr ++ List.replicate a c) c = (with_retry env.rpc_ok c tr).2.1
      ∧ ((with_retry env.rpc_ok c tr).2.1 = false → a = 3) := by
  have key : ∀ a : Nat, call_succeeded env (tr ++ List.replicate a c) c = true ↔
      ∃ k, k < a ∧ env.rpc_ok (tr.length + k) = true := by
    intro a
    rw [call_succeeded_iff]
    constructor
    · rintro ⟨k, h1, h2⟩
      by_cases hk : k < tr.length
      · rw [List.getElem?_append_left hk] at h1
        exact absurd (List.mem_iff_getElem?.2 ⟨_, h1⟩) hc
      · rw [List.getElem?_append_right (by omega), List.getElem?_replicate] at h1
        split_ifs at h1 with hlt
        exact ⟨k - tr.length, hlt, by rw [Nat.add_sub_cancel' (by omega)]; exact h2⟩
    · rintro ⟨k, hk, h2⟩
      refine ⟨tr.length + k, ?_, h2⟩
      rw [List.getElem?_append_right (by omega), Nat.add_sub_cancel_left,
        List.getElem?_replicate, if_pos hk]
  rw [with_retry_eq]
  cases h0 : env.rpc_ok tr.length
  · cases h1 : env.rpc_ok (tr.length + 1)
    · refine ⟨3, by omega, by omega, by simp [List.replicate], ?_, fun _ => rfl⟩
      simp only [Bool.false_eq_true, if_false]
      rw [Bool.eq_iff_iff, key]
      constructor
      · rintro ⟨k, hk, h⟩
        have : k = 0 ∨ k = 1 ∨ k = 2 := by omega
        rcases this with rfl | rfl | rfl
        · rw [Nat.add_zero, h0] at h; exact absurd h (by simp)
        · rw [h1] at h; exact absurd h (by simp)
        · exact h
      · intro h
        exact ⟨2, by omega, h⟩
    · refine ⟨2, by omega, by omega, by simp [List.replicate], ?_, ?_⟩
      · simp only [Bool.false_eq_true, if_false, if_true]
        rw [key]
        exact ⟨1, by omega, h1⟩
      · simp
  · refine ⟨1, by omega, by omega, by simp [List.replicate], ?_, ?_⟩
    · simp only [if_true]
      rw [key]
      exact ⟨0, by omega, by rw [Nat.add_zero]; exact h0⟩
    · simp

/-- The text `emit` adds when the loop is not left. -/
theorem emit_text (M : Mad) (env : Env) (cm i : Nat) (dump H : List Char) (st : LoopState)
    (hinv : LoopInv H st) (hb : st.broke = false)
    (hnb : (emit M env cm i dump st).2.broke = false) :
    cstr (emit M env cm i dump st).2.buf
      = cstr st.buf ++ (if dump ≠ [] then port_block M env cm i dump else []) := by
  obtain ⟨h0, h1, h2, h3, h4, h5, h6, h7⟩ := hinv
  obtain ⟨hstr, hlt⟩ := h2 hb
  have hk : (cstr st.buf).length = st.off.toNat := by unfold strlen at hstr; omega
  have hneg : ((-1 : Int) < 0) := by decide
  unfold emit at hnb ⊢
  by_cases hd : dump ≠ []
  · rw [if_pos hd] at hnb ⊢
    rw [if_pos hd]
    by_cases hfit : st.off + (port_block M env cm i dump).length < MAX_OUTPUT_SIZE
    · rw [appendf_ok _ _ _ _ hfit]
      simp only [Int.lt_irrefl, if_false]
      exact cstr_poke _ _ _ hk (port_block_no_nul M env cm i dump)
    · rw [appendf_full _ _ _ _ hlt (by omega)] at hnb
      simp only [hneg, if_true] at hnb
      exact absurd hnb (by simp)
  · rw [if_neg hd, if_neg hd, List.append_nil]

/-! ## Failed attempts in the trace -/

/-- Three failed attempts in a row in a trace that ends with at most three
copies of a new call, behind calls without such attempts: they are the three
copies. -/
theorem triple_in_append (env : Env) (tr : List Call) (c c' : Call) (a k : Nat)
    (hq : ∀ x, ¬ failed_thrice env tr x) (hc : c ∉ tr) (ha : a ≤ 3)
    (e0 : (tr ++ List.replicate a c)[k]? = some c')
    (e1 : (tr ++ List.replicate a c)[k + 1]? = some c')
    (e2 : (tr ++ List.replicate a c)[k + 2]? = some c')
    (f0 : env.rpc_ok k = false) (f1 : env.rpc_ok (k + 1) = false)
    (f2 : env.rpc_ok (k + 2) = false) :
    c' = c ∧ a = 3 ∧ k = tr.length := by
  by_cases hk : k + 2 < tr.length
  · rw [List.getElem?_append_left (by omega)] at e0 e1
    rw [List.getElem?_append_left hk] at e2
    exact absurd ⟨k, e0, e1, e2, f0, f1, f2⟩ (hq c')
  · rw [List.getElem?_append_right (by omega), List.getElem?_replicate] at e2
    split_ifs at e2 with hlt
    have hcc : c' = c := by
      injection e2 with e2
      exact e2.symm
    have hk0 : ¬ k < tr.length := by
      intro hlt0
      rw [List.getElem?_append_left hlt0] at e0
      rw [hcc] at e0
      exact hc (List.mem_iff_getElem?.2 ⟨k, e0⟩)
    exact ⟨hcc, by omega, by omega⟩

/-- A retry loop that reports success ends with a successful attempt. -/
theorem with_retry_ok (rpc_ok : Nat → Bool) (c : Call) (tr : List Call)
    (h : (with_retry rpc_ok c tr).2.1 = true) :
    ∃ b, b < 3 ∧ (with_retry rpc_ok c tr).2.2 = tr ++ List.replicate (b + 1) c
      ∧ rpc_ok (tr.length + b) = true := by
  rw [with_retry_eq] at h ⊢
  cases h0 : rpc_ok tr.length
  · cases h1 : rpc_ok (tr.length + 1)
    · rw [h0, h1] at h
      simp only [Bool.false_eq_true, if_false] at h ⊢
      exact ⟨2, by omega, rfl, h⟩
    · simp only [Bool.false_eq_true, if_false, if_true]
      exact ⟨1, by omega, rfl, h1⟩
  · simp only [if_true]
    exact ⟨0, by omega, rfl, h0⟩

/-- A successful retry loop for a new call adds no three failed attempts in a
row. -/
theorem no_triple_retry (env : Env) (c : Call) (tr : List Call)
    (hq : ∀ x, ¬ failed_thrice env tr x) (hc : c ∉ tr)
    (hok : (with_retry env.rpc_ok c tr).2.1 = true) :
    ∀ x, ¬ failed_thrice env (with_retry env.rpc_ok c tr).2.2 x := by
  obtain ⟨b, hb, etr, hs⟩ := with_retry_ok env.rpc_ok c tr hok
  rintro x ⟨k, e0, e1, e2, f0, f1, f2⟩
  rw [etr] at e0 e1 e2
  obtain ⟨_, h3, hk⟩ := triple_in_append env tr c x (b + 1) k hq hc (by omega) e0 e1 e2 f0 f1 f2
  have hb2 : b = 2 := by omega
  rw [hk] at f2
  rw [hb2, f2] at hs
  exact absurd hs (by simp)

/-- Calls of the port loop behind a trace add no three failed attempts of an
earlier stage. -/
theorem no_triple_ext (env : Env) (tr ext : List Call)
    (hq : ∀ x, ¬ failed_thrice env tr x) (hext : ∀ x ∈ ext, x.stage = 4) :
    ∀ c : Call, c.stage ≤ 3 → ¬ failed_thrice env (tr ++ ext) c := by
  rintro c hcs ⟨k, e0, e1, e2, f0, f1, f2⟩
  by_cases hk : k + 2 < tr.length
  · rw [List.getElem?_append_left (by omega)] at e0 e1
    rw [List.getElem?_append_left hk] at e2
    exact hq c ⟨k, e0, e1, e2, f0, f1, f2⟩
  · rw [List.getElem?_append_right (by omega)] at e2
    have := hext c (List.mem_iff_getElem?.2 ⟨_, e2⟩)
    omega

/-- The append of a block leaves the trace alone. -/
theorem emit_trace (M : Mad) (env : Env) (cm i : Nat) (dump : List Char) (st : LoopState) :
    (emit M env cm i dump st).2.trace = st.trace := by
  unfold emit
  dsimp only
  split_ifs <;> rfl

/-- The body of the port loop adds port-counter calls behind the trace. -/
theorem port_body_trace (M : Mad) (env : Env) (td : thread_data_t) (cm cm2 i : Nat)
    (st : LoopState) :
    ∃ ext, (port_body M env td cm cm2 i st).2.trace = st.trace ++ ext
      ∧ ∀ x ∈ ext, x.stage = 4 := by
  unfold port_body
  dsimp only
  split_ifs
  · obtain ⟨a, _, _, e⟩ := with_retry_trace env.rpc_ok (Call.port_counters i) st.trace
    exact ⟨_, e, fun x hx => by rw [List.eq_of_mem_replicate hx]; rfl⟩
  · obtain ⟨a, _, _, e⟩ := with_retry_trace env.rpc_ok (Call.port_counters i) st.trace
    rw [emit_trace]
    exact ⟨_, e, fun x hx => by rw [List.eq_of_mem_replicate hx]; rfl⟩
  · obtain ⟨a, _, _, e⟩ := with_retry_trace env.rpc_ok (Call.port_counters_ext i) st.trace
    exact ⟨_, e, fun x hx => by rw [List.eq_of_mem_replicate hx]; rfl⟩
  · obtain ⟨a, _, _, e⟩ := with_retry_trace env.rpc_ok (Call.port_counters_ext i) st.trace
    rw [emit_trace]
    exact ⟨_, e, fun x hx => by rw [List.eq_of_mem_replicate hx]; rfl⟩
  · exact ⟨[], by simp, fun x hx => absurd hx (by simp)⟩

/-- The port loop adds port-counter calls behind the trace. -/
theorem port_loop_trace (M : Mad) (env : Env) (td : thread_data_t) (cm cm2 P : Nat) :
    ∀ (fuel i : Nat) (st : LoopState),
    ∃ ext, (port_loop M env td cm cm2 P fuel i st).trace = st.trace ++ ext
      ∧ ∀ x ∈ ext, x.stage = 4 := by
  intro fuel
  induction fuel with
  | zero =>
    intro i st
    exact ⟨[], by simp [port_loop], fun x hx => absurd hx (by simp)⟩
  | succ fuel ih =>
    intro i st
    obtain ⟨e1, h1, h2⟩ := port_body_trace M env td cm cm2 i st
    simp only [port_loop]
    split_ifs
    · exact ⟨e1, h1, h2⟩
    · obtain ⟨e2, h3, h4⟩ := ih (i + 1) (port_body M env td cm cm2 i st).2
      refine ⟨e1 ++ e2, by rw [h3, h1, List.append_assoc], ?_⟩
      intro x hx
      rcases List.mem_append.1 hx with h | h
      · exact h2 x h
      · exact h4 x h
    · exact ⟨[], by simp, fun x hx => absurd hx (by simp)⟩

/-- The trace of the port stage is the trace it starts from, followed by
port-counter calls. -/
theorem port_stage_trace (M : Mad) (env : Env) (td : thread_data_t) (start : Nat)
    (tr : List Call) :
    ∃ ext, (port_stage M env td start tr).trace = tr ++ ext ∧ ∀ x ∈ ext, x.stage = 4 := by
  unfold port_stage
  dsimp only
  exact port_loop_trace M env td _ _ _ _ _ _

/-- A new call is not in a trace of earlier stages. -/
theorem not_mem_of_stage (tr : List Call) (c : Call) (k : Nat) (h : ∀ x ∈ tr, x.stage ≤ k)
    (hc : k < c.stage) : c ∉ tr := by
  intro hm
  have := h c hm
  omega

/-- The ways `query_ports` ends, with the three failed attempts of a failure
exit at the end of a trace that holds no other such attempts. -/
theorem ports_strict (M : Mad) (env : Env) (td : thread_data_t) (start : Nat)
    (tr : List Call) (hp : env.num_ports ≠ 0) (hq : ∀ x, ¬ failed_thrice env tr x)
    (hst : ∀ x ∈ tr, x.stage ≤ 2) :
    (∃ what c tr1, what ∈ failure_texts ∧ c.stage ≤ 3
      ∧ query_ports M env td start tr = fail_with what c.failure td env (tr1 ++ [c, c, c])
      ∧ c ∉ tr1 ∧ (∀ x, ¬ failed_thrice env tr1 x)
      ∧ env.rpc_ok tr1.length = false ∧ env.rpc_ok (tr1.length + 1) = false
      ∧ env.rpc_ok (tr1.length + 2) = false)
    ∨ (∃ start1 tr1, query_ports M env td start tr = port_stage M env td start1 tr1
      ∧ env.num_ports ≠ 0 ∧ (∀ x, ¬ failed_thrice env tr1 x) ∧ ∀ x ∈ tr1, x.stage ≤ 3) := by
  have hc : Call.class_port_info ∉ tr := not_mem_of_stage tr _ 2 hst (by decide)
  unfold query_ports
  dsimp only
  by_cases h : (with_retry env.rpc_ok Call.class_port_info tr).2.1 = false
  · left
    rw [if_pos h]
    obtain ⟨e, f0, f1, f2⟩ := with_retry_fail env.rpc_ok _ tr h
    rw [e]
    exact ⟨_, Call.class_port_info, tr, by simp [failure_texts], by decide, rfl, hc, hq,
      f0, f1, f2⟩
  · right
    rw [if_neg h]
    exact ⟨start, _, rfl, hp, no_triple_retry env _ tr hq hc (by simpa using h),
      stage_le_of_mem_retry env.rpc_ok Call.class_port_info tr 3
        (fun x hx => (hst x hx).trans (by omega)) (le_refl _)⟩

/-- The ways `query_switch` ends, in the same terms. -/
theorem switch_strict (M : Mad) (env : Env) (td : thread_data_t) (tr : List Call)
    (hp : env.num_ports ≠ 0) (hq : ∀ x, ¬ failed_thrice env tr x)
    (hst : ∀ x ∈ tr, x.stage ≤ 1) :
    (∃ what c tr1, what ∈ failure_texts ∧ c.stage ≤ 3
      ∧ query_switch M env td tr = fail_with what c.failure td env (tr1 ++ [c, c, c])
      ∧ c ∉ tr1 ∧ (∀ x, ¬ failed_thrice env tr1 x)
      ∧ env.rpc_ok tr1.length = false ∧ env.rpc_ok (tr1.length + 1) = false
      ∧ env.rpc_ok (tr1.length + 2) = false)
    ∨ (∃ start1 tr1, query_switch M env td tr = port_stage M env td start1 tr1
      ∧ env.num_ports ≠ 0 ∧ (∀ x, ¬ failed_thrice env tr1 x) ∧ ∀ x ∈ tr1, x.stage ≤ 3) := by
  unfold query_switch
  by_cases h4 : env.node_type = M.IB_NODE_SWITCH
  · rw [if_pos h4]
    dsimp only
    have hc : Call.switch_info ∉ tr := not_mem_of_stage tr _ 1 hst (by decide)
    by_cases h5 : (with_retry env.rpc_ok Call.switch_info tr).2.1 = false
    · left
      rw [if_pos h5]
      obtain ⟨e, f0, f1, f2⟩ := with_retry_fail env.rpc_ok _ tr h5
      rw [e]
      exact ⟨_, Call.switch_info, tr, by simp [failure_texts], by decide, rfl, hc, hq,
        f0, f1, f2⟩
    · rw [if_neg h5]
      exact ports_strict M env td _ _ hp
        (no_triple_retry env _ tr hq hc (by simpa using h5))
        (stage_le_of_mem_retry env.rpc_ok Call.switch_info tr 2
          (fun x hx => (hst x hx).trans (by omega)) (le_refl _))
  · rw [if_neg h4]
    exact ports_strict M env td _ _ hp hq (fun x hx => (hst x hx).trans (by omega))

/-- The three ways a run of `query_guid_thread` ends: a failure exit behind
three failed attempts of a call, which end the trace and are the only such
attempts in it; the exit for a port count of 0, without such attempts; or the
port stage, entered without such attempts and with a port count that is not 0. -/
theorem run_cases_strict (M : Mad) (env : Env) (td : thread_data_t) :
    (∃ what c tr, what ∈ failure_texts ∧ c.stage ≤ 3
      ∧ query_guid_thread M env td = fail_with what c.failure td env (tr ++ [c, c, c])
      ∧ c ∉ tr ∧ (∀ x, ¬ failed_thrice env tr x)
      ∧ env.rpc_ok tr.length = false ∧ env.rpc_ok (tr.length + 1) = false
      ∧ env.rpc_ok (tr.length + 2) = false)
    ∨ (∃ what tr, what ∈ failure_texts
      ∧ query_guid_thread M env td = fail_with what Terminal.invalid_ports td env tr
      ∧ env.num_ports = 0 ∧ (∀ x, ¬ failed_thrice env tr x)
      ∧ call_succeeded env tr Call.node_info = true)
    ∨ (∃ start tr, query_guid_thread M env td = port_stage M env td start tr
      ∧ env.num_ports ≠ 0 ∧ (∀ x, ¬ failed_thrice env tr x) ∧ ∀ x ∈ tr, x.stage ≤ 3) := by
  have q0 : ∀ x, ¬ failed_thrice env [] x := by
    rintro x ⟨k, e0, _⟩
    simp at e0
  have s0 : ∀ x ∈ (with_retry env.rpc_ok Call.resolve []).2.2, x.stage ≤ 0 :=
    stage_le_of_mem_retry _ _ _ 0 (by simp) (le_refl _)
  have s1 : ∀ x ∈ (with_retry env.rpc_ok Call.node_info
      (with_retry env.rpc_ok Call.resolve []).2.2).2.2, x.stage ≤ 1 :=
    stage_le_of_mem_retry _ _ _ 1 (fun x hx => (s0 x hx).trans (by omega)) (le_refl _)
  have hc1 : Call.node_info ∉ (with_retry env.rpc_ok Call.resolve []).2.2 :=
    not_mem_of_stage _ _ 0 s0 (by decide)
  unfold query_guid_thread
  dsimp only
  by_cases h1 : (with_retry env.rpc_ok Call.resolve []).2.1 = false
  · left
    rw [if_pos h1]
    obtain ⟨e, f0, f1, f2⟩ := with_retry_fail env.rpc_ok _ [] h1
    rw [e]
    exact ⟨_, Call.resolve, [], by simp [failure_texts], by decide, rfl, by simp, q0,
      f0, f1, f2⟩
  · rw [if_neg h1]
    have q1 := no_triple_retry env Call.resolve [] q0 (by simp) (by simpa using h1)
    by_cases h2 : (with_retry env.rpc_ok Call.node_info
        (with_retry env.rpc_ok Call.resolve []).2.2).2.1 = false
    · left
      rw [if_pos h2]
      obtain ⟨e, f0, f1, f2⟩ := with_retry_fail env.rpc_ok _ _ h2
      rw [e]
      exact ⟨_, Call.node_info, _, by simp [failure_texts], by decide, rfl, hc1, q1,
        f0, f1, f2⟩
    · rw [if_neg h2]
      have q2 := no_triple_retry env Call.node_info _ q1 hc1 (by simpa using h2)
      by_cases h3 : env.num_ports = 0
      · right; left
        rw [if_pos h3]
        refine ⟨_, _, by simp [failure_texts], rfl, h3, q2, ?_⟩
        obtain ⟨a, _, _, etr, esucc, _⟩ := with_retry_fresh env Call.node_info _ hc1
        rw [etr, esucc]
        simpa using h2
      · rw [if_neg h3]
        rcases switch_strict M env td _ h3 q2 s1 with h | h
        · exact Or.inl h
        · exact Or.inr (Or.inr h)

/-! ## Size of the result -/

/-- The state in which the port loop is entered satisfies the invariant. -/
theorem loop_entry_inv (td : thread_data_t) (env : Env) (tr : List Call) :
    LoopInv (header_line td env)
      { buf := poke (strncpy td.output_buffer (header_line td env) 8191) 8191 [NUL],
        off := strlen (poke (strncpy td.output_buffer (header_line td env) 8191) 8191 [NUL]),
        trace := tr, visited := [], offs := [], broke := false } := by
  have hs := header_stored td.output_buffer (header_line td env)
    (header_line_no_nul td env) (header_line_length td env).2
  have hl := header_line_length td env
  unfold LoopInv strlen MAX_OUTPUT_SIZE
  dsimp only
  rw [hs]
  refine ⟨by omega, by omega, fun _ => ⟨rfl, by omega⟩, fun h => absurd h (by simp),
    fun o ho => absurd ho (by simp), List.prefix_refl _, fun _ o ho => absurd ho (by simp),
    fun h => absurd h (by simp)⟩

/-- What the port stage leaves behind. -/
theorem port_stage_spec (M : Mad) (env : Env) (td : thread_data_t) (start : Nat)
    (tr : List Call) :
    (port_stage M env td start tr).terminal = Terminal.done
    ∧ (∃ st, LoopInv (header_line td env) st
        ∧ (port_stage M env td start tr).td.output_buffer = st.buf
        ∧ (port_stage M env td start tr).td.output_size = strlen st.buf
        ∧ (port_stage M env td start tr).offs = st.offs
        ∧ (port_stage M env td start tr).broke = st.broke)
    ∧ (∀ x ∈ (port_stage M env td start tr).trace, x ∈ tr ∨ x.stage = 4)
    ∧ ∃ n, (port_stage M env td start tr).visited = List.range' start n
        ∧ n ≤ env.num_ports + 1 - start
        ∧ ((port_stage M env td start tr).broke = false → n = env.num_ports + 1 - start)
        ∧ ((port_stage M env td start tr).broke = true → 1 ≤ n) := by
  obtain ⟨a, b, n, c, d, e, f⟩ := port_loop_spec M env td env.cap_mask env.cap_mask2
    env.num_ports (header_line td env) (env.num_ports + 1 - start) start _
    (loop_entry_inv td env tr) rfl
  refine ⟨rfl, ⟨_, a, rfl, rfl, rfl, rfl⟩, b, n, ?_, by omega, ?_, f⟩
  · rw [List.nil_append] at c; exact c
  · intro h; have := e h; omega

/-- Size and text of the result of the port stage. -/
theorem port_stage_size (M : Mad) (env : Env) (td : thread_data_t) (start : Nat)
    (tr : List Call) :
    9 ≤ (port_stage M env td start tr).td.output_size
    ∧ (port_stage M env td start tr).td.output_size < MAX_OUTPUT_SIZE
    ∧ (∀ o ∈ (port_stage M env td start tr).offs, 0 ≤ o ∧ o ≤ MAX_OUTPUT_SIZE)
    ∧ (MAX_OUTPUT_SIZE ∈ (port_stage M env td start tr).offs →
        (port_stage M env td start tr).td.output_size = MAX_OUTPUT_SIZE - 1)
    ∧ ((port_stage M env td start tr).broke = true ↔
        MAX_OUTPUT_SIZE ∈ (port_stage M env td start tr).offs)
    ∧ header_line td env <+: (port_stage M env td start tr).blob := by
  obtain ⟨_, ⟨st, ⟨h0, h1, h2, h3, h4, h5, h6, h7⟩, e1, e2, e3, e4⟩, _, _⟩ :=
    port_stage_spec M env td start tr
  have hl := header_line_length td env
  have hpl : (header_line td env).length ≤ (cstr st.buf).length := h5.length_le
  have hbr : st.broke = true ↔ MAX_OUTPUT_SIZE ∈ st.offs := by
    constructor
    · exact h7
    · intro hm
      by_contra hc
      have hf : st.broke = false := by simpa using hc
      exact absurd (h6 hf _ hm) (lt_irrefl _)
  have hlt : strlen st.buf < MAX_OUTPUT_SIZE := by
    cases hb : st.broke
    · have := h2 hb; omega
    · have := h3 hb; omega
  refine ⟨?_, ?_, ?_, ?_, ?_, ?_⟩
  · rw [e2]; unfold strlen; omega
  · rw [e2]; exact hlt
  · rw [e3]; exact h4
  · rw [e3, e2]; intro hm; exact (h3 (hbr.2 hm)).2
  · rw [e3, e4]; exact hbr
  · unfold Run.blob
    rw [e1, e2]
    unfold strlen
    rw [Int.toNat_ofNat, ← cstr_eq_take]
    exact h5

/-- Fields of a failure exit. -/
theorem fail_with_blob (what : List Char) (t : Terminal) (td : thread_data_t) (env : Env)
    (tr : List Call) (hlen : (diagnostic what td env).length ≤ 8191) :
    (fail_with what t td env tr).blob = diagnostic what td env := by
  have e8 : ((8192 : Int) - 1).toNat = 8191 := by decide
  unfold Run.blob fail_with snprintf vsnprintf MAX_OUTPUT_SIZE
  rw [if_neg (by decide)]
  dsimp only
  unfold poke
  rw [Int.toNat_ofNat, e8, List.take_zero, List.nil_append, List.take_of_length_le hlen,
    List.append_assoc, List.take_left' rfl]

/-- C6: for well-formed thread data (`thread_id` in the range of `int`, `guid`
in the range of `uint64_t`) and a `ctime` string of the libc form, whatever the
transport outcomes, the port count, the address string and the dumps are, the
recorded `output_size` does not exceed `MAX_OUTPUT_SIZE` (it is at least 9 and
below 8192), and after every `appendf` call `0 <= off <= MAX_OUTPUT_SIZE`. -/
theorem output_size_within_capacity (M : Mad) (env : Env) (td : thread_data_t)
    (hct : ctime_line env.ctime) (h1 : -(2 ^ 31) ≤ td.thread_id)
    (h2 : td.thread_id < 2 ^ 31) (hg : td.guid < 2 ^ 64) :
    (query_guid_thread M env td).td.output_size ≤ MAX_OUTPUT_SIZE
    ∧ 9 ≤ (query_guid_thread M env td).td.output_size
    ∧ (query_guid_thread M env td).td.output_size < MAX_OUTPUT_SIZE
    ∧ ∀ o ∈ (query_guid_thread M env td).offs, 0 ≤ o ∧ o ≤ MAX_OUTPUT_SIZE := by
  rcases run_cases M env td with ⟨what, t, tr, hw, _, e, _, _⟩ | ⟨start, tr, e, _⟩
  · rw [e]
    have hl := diagnostic_length what hw td env hct h1 h2 hg
    have hs : (fail_with what t td env tr).td.output_size
        = ((diagnostic what td env).length : Int) := rfl
    rw [hs]
    unfold MAX_OUTPUT_SIZE
    refine ⟨by omega, by omega, by omega, ?_⟩
    intro o ho
    exact absurd ho (by simp [fail_with])
  · rw [e]
    obtain ⟨a, b, c, _⟩ := port_stage_size M env td start tr
    exact ⟨by omega, a, b, c⟩

/-- Witness of C6: the first GUID on a two-port node whose transport calls all
succeed. -/
theorem output_size_within_capacity_witness :
    ctime_line (env_ca 2 40).ctime
    ∧ (query_guid_thread mad0 (env_ca 2 40) (td_first 0)).td.output_size ≤ MAX_OUTPUT_SIZE := by
  have hct : ctime_line (env_ca 2 40).ctime :=
    ⟨"Wed Jun 30 21:49:08 1993".toList, by decide!, by decide, by unfold plain NUL; decide⟩
  exact ⟨hct, (output_size_within_capacity mad0 (env_ca 2 40) (td_first 0) hct
    (by decide) (by decide) (by decide)).1⟩

/-! ## The loop left at a rejected block -/

/-- An append that leaves the loop: the dump is not empty, the block does not
fit behind the text of the buffer, its first bytes are stored behind that text
and `MAX_OUTPUT_SIZE` is the offset recorded. -/
theorem emit_broke (M : Mad) (env : Env) (cm i : Nat) (dump H : List Char) (st : LoopState)
    (hinv : LoopInv H st) (hb : st.broke = false)
    (hbr : (emit M env cm i dump st).2.broke = true) :
    dump ≠ []
    ∧ 8192 ≤ (cstr st.buf).length + (port_block M env cm i dump).length
    ∧ cstr (emit M env cm i dump st).2.buf
        = cstr st.buf ++ (port_block M env cm i dump).take (8191 - (cstr st.buf).length)
    ∧ (emit M env cm i dump st).2.offs = st.offs ++ [MAX_OUTPUT_SIZE] := by
  obtain ⟨h0, h1, h2, h3, h4, h5, h6, h7⟩ := hinv
  obtain ⟨hstr, hlt⟩ := h2 hb
  have hk : (cstr st.buf).length = st.off.toNat := by unfold strlen at hstr; omega
  have hoff : st.off = ((cstr st.buf).length : Int) := by unfold strlen at hstr; omega
  have hneg : ((-1 : Int) < 0) := by decide
  have hs := port_block_no_nul M env cm i dump
  unfold emit at hbr ⊢
  by_cases hd : dump ≠ []
  · rw [if_pos hd] at hbr ⊢
    by_cases hfit : st.off + (port_block M env cm i dump).length < MAX_OUTPUT_SIZE
    · rw [appendf_ok _ _ _ _ hfit] at hbr
      simp only [Int.lt_irrefl, if_false] at hbr
      rw [hb] at hbr
      exact absurd hbr (by simp)
    · have hx : ∀ c ∈ (port_block M env cm i dump).take (MAX_OUTPUT_SIZE - st.off - 1).toNat,
          c ≠ NUL := fun c hc => hs c (List.mem_of_mem_take hc)
      have e : (MAX_OUTPUT_SIZE - st.off - 1).toNat = 8191 - (cstr st.buf).length := by
        unfold MAX_OUTPUT_SIZE
        omega
      rw [appendf_full _ _ _ _ hlt (by omega)]
      simp only [hneg, if_true]
      refine ⟨hd, ?_, ?_, trivial⟩
      · unfold MAX_OUTPUT_SIZE at hfit
        omega
      · rw [← e]
        exact cstr_poke _ _ _ hk hx
  · rw [if_neg hd] at hbr
    rw [hb] at hbr
    exact absurd hbr (by simp)

/-- A retry loop for a new call followed by the append of the block, as in both
branches of the body of the port loop. -/
theorem retry_emit_text (M : Mad) (env : Env) (cm i : Nat) (dump H : List Char)
    (st : LoopState) (c : Call) (hinv : LoopInv H st) (hb : st.broke = false)
    (hfresh : c ∉ st.trace) (r : Bool × LoopState)
    (hr : r = if (with_retry env.rpc_ok c st.trace).2.1 = false then
        (false, { st with visited := st.visited ++ [i],
                          trace := (with_retry env.rpc_ok c st.trace).2.2 })
      else emit M env cm i dump
        { st with visited := st.visited ++ [i],
                  trace := (with_retry env.rpc_ok c st.trace).2.2 }) :
    (∃ a, 1 ≤ a ∧ a ≤ 3 ∧ r.2.trace = st.trace ++ List.replicate a c)
    ∧ (r.2.broke = false →
        cstr r.2.buf = cstr st.buf
          ++ (if call_succeeded env r.2.trace c = true ∧ dump ≠ []
              then port_block M env cm i dump else []))
    ∧ (r.2.broke = true →
        call_succeeded env r.2.trace c = true ∧ dump ≠ []
        ∧ 8192 ≤ (cstr st.buf).length + (port_block M env cm i dump).length
        ∧ cstr r.2.buf
            = cstr st.buf ++ (port_block M env cm i dump).take (8191 - (cstr st.buf).length)
        ∧ r.2.offs = st.offs ++ [MAX_OUTPUT_SIZE]) := by
  obtain ⟨a, a1, a3, etr, esucc, _⟩ := with_retry_fresh env c st.trace hfresh
  have hinv1 : ∀ tr, LoopInv H { st with visited := st.visited ++ [i], trace := tr } := by
    intro tr; exact hinv
  by_cases hok : (with_retry env.rpc_ok c st.trace).2.1 = false
  · rw [if_pos hok] at hr
    subst hr
    dsimp only
    refine ⟨⟨a, a1, a3, etr⟩, fun _ => ?_, fun h => ?_⟩
    · rw [etr, esucc, hok, if_neg (by simp), List.append_nil]
    · rw [hb] at h
      exact absurd h (by simp)
  · rw [if_neg hok] at hr
    subst hr
    have htrue : (with_retry env.rpc_ok c st.trace).2.1 = true := by simpa using hok
    have etr3 : (emit M env cm i dump
        { st with visited := st.visited ++ [i],
                  trace := (with_retry env.rpc_ok c st.trace).2.2 }).2.trace
        = st.trace ++ List.replicate a c := (emit_trace M env cm i dump _).trans etr
    have hs : call_succeeded env (st.trace ++ List.replicate a c) c = true := by
      rw [esucc, htrue]
    refine ⟨⟨a, a1, a3, etr3⟩, fun hnb => ?_, fun hbr => ?_⟩
    · rw [emit_text M env cm i dump H _ (hinv1 _) hb hnb, etr3, hs]
      simp only [true_and]
    · rw [etr3]
      exact ⟨hs, emit_broke M env cm i dump H _ (hinv1 _) hb hbr⟩

/-- The last call of a trace that ends with copies of a call. -/
theorem getLast_replicate (tr : List Call) (c : Call) (a : Nat) (ha : 1 ≤ a) :
    (tr ++ List.replicate a c).getLast? = some c := by
  obtain ⟨b, rfl⟩ : ∃ b, a = b + 1 := ⟨a - 1, by omega⟩
  rw [List.replicate_succ', ← List.append_assoc]
  simp

/-- One pass through the body of the port loop, in either mode, for a port
whose query is not yet in the trace. -/
theorem port_body_text (M : Mad) (env : Env) (td : thread_data_t) (i : Nat)
    (H : List Char) (st : LoopState) (hinv : LoopInv H st) (hb : st.broke = false)
    (hfresh : port_query td i ∉ st.trace) :
    (∃ a, a ≤ 3 ∧ (port_body M env td env.cap_mask env.cap_mask2 i st).2.trace
        = st.trace ++ List.replicate a (port_query td i))
    ∧ ((port_body M env td env.cap_mask env.cap_mask2 i st).2.broke = false →
        cstr (port_body M env td env.cap_mask env.cap_mask2 i st).2.buf
          = cstr st.buf ++ mode_block M env td
              (port_body M env td env.cap_mask env.cap_mask2 i st).2.trace i)
    ∧ ((port_body M env td env.cap_mask env.cap_mask2 i st).2.broke = true →
        reaches_append M env td
            (port_body M env td env.cap_mask env.cap_mask2 i st).2.trace i = true
        ∧ (port_body M env td env.cap_mask env.cap_mask2 i st).2.trace.getLast?
            = some (port_query td i)
        ∧ 8192 ≤ (cstr st.buf).length + (port_text M env td i).length
        ∧ cstr (port_body M env td env.cap_mask env.cap_mask2 i st).2.buf
            = cstr st.buf ++ (port_text M env td i).take (8191 - (cstr st.buf).length)
        ∧ (port_body M env td env.cap_mask env.cap_mask2 i st).2.offs
            = st.offs ++ [MAX_OUTPUT_SIZE]) := by
  by_cases hx : td.extended ≠ 1
  · have hq : port_query td i = Call.port_counters i := by unfold port_query; rw [if_pos hx]
    have hd : port_dump M env td i
        = cstr (env.mad_dump_perfcounters i
            (decide (env.cap_mask &&& M.IB_PM_PC_XMIT_WAIT_SUP = 0))) := by
      unfold port_dump legacy_dump; rw [if_pos hx]
    have hqp : queries_ports M env td = true := by unfold queries_ports; simp [hx]
    rw [hq] at hfresh ⊢
    obtain ⟨⟨a, a1, a3, etr⟩, hnb, hbr⟩ := retry_emit_text M env env.cap_mask i
      (port_dump M env td i) H st (Call.port_counters i) hinv hb hfresh
      (port_body M env td env.cap_mask env.cap_mask2 i st)
      (by unfold port_body; dsimp only; rw [if_pos hx, hd])
    refine ⟨⟨a, a3, etr⟩, fun h => ?_, fun h => ?_⟩
    · rw [hnb h]
      unfold mode_block reaches_append port_text
      rw [hq, hqp]
      simp only [Bool.true_and, Bool.and_eq_true, decide_eq_true_eq]
    · obtain ⟨b1, b2, b3, b4, b5⟩ := hbr h
      refine ⟨?_, ?_, b3, b4, b5⟩
      · unfold reaches_append
        rw [hq, hqp, b1]
        simpa using b2
      · rw [etr]
        exact getLast_replicate _ _ a a1
  · have hx1 : td.extended = 1 := by simpa using hx
    have hq : port_query td i = Call.port_counters_ext i := by
      unfold port_query; rw [if_neg hx]
    have hd : port_dump M env td i
        = dump_perfcounters_ext M env i 1536 env.cap_mask env.cap_mask2 := by
      unfold port_dump; rw [if_neg hx]
    by_cases hw : ¬ (env.cap_mask &&& M.IB_PM_EXT_WIDTH_SUPPORTED ≠ 0
        ∨ env.cap_mask &&& M.IB_PM_EXT_WIDTH_NOIETF_SUP ≠ 0)
    · have hqp : queries_ports M env td = false := by
        unfold queries_ports
        simp only [not_or, not_not] at hw
        simp [hx1, hw.1, hw.2]
      have hbody : port_body M env td env.cap_mask env.cap_mask2 i st
          = (false, { st with visited := st.visited ++ [i] }) := by
        unfold port_body; dsimp only; rw [if_neg hx, if_pos hw]
      rw [hbody]
      dsimp only
      refine ⟨⟨0, by omega, by simp⟩, fun _ => ?_, fun h => ?_⟩
      · unfold mode_block reaches_append
        rw [hqp]
        simp
      · rw [hb] at h
        exact absurd h (by simp)
    · have hqp : queries_ports M env td = true := by
        unfold queries_ports
        have hw2 : env.cap_mask &&& M.IB_PM_EXT_WIDTH_SUPPORTED ≠ 0
            ∨ env.cap_mask &&& M.IB_PM_EXT_WIDTH_NOIETF_SUP ≠ 0 := by
          by_contra hc; exact hw hc
        rcases hw2 with h | h <;> simp [h]
      rw [hq] at hfresh ⊢
      obtain ⟨⟨a, a1, a3, etr⟩, hnb, hbr⟩ := retry_emit_text M env env.cap_mask i
        (port_dump M env td i) H st (Call.port_counters_ext i) hinv hb hfresh
        (port_body M env td env.cap_mask env.cap_mask2 i st)
        (by unfold port_body; dsimp only; rw [if_neg hx, if_neg hw, hd])
      refine ⟨⟨a, a3, etr⟩, fun h => ?_, fun h => ?_⟩
      · rw [hnb h]
        unfold mode_block reaches_append port_text
        rw [hq, hqp]
        simp only [Bool.true_and, Bool.and_eq_true, decide_eq_true_eq]
      · obtain ⟨b1, b2, b3, b4, b5⟩ := hbr h
        refine ⟨?_, ?_, b3, b4, b5⟩
        · unfold reaches_append
          rw [hq, hqp, b1]
          simpa using b2
        · rw [etr]
          exact getLast_replicate _ _ a a1

/-- Queries of different ports are different calls. -/
theorem port_query_ne (td : thread_data_t) {i j : Nat} (h : i ≠ j) :
    port_query td j ≠ port_query td i := by
  unfold port_query
  split_ifs
  · intro e; injection e with e; exact h e.symm
  · intro e; injection e with e; exact h e.symm

/-- Calls of other ports behind a trace do not change what a port adds to the
result. -/
theorem mode_block_append (M : Mad) (env : Env) (td : thread_data_t) (tr ext : List Call)
    (i : Nat) (h : port_query td i ∉ ext) :
    mode_block M env td (tr ++ ext) i = mode_block M env td tr i := by
  unfold mode_block reaches_append
  rw [call_succeeded_append env tr ext _ h]

/-- The port loop in either mode, entered at `i` with no query of a port from
`i` on in the trace. It visits `n` consecutive ports and adds only their
queries to the trace. When it is not left through `break`, `n` is the whole
range and the string in the buffer grows by the blocks of these ports. When it
is left through `break`, the last port visited gets as far as `appendf`, its
query ends the trace, the rejected offset is the last and only one recorded
that reaches `MAX_OUTPUT_SIZE`, its block does not fit behind the text and the
blocks of the ports before it, and the string in the buffer is that text
followed by the first bytes of the block, up to 8191 bytes. -/
theorem port_loop_text (M : Mad) (env : Env) (td : thread_data_t) (P : Nat) (H : List Char) :
    ∀ (fuel i : Nat) (st : LoopState), LoopInv H st → st.broke = false →
      (∀ j, i ≤ j → port_query td j ∉ st.trace) →
      ∃ n ext, n ≤ min fuel (P + 1 - i)
        ∧ (port_loop M env td env.cap_mask env.cap_mask2 P fuel i st).visited
            = st.visited ++ List.range' i n
        ∧ (port_loop M env td env.cap_mask env.cap_mask2 P fuel i st).trace = st.trace ++ ext
        ∧ (∀ x ∈ ext, ∃ j, i ≤ j ∧ j < i + n ∧ x = port_query td j)
        ∧ ((port_loop M env td env.cap_mask env.cap_mask2 P fuel i st).broke = false →
            n = min fuel (P + 1 - i)
            ∧ cstr (port_loop M env td env.cap_mask env.cap_mask2 P fuel i st).buf
                = cstr st.buf ++ (List.range' i n).flatMap (mode_block M env td
                    (port_loop M env td env.cap_mask env.cap_mask2 P fuel i st).trace))
        ∧ ((port_loop M env td env.cap_mask env.cap_mask2 P fuel i st).broke = true →
            ∃ m, n = m + 1
              ∧ reaches_append M env td
                  (port_loop M env td env.cap_mask env.cap_mask2 P fuel i st).trace (i + m)
                  = true
              ∧ (port_loop M env td env.cap_mask env.cap_mask2 P fuel i st).trace.getLast?
                  = some (port_query td (i + m))
              ∧ (∃ pre, (port_loop M env td env.cap_mask env.cap_mask2 P fuel i st).offs
                    = pre ++ [MAX_OUTPUT_SIZE] ∧ ∀ o ∈ pre, o < MAX_OUTPUT_SIZE)
              ∧ (cstr st.buf ++ (List.range' i m).flatMap (mode_block M env td
                    (port_loop M env td env.cap_mask env.cap_mask2 P fuel i st).trace)).length
                  < 8192
              ∧ 8192 ≤ (cstr st.buf ++ (List.range' i m).flatMap (mode_block M env td
                    (port_loop M env td env.cap_mask env.cap_mask2 P fuel i st).trace)).length
                  + (port_text M env td (i + m)).length
              ∧ cstr (port_loop M env td env.cap_mask env.cap_mask2 P fuel i st).buf
                  = (cstr st.buf ++ (List.range' i m).flatMap (mode_block M env td
                      (port_loop M env td env.cap_mask env.cap_mask2 P fuel i st).trace))
                    ++ (port_text M env td (i + m)).take
                        (8191 - (cstr st.buf ++ (List.range' i m).flatMap (mode_block M env td
                          (port_loop M env td env.cap_mask env.cap_mask2 P fuel i st).trace)).length)) := by
  intro fuel
  induction fuel with
  | zero =>
    intro i st _ hb _
    simp only [port_loop]
    refine ⟨0, [], by omega, by simp, by simp, fun x hx => absurd hx (by simp),
      fun _ => ⟨by omega, by simp⟩, fun h => ?_⟩
    rw [hb] at h
    exact absurd h (by simp)
  | succ fuel ih =>
    intro i st hinv hb hfresh
    simp only [port_loop]
    by_cases hle : i ≤ P
    · rw [if_pos hle]
      obtain ⟨binv, bbrk, bvis, _⟩ :=
        port_body_spec M env td env.cap_mask env.cap_mask2 i H st hinv hb
      obtain ⟨⟨a, a3, etr⟩, tnb, tbr⟩ := port_body_text M env td i H st hinv hb
        (hfresh i (le_refl _))
      by_cases hbr : (port_body M env td env.cap_mask env.cap_mask2 i st).1 = true
      · rw [if_pos hbr]
        have hbr2 : (port_body M env td env.cap_mask env.cap_mask2 i st).2.broke = true := by
          rw [← bbrk]; exact hbr
        obtain ⟨c1, c2, c3, c4, c5⟩ := tbr hbr2
        have hlen : (cstr st.buf).length < 8192 := by
          have := hinv.2.2.1 hb
          unfold strlen MAX_OUTPUT_SIZE at this
          omega
        refine ⟨1, List.replicate a (port_query td i), by omega, by rw [bvis]; rfl, etr, ?_,
          fun h => ?_,
          fun _ => ⟨0, rfl, ?_, ?_, ⟨st.offs, c5, hinv.2.2.2.2.2.2.1 hb⟩, ?_, ?_, ?_⟩⟩
        · intro x hx
          exact ⟨i, le_refl _, by omega, List.eq_of_mem_replicate hx⟩
        · rw [hbr2] at h
          exact absurd h (by simp)
        · exact c1
        · exact c2
        · simpa using hlen
        · simpa using c3
        · simpa using c4
      · rw [if_neg hbr]
        have hb1 : (port_body M env td env.cap_mask env.cap_mask2 i st).2.broke = false := by
          rw [← bbrk]; simpa using hbr
        have hfresh1 : ∀ j, i + 1 ≤ j →
            port_query td j ∉ (port_body M env td env.cap_mask env.cap_mask2 i st).2.trace := by
          intro j hj hm
          rw [etr] at hm
          rcases List.mem_append.1 hm with h | h
          · exact hfresh j (by omega) h
          · exact port_query_ne td (show i ≠ j by omega) (List.eq_of_mem_replicate h)
        obtain ⟨n, ext, hn, e1, e2, e3, e4, e5⟩ := ih (i + 1) _ binv hb1 hfresh1
        have etext := tnb hb1
        generalize port_loop M env td env.cap_mask env.cap_mask2 P fuel (i + 1)
          (port_body M env td env.cap_mask env.cap_mask2 i st).2 = fin at e1 e2 e4 e5 ⊢
        have hnotin : port_query td i ∉ ext := by
          intro hm
          obtain ⟨j, hj, _, e⟩ := e3 _ hm
          exact port_query_ne td (show i ≠ j by omega) e.symm
        have hblock : mode_block M env td fin.trace i
            = mode_block M env td (port_body M env td env.cap_mask env.cap_mask2 i st).2.trace
                i := by
          rw [e2]; exact mode_block_append M env td _ ext i hnotin
        have hcons : ∀ k, cstr (port_body M env td env.cap_mask env.cap_mask2 i st).2.buf
            ++ (List.range' (i + 1) k).flatMap (mode_block M env td fin.trace)
            = cstr st.buf ++ (List.range' i (k + 1)).flatMap (mode_block M env td fin.trace) := by
          intro k
          rw [List.range'_succ, List.flatMap_cons, etext, hblock, List.append_assoc]
        refine ⟨n + 1, List.replicate a (port_query td i) ++ ext, by omega, ?_, ?_, ?_,
          fun h => ?_, fun h => ?_⟩
        · rw [e1, bvis, List.range'_succ, List.append_assoc]
          rfl
        · rw [e2, etr, List.append_assoc]
        · intro x hx
          rcases List.mem_append.1 hx with h | h
          · exact ⟨i, le_refl _, by omega, List.eq_of_mem_replicate h⟩
          · obtain ⟨j, hj, hj2, e⟩ := e3 x h
            exact ⟨j, by omega, by omega, e⟩
        · obtain ⟨f1, f2⟩ := e4 h
          refine ⟨by omega, ?_⟩
          rw [f2, hcons]
        · obtain ⟨m, g1, g2, g3, g4, g7, g5, g6⟩ := e5 h
          have harith : i + 1 + m = i + (m + 1) := by omega
          rw [harith] at g2 g3 g5 g6
          rw [hcons] at g5 g6 g7
          exact ⟨m + 1, by omega, g2, g3, g4, g7, g5, g6⟩
    · rw [if_neg hle]
      refine ⟨0, [], by omega, by simp, by simp, fun x hx => absurd hx (by simp),
        fun _ => ⟨by omega, by simp⟩, fun h => ?_⟩
      rw [hb] at h
      exact absurd h (by simp)

/-- A run in which an `appendf` call is rejected: it is in the port stage, the
loop is left at the port whose block is rejected, which is the last port
visited and queried, and the result is the text of the ports before it
followed by the first bytes of the rejected block, 8191 bytes in all. -/
theorem run_left_at (M : Mad) (env : Env) (td : thread_data_t)
    (hm : MAX_OUTPUT_SIZE ∈ (query_guid_thread M env td).offs) :
    ∃ m, m < env.num_ports + 1 - expected_start M env
      ∧ (query_guid_thread M env td).visited = List.range' (expected_start M env) (m + 1)
      ∧ reaches_append M env td (query_guid_thread M env td).trace
          (expected_start M env + m) = true
      ∧ (query_guid_thread M env td).trace.getLast?
          = some (port_query td (expected_start M env + m))
      ∧ (∀ j, expected_start M env + m < j →
          Call.port_counters j ∉ (query_guid_thread M env td).trace
          ∧ Call.port_counters_ext j ∉ (query_guid_thread M env td).trace)
      ∧ (∃ pre, (query_guid_thread M env td).offs = pre ++ [MAX_OUTPUT_SIZE]
          ∧ ∀ o ∈ pre, o < MAX_OUTPUT_SIZE)
      ∧ (text_before M env td (query_guid_thread M env td).trace
          (expected_start M env) m).length < 8192
      ∧ 8192 ≤ (text_before M env td (query_guid_thread M env td).trace
            (expected_start M env) m).length
          + (port_text M env td (expected_start M env + m)).length
      ∧ (query_guid_thread M env td).blob
          = text_before M env td (query_guid_thread M env td).trace (expected_start M env) m
            ++ (port_text M env td (expected_start M env + m)).take
                (8191 - (text_before M env td (query_guid_thread M env td).trace
                  (expected_start M env) m).length) := by
  rcases run_cases M env td with ⟨what, t, tr, _, _, e, _, _⟩ | ⟨start, tr, e, hp, hs, hst, _⟩
  · rw [e] at hm
    exact absurd hm (by simp [fail_with])
  · rw [e] at hm ⊢
    subst hs
    have hbroke : (port_stage M env td (expected_start M env) tr).broke = true :=
      (port_stage_size M env td (expected_start M env) tr).2.2.2.2.1.2 hm
    have hfresh : ∀ j, expected_start M env ≤ j → port_query td j ∉ tr := by
      intro j _ hmem
      have := hst _ hmem
      unfold port_query at this
      split_ifs at this <;> simp only [Call.stage] at this <;> omega
    obtain ⟨n, ext, hn, e1, e2, e3, _, e5⟩ := port_loop_text M env td env.num_ports
      (header_line td env) (env.num_ports + 1 - expected_start M env)
      (expected_start M env) _ (loop_entry_inv td env tr) rfl hfresh
    obtain ⟨m, g1, g2, g3, g4, g7, g5, g6⟩ := e5 hbroke
    have hstored := header_stored td.output_buffer (header_line td env)
      (header_line_no_nul td env) (header_line_length td env).2
    rw [hstored] at g5 g6 g7
    rw [Nat.min_self] at hn
    subst g1
    refine ⟨m, by omega, ?_, g2, g3, ?_, g4, g7, g5, ?_⟩
    · rw [List.nil_append] at e1
      exact e1
    · intro j hj
      have hno : ∀ c : Call, c.stage = 4 →
          (∀ j', j' < expected_start M env + (m + 1) → c ≠ port_query td j') →
          c ∉ (port_stage M env td (expected_start M env) tr).trace := by
        intro c hc4 hne hmem
        have hmem2 : c ∈ tr ++ ext := by rw [← e2]; exact hmem
        rcases List.mem_append.1 hmem2 with h | h
        · have := hst _ h
          omega
        · obtain ⟨j', _, hj', e⟩ := e3 c h
          exact hne j' hj' e
      constructor
      · refine hno (Call.port_counters j) rfl ?_
        intro j' hj' e
        unfold port_query at e
        split_ifs at e
        · injection e with e; omega
      · refine hno (Call.port_counters_ext j) rfl ?_
        intro j' hj' e
        unfold port_query at e
        split_ifs at e
        · injection e with e; omega
    · unfold Run.blob text_before port_stage strlen
      dsimp only
      rw [Int.toNat_ofNat, ← cstr_eq_take]
      exact g6

/-! ## Failed nodes -/


/-- The three attempts of a failure exit are three failed attempts in a row. -/
theorem failed_thrice_end (env : Env) (tr : List Call) (c : Call)
    (f0 : env.rpc_ok tr.length = false) (f1 : env.rpc_ok (tr.length + 1) = false)
    (f2 : env.rpc_ok (tr.length + 2) = false) : failed_thrice env (tr ++ [c, c, c]) c := by
  refine ⟨tr.length, ?_, ?_, ?_, f0, f1, f2⟩
  · rw [List.getElem?_append_right (le_refl _)]; simp
  · rw [List.getElem?_append_right (by omega)]; simp
  · rw [List.getElem?_append_right (by omega)]; simp

/-- Three failed attempts in a row in the trace of a failure exit are the
attempts of its call. -/
theorem failed_thrice_unique (env : Env) (tr : List Call) (c x : Call)
    (hq : ∀ y, ¬ failed_thrice env tr y) (hc : c ∉ tr)
    (h : failed_thrice env (tr ++ [c, c, c]) x) : x = c := by
  obtain ⟨k, e0, e1, e2, f0, f1, f2⟩ := h
  exact (triple_in_append env tr c x 3 k hq hc (le_refl _) e0 e1 e2 f0 f1 f2).1

/-- The failure exit behind a call before the port loop is a failed state. -/
theorem failure_ne_done (c : Call) (h : c.stage ≤ 3) :
    c.failure ≠ Terminal.done ∧ c.failure ≠ Terminal.invalid_ports
    ∧ c.failure.stage = c.stage := by
  cases c <;> simp [Call.stage, Call.failure, Terminal.stage] at h ⊢

/-- C8: for a run of the pipeline (thread data in the range of its C types,
`ctime` string of the libc form). The run ends in a failed terminal state
exactly when the node-info response reports no port or one of the calls before
the port loop (address resolution, node info, switch info, class port info)
fails on three attempts in a row; three failed attempts of such a call lead to
the failure exit of that call and end the trace, and the exit for an invalid
port count is taken exactly when the port count is 0 and no call failed three
times. In each of these cases the result is exactly the diagnostic of the
exit: one line, ended by its only newline, that contains `0x` and the 16 hex
digits of the GUID and no `# Port counters:` header; the trace holds no call of
a later stage, in particular no port-counter query; the port loop is not
entered and `appendf` is not called. -/
theorem failed_node_one_diagnostic_line (M : Mad) (env : Env) (td : thread_data_t)
    (hct : ctime_line env.ctime) (h1 : -(2 ^ 31) ≤ td.thread_id)
    (h2 : td.thread_id < 2 ^ 31) (hg : td.guid < 2 ^ 64) :
    ((query_guid_thread M env td).terminal ≠ Terminal.done
        ↔ pipeline_fails env (query_guid_thread M env td).trace)
    ∧ (∀ c : Call, c.stage ≤ 3 → failed_thrice env (query_guid_thread M env td).trace c →
        (query_guid_thread M env td).terminal = c.failure
        ∧ (query_guid_thread M env td).trace.getLast? = some c
        ∧ (query_guid_thread M env td).trace.count c = 3)
    ∧ ((query_guid_thread M env td).terminal = Terminal.invalid_ports
        ↔ env.num_ports = 0
          ∧ ¬ ∃ c : Call, c.stage ≤ 3 ∧ failed_thrice env (query_guid_thread M env td).trace c)
    ∧ (pipeline_fails env (query_guid_thread M env td).trace →
        (∃ what, what ∈ failure_texts
          ∧ (query_guid_thread M env td).blob = diagnostic what td env)
        ∧ (query_guid_thread M env td).blob.count '\n' = 1
        ∧ (query_guid_thread M env td).blob.getLast? = some '\n'
        ∧ ("0x".toList ++ fmt_016x td.guid) <:+: (query_guid_thread M env td).blob
        ∧ ¬ ("# Port counters:".toList <:+: (query_guid_thread M env td).blob)
        ∧ (∀ x ∈ (query_guid_thread M env td).trace,
            x.stage ≤ (query_guid_thread M env td).terminal.stage)
        ∧ (∀ p, Call.port_counters p ∉ (query_guid_thread M env td).trace
            ∧ Call.port_counters_ext p ∉ (query_guid_thread M env td).trace)
        ∧ (query_guid_thread M env td).visited = []
        ∧ (query_guid_thread M env td).offs = []
        ∧ failure_cause env (query_guid_thread M env td).terminal
            (query_guid_thread M env td).trace) := by
  have hold : (query_guid_thread M env td).terminal ≠ Terminal.done →
      (∃ what, what ∈ failure_texts
        ∧ (query_guid_thread M env td).blob = diagnostic what td env)
      ∧ (query_guid_thread M env td).blob.count '\n' = 1
      ∧ (query_guid_thread M env td).blob.getLast? = some '\n'
      ∧ ("0x".toList ++ fmt_016x td.guid) <:+: (query_guid_thread M env td).blob
      ∧ ¬ ("# Port counters:".toList <:+: (query_guid_thread M env td).blob)
      ∧ (∀ x ∈ (query_guid_thread M env td).trace,
          x.stage ≤ (query_guid_thread M env td).terminal.stage)
      ∧ (∀ p, Call.port_counters p ∉ (query_guid_thread M env td).trace
          ∧ Call.port_counters_ext p ∉ (query_guid_thread M env td).trace)
      ∧ (query_guid_thread M env td).visited = []
      ∧ (query_guid_thread M env td).offs = []
      ∧ failure_cause env (query_guid_thread M env td).terminal
          (query_guid_thread M env td).trace := by
    intro hfail
    rcases run_cases M env td with ⟨what, t, tr, hw, ht, e, hst, hc⟩ | ⟨start, tr, e, _⟩
    · rw [e]
      have hl := diagnostic_length what hw td env hct h1 h2 hg
      have hb := fail_with_blob what t td env tr (by omega)
      obtain ⟨a, b, c, d⟩ := diagnostic_one_line what hw td env hct
      have ht3 : t.stage ≤ 3 := by
        cases t <;> simp [Terminal.stage] at ht ⊢
      rw [hb]
      refine ⟨⟨what, hw, rfl⟩, a, b, c, d, hst, ?_, rfl, rfl, hc⟩
      intro p
      constructor
      · intro hm
        have := hst _ hm
        simp only [Call.stage] at this
        omega
      · intro hm
        have := hst _ hm
        simp only [Call.stage] at this
        omega
    · rw [e] at hfail
      exact absurd (port_stage_spec M env td start tr).1 hfail
  have hkey : ((query_guid_thread M env td).terminal ≠ Terminal.done
        ↔ pipeline_fails env (query_guid_thread M env td).trace)
      ∧ (∀ c : Call, c.stage ≤ 3 → failed_thrice env (query_guid_thread M env td).trace c →
          (query_guid_thread M env td).terminal = c.failure
          ∧ (query_guid_thread M env td).trace.getLast? = some c
          ∧ (query_guid_thread M env td).trace.count c = 3)
      ∧ ((query_guid_thread M env td).terminal = Terminal.invalid_ports
          ↔ env.num_ports = 0
            ∧ ¬ ∃ c : Call, c.stage ≤ 3
                ∧ failed_thrice env (query_guid_thread M env td).trace c) := by
    rcases run_cases_strict M env td with ⟨what, c, tr, _, hcs, e, hc, hq, f0, f1, f2⟩
      | ⟨what, tr, _, e, hp, hq, _⟩ | ⟨start, tr, e, hp, hq, hst⟩
    · rw [e]
      obtain ⟨n1, n2, _⟩ := failure_ne_done c hcs
      have hthrice := failed_thrice_end env tr c f0 f1 f2
      refine ⟨⟨fun _ => Or.inr ⟨c, hcs, hthrice⟩, fun _ => n1⟩, ?_, ?_⟩
      · intro x _ hx
        have hxc := failed_thrice_unique env tr c x hq hc hx
        subst hxc
        refine ⟨rfl, ?_, ?_⟩
        · show (tr ++ [x, x, x]).getLast? = some x
          simp
        · show (tr ++ [x, x, x]).count x = 3
          rw [List.count_append, List.count_eq_zero_of_not_mem hc]
          simp
      · constructor
        · intro h
          exact absurd h n2
        · rintro ⟨_, hno⟩
          exact absurd ⟨c, hcs, hthrice⟩ hno
    · rw [e]
      have hno : ¬ ∃ c : Call, c.stage ≤ 3 ∧ failed_thrice env tr c :=
        fun ⟨c, _, h⟩ => hq c h
      refine ⟨⟨fun _ => Or.inl hp, fun _ => by simp [fail_with]⟩, ?_, ?_⟩
      · intro c _ hc
        exact absurd hc (hq c)
      · exact ⟨fun _ => ⟨hp, hno⟩, fun _ => rfl⟩
    · obtain ⟨ext, etr, hext⟩ := port_stage_trace M env td start tr
      have hno := no_triple_ext env tr ext hq hext
      have hdone := (port_stage_spec M env td start tr).1
      rw [e, etr, hdone]
      refine ⟨⟨fun h => absurd rfl h, ?_⟩, ?_, ?_⟩
      · rintro (h | ⟨c, hcs, h⟩)
        · exact absurd h hp
        · exact absurd h (hno c hcs)
      · intro c hcs h
        exact absurd h (hno c hcs)
      · constructor
        · intro h
          exact absurd h (by simp)
        · rintro ⟨h, _⟩
          exact absurd h hp
  exact ⟨hkey.1, hkey.2.1, hkey.2.2, fun hf => hold (hkey.1.2 hf)⟩

/-- Witness of C8: the class-port-info query of a channel adapter fails three
times (calls 2, 3 and 4 of the worker), and the address resolution of the same
node fails three times (calls 0, 1 and 2). -/
theorem failed_node_one_diagnostic_line_witness :
    failed_thrice (env_failing_from 2)
        (query_guid_thread mad0 (env_failing_from 2) (td_first 0)).trace Call.class_port_info
    ∧ (query_guid_thread mad0 (env_failing_from 2) (td_first 0)).terminal
      = Terminal.failed_class_info
    ∧ (query_guid_thread mad0 (env_failing_from 2) (td_first 0)).blob.count '\n' = 1
    ∧ (query_guid_thread mad0 (env_failing_from 2) (td_first 0)).trace
      = [Call.resolve, Call.node_info, Call.class_port_info, Call.class_port_info,
          Call.class_port_info]
    ∧ failed_thrice (env_failing_from 0)
        (query_guid_thread mad0 (env_failing_from 0) (td_first 0)).trace Call.resolve
    ∧ (query_guid_thread mad0 (env_failing_from 0) (td_first 0)).terminal
      = Terminal.failed_resolve
    ∧ (query_guid_thread mad0 (env_failing_from 0) (td_first 0)).blob
      = diagnostic ": Failed to resolve GUID ".toList (td_first 0) (env_failing_from 0) := by
  have hct : ctime_line "Wed Jun 30 21:49:08 1993\n".toList :=
    ⟨"Wed Jun 30 21:49:08 1993".toList, by decide!, by decide, by unfold plain NUL; decide⟩
  have t2 : (query_guid_thread mad0 (env_failing_from 2) (td_first 0)).trace
      = [Call.resolve, Call.node_info, Call.class_port_info, Call.class_port_info,
          Call.class_port_info] := by decide!
  have t0 : (query_guid_thread mad0 (env_failing_from 0) (td_first 0)).trace
      = [Call.resolve, Call.resolve, Call.resolve] := by decide!
  have f2 : failed_thrice (env_failing_from 2)
      (query_guid_thread mad0 (env_failing_from 2) (td_first 0)).trace
      Call.class_port_info := by
    rw [t2]
    exact ⟨2, by decide, by decide, by decide, by decide, by decide, by decide⟩
  have f0 : failed_thrice (env_failing_from 0)
      (query_guid_thread mad0 (env_failing_from 0) (td_first 0)).trace Call.resolve := by
    rw [t0]
    exact ⟨0, by decide, by decide, by decide, by decide, by decide, by decide⟩
  have w2 := failed_node_one_diagnostic_line mad0 (env_failing_from 2) (td_first 0) hct
    (by decide) (by decide) (by decide)
  have w0 := failed_node_one_diagnostic_line mad0 (env_failing_from 0) (td_first 0) hct
    (by decide) (by decide) (by decide)
  have b0 : (query_guid_thread mad0 (env_failing_from 0) (td_first 0)).blob
      = diagnostic ": Failed to resolve GUID ".toList (td_first 0) (env_failing_from 0) := by
    have hlen : (diagnostic ": Failed to resolve GUID ".toList (td_first 0)
        (env_failing_from 0)).length ≤ 8191 := by decide!
    have hb2 := fail_with_blob ": Failed to resolve GUID ".toList Terminal.failed_resolve
      (td_first 0) (env_failing_from 0) [Call.resolve, Call.resolve, Call.resolve] hlen
    have hrun : query_guid_thread mad0 (env_failing_from 0) (td_first 0)
        = fail_with ": Failed to resolve GUID ".toList Terminal.failed_resolve
            (td_first 0) (env_failing_from 0) [Call.resolve, Call.resolve, Call.resolve] := by
      unfold query_guid_thread
      rfl
    rw [hrun, hb2]
  exact ⟨f2, (w2.2.1 Call.class_port_info (by decide) f2).1,
    (w2.2.2.2 (Or.inr ⟨Call.class_port_info, by decide, f2⟩)).2.1, t2,
    f0, (w0.2.1 Call.resolve (by decide) f0).1, b0⟩

/-! ## Extended mode without extended counters -/

/-- In extended mode with neither extended-width bit set the body of the port
loop only records the index. -/
theorem port_body_skip (M : Mad) (env : Env) (td : thread_data_t) (cm cm2 i : Nat)
    (st : LoopState) (hx : td.extended = 1) (hw : cm &&& M.IB_PM_EXT_WIDTH_SUPPORTED = 0)
    (hn : cm &&& M.IB_PM_EXT_WIDTH_NOIETF_SUP = 0) :
    port_body M env td cm cm2 i st = (false, { st with visited := st.visited ++ [i] }) := by
  unfold port_body
  dsimp only
  rw [if_neg (by simp [hx]), if_pos (by simp [hw, hn])]

theorem port_loop_skip (M : Mad) (env : Env) (td : thread_data_t) (cm cm2 P : Nat)
    (hx : td.extended = 1) (hw : cm &&& M.IB_PM_EXT_WIDTH_SUPPORTED = 0)
    (hn : cm &&& M.IB_PM_EXT_WIDTH_NOIETF_SUP = 0) :
    ∀ (fuel i : Nat) (st : LoopState),
      port_loop M env td cm cm2 P fuel i st
        = { st with visited := st.visited ++ List.range' i (min fuel (P + 1 - i)) } := by
  intro fuel
  induction fuel with
  | zero => intro i st; simp [port_loop]
  | succ fuel ih =>
    intro i st
    simp only [port_loop]
    by_cases hle : i ≤ P
    · rw [if_pos hle, port_body_skip M env td cm cm2 i st hx hw hn]
      simp only [Bool.false_eq_true, if_false]
      rw [ih]
      have e : min (fuel + 1) (P + 1 - i) = min fuel (P + 1 - (i + 1)) + 1 := by omega
      rw [e, List.range'_succ]
      simp
    · rw [if_neg hle]
      have e : min (fuel + 1) (P + 1 - i) = 0 := by omega
      rw [e]
      simp

theorem header_text_no_port_header (td : thread_data_t) (env : Env)
    (hct : ctime_line env.ctime) :
    ¬ ("# Port counters:".toList <:+: header_text td env) := by
  obtain ⟨body, hb, _, hbp⟩ := hct
  apply no_port_header
  · unfold header_text
    simp only [List.append_assoc]
    rfl
  · unfold header_text fmt_s
    rw [hb]
    simp only [List.append_assoc]
    show '#' ∉ (" Thread ".toList ++ _)
    simp only [List.mem_append, not_or]
    refine ⟨by decide, not_hash_plain (fmt_d_plain _), by decide,
      not_hash_plain (fmt_016x_plain _), by decide, not_hash_plain (fmt_d_plain _),
      by decide, not_hash_plain hbp, by decide⟩

/-- C9: in extended mode (`extended = 1`), when the run passes the
class-capability stage with neither `IB_PM_EXT_WIDTH_SUPPORTED` nor
`IB_PM_EXT_WIDTH_NOIETF_SUP` set in the mask, whatever the port count is, the
trace holds no port-counter query (no call after the class-port-info stage),
`appendf` is never called, every port index is passed over, and the result is
exactly the string of `header`, which holds no `# Port counters:` header when
`ctime` has its libc form. -/
theorem extended_unsupported_header_only (M : Mad) (env : Env) (td : thread_data_t)
    (hx : td.extended = 1) (hw : env.cap_mask &&& M.IB_PM_EXT_WIDTH_SUPPORTED = 0)
    (hn : env.cap_mask &&& M.IB_PM_EXT_WIDTH_NOIETF_SUP = 0)
    (hdone : (query_guid_thread M env td).terminal = Terminal.done) :
    (∀ x ∈ (query_guid_thread M env td).trace, x.stage ≤ 3)
    ∧ (∀ p, Call.port_counters_ext p ∉ (query_guid_thread M env td).trace
        ∧ Call.port_counters p ∉ (query_guid_thread M env td).trace)
    ∧ (query_guid_thread M env td).offs = []
    ∧ (query_guid_thread M env td).blob = header_line td env
    ∧ (query_guid_thread M env td).visited
        = List.range' (expected_start M env) (env.num_ports + 1 - expected_start M env)
    ∧ (ctime_line env.ctime →
        ¬ ("# Port counters:".toList <:+: (query_guid_thread M env td).blob)) := by
  rcases run_cases M env td with ⟨what, t, tr, _, ht, e, _, _⟩ | ⟨start, tr, e, hp, hs, hst, _⟩
  · rw [e] at hdone
    exact absurd hdone ht
  · have hstored := header_stored td.output_buffer (header_line td env)
      (header_line_no_nul td env) (header_line_length td env).2
    have hshape : port_stage M env td start tr =
        { td := { td with
            output_buffer := poke (strncpy td.output_buffer (header_line td env) 8191) 8191 [NUL],
            output_size :=
              strlen (poke (strncpy td.output_buffer (header_line td env) 8191) 8191 [NUL]) },
          trace := tr, terminal := Terminal.done,
          visited := List.range' start (env.num_ports + 1 - start), offs := [],
          broke := false } := by
      unfold port_stage
      dsimp only
      rw [port_loop_skip M env td env.cap_mask env.cap_mask2 env.num_ports hx hw hn]
      simp
    have hblob : (query_guid_thread M env td).blob = header_line td env := by
      rw [e, hshape]
      unfold Run.blob strlen
      dsimp only
      rw [Int.toNat_ofNat, ← cstr_eq_take, hstored]
    rw [hblob]
    rw [e, hshape]
    dsimp only
    refine ⟨hst, ?_, rfl, rfl, by rw [hs], ?_⟩
    · intro p
      constructor
      · intro hm
        have := hst _ hm
        simp only [Call.stage] at this
        omega
      · intro hm
        have := hst _ hm
        simp only [Call.stage] at this
        omega
    · intro hct hin
      apply header_text_no_port_header td env hct
      obtain ⟨s, t2, h⟩ := hin
      obtain ⟨u, hu⟩ : header_line td env <+: header_text td env := List.take_prefix _ _
      exact ⟨s, t2 ++ u, by rw [← hu, ← h]; simp only [List.append_assoc]⟩

/-- Witness of C9: a two-port channel adapter whose capability mask is 0,
queried in extended mode. -/
theorem extended_unsupported_header_only_witness :
    (td_first 1).extended = 1
    ∧ (env_ca 2 40).cap_mask &&& mad0.IB_PM_EXT_WIDTH_SUPPORTED = 0
    ∧ (env_ca 2 40).cap_mask &&& mad0.IB_PM_EXT_WIDTH_NOIETF_SUP = 0
    ∧ (query_guid_thread mad0 (env_ca 2 40) (td_first 1)).terminal = Terminal.done
    ∧ (query_guid_thread mad0 (env_ca 2 40) (td_first 1)).blob
        = header_line (td_first 1) (env_ca 2 40)
    ∧ (query_guid_thread mad0 (env_ca 2 40) (td_first 1)).trace
        = [Call.resolve, Call.node_info, Call.class_port_info] := by
  have hd : (query_guid_thread mad0 (env_ca 2 40) (td_first 1)).terminal = Terminal.done := by
    decide!
  exact ⟨rfl, by decide, by decide, hd,
    (extended_unsupported_header_only mad0 (env_ca 2 40) (td_first 1) rfl (by decide)
      (by decide) hd).2.2.2.1, by decide!⟩

/-! ## Ports visited and the full buffer -/

/-- C10 as stated fails: a channel adapter with 7 ports whose dumps are 1535
bytes long reaches the port loop, the block of port 6 is rejected by `appendf`
and the loop is left: the indices visited are 1 to 6, port 7 is not visited. -/
theorem port_loop_stops_when_full :
    (query_guid_thread mad0 (env_ca 7 1535) (td_first 0)).terminal = Terminal.done
    ∧ (env_ca 7 1535).num_ports = 7
    ∧ (query_guid_thread mad0 (env_ca 7 1535) (td_first 0)).visited = [1, 2, 3, 4, 5, 6]
    ∧ (query_guid_thread mad0 (env_ca 7 1535) (td_first 0)).visited
        ≠ List.range' 1 7 := by
  decide!

/-- C10 (amended): a run that reaches the port loop has a port count of at
least 1 and visits consecutive indices in ascending order from the start port:
all of them up to the port count when no `appendf` call is rejected. When one
is rejected (`off` set to `MAX_OUTPUT_SIZE`) the loop is left at that port: the
port is the last one visited, it is the first port whose block does not fit
behind the text of the ports before it, its query is the last call of the
trace, the rejected offset is the last and only one recorded that reaches
`MAX_OUTPUT_SIZE`, and no later port is visited or queried. The start port is 0
exactly for a switch whose switch-info reports an enhanced port 0 and 1
otherwise; a node that is no switch issues no switch-info query and starts at
1. -/
theorem port_loop_visits (M : Mad) (env : Env) (td : thread_data_t)
    (hdone : (query_guid_thread M env td).terminal = Terminal.done) :
    1 ≤ env.num_ports
    ∧ (∃ n, (query_guid_thread M env td).visited = List.range' (expected_start M env) n
        ∧ n ≤ env.num_ports + 1 - expected_start M env
        ∧ (MAX_OUTPUT_SIZE ∉ (query_guid_thread M env td).offs →
            n = env.num_ports + 1 - expected_start M env)
        ∧ (MAX_OUTPUT_SIZE ∈ (query_guid_thread M env td).offs → 1 ≤ n))
    ∧ (MAX_OUTPUT_SIZE ∈ (query_guid_thread M env td).offs →
        ∃ m, m < env.num_ports + 1 - expected_start M env
          ∧ (query_guid_thread M env td).visited
              = List.range' (expected_start M env) (m + 1)
          ∧ reaches_append M env td (query_guid_thread M env td).trace
              (expected_start M env + m) = true
          ∧ (text_before M env td (query_guid_thread M env td).trace
              (expected_start M env) m).length < 8192
          ∧ 8192 ≤ (text_before M env td (query_guid_thread M env td).trace
                (expected_start M env) m).length
              + (port_text M env td (expected_start M env + m)).length
          ∧ (query_guid_thread M env td).trace.getLast?
              = some (port_query td (expected_start M env + m))
          ∧ (∃ pre, (query_guid_thread M env td).offs = pre ++ [MAX_OUTPUT_SIZE]
              ∧ ∀ o ∈ pre, o < MAX_OUTPUT_SIZE)
          ∧ ∀ j, expected_start M env + m < j →
              j ∉ (query_guid_thread M env td).visited
              ∧ Call.port_counters j ∉ (query_guid_thread M env td).trace
              ∧ Call.port_counters_ext j ∉ (query_guid_thread M env td).trace)
    ∧ (expected_start M env = 0 ↔
        (env.node_type = M.IB_NODE_SWITCH ∧ env.enhancedport0 ≠ 0))
    ∧ (expected_start M env = 0 ∨ expected_start M env = 1)
    ∧ (env.node_type ≠ M.IB_NODE_SWITCH →
        expected_start M env = 1 ∧ Call.switch_info ∉ (query_guid_thread M env td).trace) := by
  have hleft : MAX_OUTPUT_SIZE ∈ (query_guid_thread M env td).offs →
      ∃ m, m < env.num_ports + 1 - expected_start M env
        ∧ (query_guid_thread M env td).visited
            = List.range' (expected_start M env) (m + 1)
        ∧ reaches_append M env td (query_guid_thread M env td).trace
            (expected_start M env + m) = true
        ∧ (text_before M env td (query_guid_thread M env td).trace
            (expected_start M env) m).length < 8192
        ∧ 8192 ≤ (text_before M env td (query_guid_thread M env td).trace
              (expected_start M env) m).length
            + (port_text M env td (expected_start M env + m)).length
        ∧ (query_guid_thread M env td).trace.getLast?
            = some (port_query td (expected_start M env + m))
        ∧ (∃ pre, (query_guid_thread M env td).offs = pre ++ [MAX_OUTPUT_SIZE]
            ∧ ∀ o ∈ pre, o < MAX_OUTPUT_SIZE)
        ∧ ∀ j, expected_start M env + m < j →
            j ∉ (query_guid_thread M env td).visited
            ∧ Call.port_counters j ∉ (query_guid_thread M env td).trace
            ∧ Call.port_counters_ext j ∉ (query_guid_thread M env td).trace := by
    intro hm
    obtain ⟨m, a1, a2, a3, a4, a5, a6, a7, a8, _⟩ := run_left_at M env td hm
    refine ⟨m, a1, a2, a3, a7, a8, a4, a6, fun j hj => ⟨?_, a5 j hj⟩⟩
    rw [a2, List.mem_range']
    rintro ⟨k, hk, e⟩
    omega
  rcases run_cases M env td with ⟨what, t, tr, _, ht, e, _, _⟩ | ⟨start, tr, e, hp, hs, hst, hsw⟩
  · rw [e] at hdone
    exact absurd hdone ht
  · obtain ⟨_, _, htr, n, v1, v2, v3, v4⟩ := port_stage_spec M env td start tr
    obtain ⟨_, _, _, _, hbr, _⟩ := port_stage_size M env td start tr
    refine ⟨by omega, ?_, hleft, ?_, ?_, ?_⟩
    · rw [e]
      subst hs
      refine ⟨n, v1, v2, ?_, ?_⟩
      · intro hm
        apply v3
        cases hb : (port_stage M env td (expected_start M env) tr).broke
        · rfl
        · exact absurd (hbr.1 hb) hm
      · intro hm
        exact v4 (hbr.2 hm)
    · unfold expected_start
      split_ifs with h
      · simp [h]
      · simp [h]
    · unfold expected_start
      split_ifs
      · left; rfl
      · right; rfl
    · intro hne
      rw [e]
      refine ⟨by unfold expected_start; rw [if_neg (fun h => hne h.1)], ?_⟩
      intro hm
      rcases htr _ hm with h | h
      · exact hsw hne h
      · simp [Call.stage] at h

/-- Witness of C10 (amended): a two-port channel adapter, whose ports are both
visited, and a 7-port channel adapter with dumps of 1535 bytes, where the
block of port 6 is rejected and port 7 is neither visited nor queried. -/
theorem port_loop_visits_witness :
    (query_guid_thread mad0 (env_ca 2 40) (td_first 0)).terminal = Terminal.done
    ∧ 1 ≤ (env_ca 2 40).num_ports
    ∧ (query_guid_thread mad0 (env_ca 2 40) (td_first 0)).visited = [1, 2]
    ∧ (query_guid_thread mad0 (env_ca 7 1535) (td_first 0)).terminal = Terminal.done
    ∧ MAX_OUTPUT_SIZE ∈ (query_guid_thread mad0 (env_ca 7 1535) (td_first 0)).offs
    ∧ (query_guid_thread mad0 (env_ca 7 1535) (td_first 0)).visited = List.range' 1 6
    ∧ (query_guid_thread mad0 (env_ca 7 1535) (td_first 0)).trace.getLast?
        = some (Call.port_counters 6)
    ∧ Call.port_counters 7 ∉ (query_guid_thread mad0 (env_ca 7 1535) (td_first 0)).trace := by
  have hd : (query_guid_thread mad0 (env_ca 2 40) (td_first 0)).terminal = Terminal.done := by
    decide!
  have hd7 : (query_guid_thread mad0 (env_ca 7 1535) (td_first 0)).terminal
      = Terminal.done := by decide!
  have hm7 : MAX_OUTPUT_SIZE ∈ (query_guid_thread mad0 (env_ca 7 1535) (td_first 0)).offs := by
    decide!
  have hlen : (query_guid_thread mad0 (env_ca 7 1535) (td_first 0)).visited.length = 6 := by
    decide!
  obtain ⟨m, _, b2, _, _, _, b6, _, b8⟩ :=
    (port_loop_visits mad0 (env_ca 7 1535) (td_first 0) hd7).2.2.1 hm7
  have hm : m = 5 := by
    rw [b2, List.length_range'] at hlen
    omega
  subst hm
  exact ⟨hd, (port_loop_visits mad0 (env_ca 2 40) (td_first 0) hd).1, by decide!, hd7, hm7,
    b2, b6, (b8 7 (by decide)).2.1⟩

/-- A block that does not fit behind the text of the buffer is rejected and
leaves its first bytes behind that text. -/
theorem emit_rejected (M : Mad) (env : Env) (cm i : Nat) (dump : List Char)
    (st : LoopState) (hd : dump ≠ []) (h0 : 0 ≤ st.off) (hlt : st.off < MAX_OUTPUT_SIZE)
    (hstr : strlen st.buf = st.off)
    (hover : MAX_OUTPUT_SIZE ≤ st.off + ((port_block M env cm i dump).length : Int)) :
    (emit M env cm i dump st).1 = true
    ∧ (emit M env cm i dump st).2.off = MAX_OUTPUT_SIZE
    ∧ cstr (emit M env cm i dump st).2.buf
        = cstr st.buf ++ (port_block M env cm i dump).take (MAX_OUTPUT_SIZE - 1 - st.off).toNat
    ∧ strlen (emit M env cm i dump st).2.buf = MAX_OUTPUT_SIZE - 1 := by
  have hk : (cstr st.buf).length = st.off.toNat := by unfold strlen at hstr; omega
  have hs := port_block_no_nul M env cm i dump
  have hx : ∀ c ∈ (port_block M env cm i dump).take (MAX_OUTPUT_SIZE - st.off - 1).toNat,
      c ≠ NUL := fun c hc => hs c (List.mem_of_mem_take hc)
  have hneg : ((-1 : Int) < 0) := by decide
  have hem : emit M env cm i dump st = (true,
      { st with
        buf := poke st.buf st.off.toNat
          ((port_block M env cm i dump).take (MAX_OUTPUT_SIZE - st.off - 1).toNat ++ [NUL]),
        off := MAX_OUTPUT_SIZE, offs := st.offs ++ [MAX_OUTPUT_SIZE], broke := true }) := by
    unfold emit
    rw [if_pos hd, appendf_full _ _ _ _ hlt hover]
    simp only [hneg, if_true]
  rw [hem]
  dsimp only
  have e : (MAX_OUTPUT_SIZE - 1 - st.off).toNat = (MAX_OUTPUT_SIZE - st.off - 1).toNat := by
    omega
  refine ⟨rfl, rfl, ?_, ?_⟩
  · rw [e]; exact cstr_poke _ _ _ hk hx
  · unfold strlen
    rw [cstr_poke _ _ _ hk hx, List.length_append, List.length_take]
    push_cast
    omega

/-- A run in which an `appendf` call is rejected records 8191 bytes, which
start with the header line. -/
theorem run_rejected_size (M : Mad) (env : Env) (td : thread_data_t)
    (hm : MAX_OUTPUT_SIZE ∈ (query_guid_thread M env td).offs) :
    (query_guid_thread M env td).td.output_size = MAX_OUTPUT_SIZE - 1
    ∧ header_line td env <+: (query_guid_thread M env td).blob := by
  rcases run_cases M env td with ⟨what, t, tr, _, _, e2, _, _⟩ | ⟨start, tr, e2, _⟩
  · rw [e2] at hm
    exact absurd hm (by simp [fail_with])
  · rw [e2] at hm ⊢
    obtain ⟨_, _, _, a, _, b⟩ := port_stage_size M env td start tr
    exact ⟨a hm, b⟩

/-- C4 as stated fails. With 8170 bytes of text in the buffer the block of a
port (48 bytes) does not fit: `appendf` rejects it, the loop is left, and the
string in the buffer is not the old text but the old text followed by the first
21 bytes of the rejected block. In the run of a 7-port node with dumps of 1535
bytes the buffer holds 7991 bytes of text when the block of port 6 is rejected
(`off` becomes 8192), and the recorded `output_size` is 8191, not 7991. -/
theorem rejected_block_leaves_truncated_text :
    MAX_OUTPUT_SIZE ≤ nearly_full.off
        + ((port_block mad0 (env_ca 2 40) 0 1 ['x']).length : Int)
    ∧ (emit mad0 (env_ca 2 40) 0 1 ['x'] nearly_full).1 = true
    ∧ cstr (emit mad0 (env_ca 2 40) 0 1 ['x'] nearly_full).2.buf ≠ cstr nearly_full.buf
    ∧ cstr (emit mad0 (env_ca 2 40) 0 1 ['x'] nearly_full).2.buf
        = cstr nearly_full.buf ++ "# Port counters: Lid ".toList
    ∧ (query_guid_thread mad0 (env_ca 7 1535) (td_first 0)).offs
        = [1667, 3248, 4829, 6410, 7991, 8192]
    ∧ (query_guid_thread mad0 (env_ca 7 1535) (td_first 0)).td.output_size = 8191 := by
  have a : strlen nearly_full.buf = nearly_full.off := by decide!
  have b : MAX_OUTPUT_SIZE ≤ nearly_full.off
      + ((port_block mad0 (env_ca 2 40) 0 1 ['x']).length : Int) := by decide!
  obtain ⟨r1, _, r3, _⟩ := emit_rejected mad0 (env_ca 2 40) 0 1 ['x'] nearly_full
    (by decide) (by decide) (by decide) a b
  have t : (port_block mad0 (env_ca 2 40) 0 1 ['x']).take
      (MAX_OUTPUT_SIZE - 1 - nearly_full.off).toNat = "# Port counters: Lid ".toList := by
    decide!
  rw [t] at r3
  have o : (query_guid_thread mad0 (env_ca 7 1535) (td_first 0)).offs
      = [1667, 3248, 4829, 6410, 7991, 8192] := by decide!
  refine ⟨b, r1, ?_, r3, o, ?_⟩
  · rw [r3]
    intro h
    have := congrArg List.length h
    rw [List.length_append] at this
    have l : "# Port counters: Lid ".toList.length = 21 := by decide
    omega
  · exact (run_rejected_size mad0 (env_ca 7 1535) (td_first 0)
      (by rw [o]; decide)).1

/-- C4 (amended): when the block of a port does not fit behind the `off < 8192`
bytes of text in the result buffer, `appendf` rejects it (the loop is left and
`off` is set to `MAX_OUTPUT_SIZE`), and the string in the buffer is the text
that was there before, kept whole, followed by the first `8191 - off` bytes of
the rejected block; it is 8191 bytes long. In every run in which an `appendf`
call is rejected the port loop is left at the port of the rejected block, the
last port visited; the result (`output_buffer` up to `output_size`) is the
string of `header` and the blocks of the ports before that port, kept whole,
followed by the first bytes of the rejected block, and `output_size` is
8191. -/
theorem rejected_block_truncated (M : Mad) (env : Env) (cm i : Nat) (dump : List Char)
    (st : LoopState) (hd : dump ≠ []) (h0 : 0 ≤ st.off) (hlt : st.off < MAX_OUTPUT_SIZE)
    (hstr : strlen st.buf = st.off)
    (hover : MAX_OUTPUT_SIZE ≤ st.off + ((port_block M env cm i dump).length : Int)) :
    (emit M env cm i dump st).1 = true
    ∧ (emit M env cm i dump st).2.off = MAX_OUTPUT_SIZE
    ∧ cstr (emit M env cm i dump st).2.buf
        = cstr st.buf ++ (port_block M env cm i dump).take (MAX_OUTPUT_SIZE - 1 - st.off).toNat
    ∧ strlen (emit M env cm i dump st).2.buf = MAX_OUTPUT_SIZE - 1
    ∧ (∀ td, MAX_OUTPUT_SIZE ∈ (query_guid_thread M env td).offs →
        (query_guid_thread M env td).td.output_size = MAX_OUTPUT_SIZE - 1
        ∧ header_line td env <+: (query_guid_thread M env td).blob
        ∧ (query_guid_thread M env td).blob.length = 8191
        ∧ ∃ m, (query_guid_thread M env td).visited
              = List.range' (expected_start M env) (m + 1)
          ∧ reaches_append M env td (query_guid_thread M env td).trace
              (expected_start M env + m) = true
          ∧ (query_guid_thread M env td).trace.getLast?
              = some (port_query td (expected_start M env + m))
          ∧ (∃ pre, (query_guid_thread M env td).offs = pre ++ [MAX_OUTPUT_SIZE]
              ∧ ∀ o ∈ pre, o < MAX_OUTPUT_SIZE)
          ∧ (text_before M env td (query_guid_thread M env td).trace
              (expected_start M env) m).length < 8192
          ∧ 8192 ≤ (text_before M env td (query_guid_thread M env td).trace
                (expected_start M env) m).length
              + (port_text M env td (expected_start M env + m)).length
          ∧ (query_guid_thread M env td).blob
              = text_before M env td (query_guid_thread M env td).trace
                  (expected_start M env) m
                ++ (port_text M env td (expected_start M env + m)).take
                    (8191 - (text_before M env td (query_guid_thread M env td).trace
                      (expected_start M env) m).length)) := by
  obtain ⟨a, b, c, d⟩ := emit_rejected M env cm i dump st hd h0 hlt hstr hover
  refine ⟨a, b, c, d, fun td hm => ?_⟩
  obtain ⟨m, _, a2, a3, a4, _, a6, a7, a8, a9⟩ := run_left_at M env td hm
  obtain ⟨s1, s2⟩ := run_rejected_size M env td hm
  refine ⟨s1, s2, ?_, m, a2, a3, a4, a6, a7, a8, a9⟩
  rw [a9, List.length_append, List.length_take]
  omega

/-- Witness of C4 (amended): 8170 bytes of text and the 48-byte block of a
port; and the run of a 7-port node with dumps of 1535 bytes, whose result is
the header and the blocks of ports 1 to 5 followed by the first 200 bytes of
the block of port 6. -/
theorem rejected_block_truncated_witness :
    strlen nearly_full.buf = nearly_full.off
    ∧ MAX_OUTPUT_SIZE ≤ nearly_full.off
        + ((port_block mad0 (env_ca 7 1535) 0 1 ['x']).length : Int)
    ∧ strlen (emit mad0 (env_ca 7 1535) 0 1 ['x'] nearly_full).2.buf = MAX_OUTPUT_SIZE - 1
    ∧ MAX_OUTPUT_SIZE ∈ (query_guid_thread mad0 (env_ca 7 1535) (td_first 0)).offs
    ∧ (text_before mad0 (env_ca 7 1535) (td_first 0)
        (query_guid_thread mad0 (env_ca 7 1535) (td_first 0)).trace 1 5).length = 7991
    ∧ (query_guid_thread mad0 (env_ca 7 1535) (td_first 0)).blob
        = text_before mad0 (env_ca 7 1535) (td_first 0)
            (query_guid_thread mad0 (env_ca 7 1535) (td_first 0)).trace 1 5
          ++ (port_text mad0 (env_ca 7 1535) (td_first 0) 6).take 200 := by
  have a : strlen nearly_full.buf = nearly_full.off := by decide!
  have b : MAX_OUTPUT_SIZE ≤ nearly_full.off
      + ((port_block mad0 (env_ca 7 1535) 0 1 ['x']).length : Int) := by decide!
  have hm7 : MAX_OUTPUT_SIZE ∈ (query_guid_thread mad0 (env_ca 7 1535) (td_first 0)).offs := by
    decide!
  have hlen : (query_guid_thread mad0 (env_ca 7 1535) (td_first 0)).visited.length = 6 := by
    decide!
  have htl : (text_before mad0 (env_ca 7 1535) (td_first 0)
      (query_guid_thread mad0 (env_ca 7 1535) (td_first 0)).trace 1 5).length = 7991 := by
    decide!
  have w := rejected_block_truncated mad0 (env_ca 7 1535) 0 1 ['x'] nearly_full
    (by decide) (by decide) (by decide) a b
  obtain ⟨_, _, _, m, c1, _, _, _, _, _, c7⟩ := w.2.2.2.2 (td_first 0) hm7
  have hs : expected_start mad0 (env_ca 7 1535) = 1 := by decide
  rw [hs] at c1 c7
  have hm : m = 5 := by
    rw [c1, List.length_range'] at hlen
    omega
  subst hm
  rw [htl] at c7
  exact ⟨a, b, w.2.2.2.1, hm7, htl, c7⟩

/-! ## Order of the output -/

theorem getD_set_eq {α : Type} (l : List α) (n : Nat) (a d : α) (h : n < l.length) :
    (l.set n a).getD n d = a := by
  simp [List.getD_eq_getElem?_getD, List.getElem?_set, h]

theorem getD_set_ne {α : Type} (l : List α) (n m : Nat) (a d : α) (h : n ≠ m) :
    (l.set n a).getD m d = l.getD m d := by
  simp [List.getD_eq_getElem?_getD, List.getElem?_set, h]

/-- Every run records a positive size. -/
theorem output_size_pos (M : Mad) (env : Env) (td : thread_data_t) :
    0 < (query_guid_thread M env td).td.output_size := by
  rcases run_cases M env td with ⟨what, t, tr, _, _, e, _, _⟩ | ⟨start, tr, e, _⟩
  · rw [e]
    have hl := diagnostic_length_pos what td env
    have hs : (fail_with what t td env tr).td.output_size
        = ((diagnostic what td env).length : Int) := rfl
    rw [hs]; omega
  · rw [e]
    have := (port_stage_size M env td start tr).1
    omega

/-- The creation loop with every `pthread_create` succeeding. -/
theorem create_fold (P : Params) (tds0 : List thread_data_t) (N K a : Nat)
    (hok : ∀ idx, P.create_ok idx = true) (st : MainState)
    (hpre : BetweenWaves tds0 N K a st) :
    ∀ m, m ≤ K → a + m ≤ N →
      ((List.range m).foldl (create_one P (a : Int)) (st, 0)).2 = (m : Int)
      ∧ WaveInv P tds0 N K a m st.output_file
          ((List.range m).foldl (create_one P (a : Int)) (st, 0)).1 := by
  obtain ⟨p1, p2, p3, p4⟩ := hpre
  intro m
  induction m with
  | zero =>
    intro _ _
    refine ⟨rfl, p1, p2, rfl, fun j hj => absurd hj (by omega), ?_, fun idx h1 h2 => by omega,
      fun idx h => p4 idx (by omega)⟩
    intro w hw
    simp only [List.range_zero, List.foldl_nil] at hw
    rw [p3] at hw
    exact absurd hw (by simp)
  | succ m ih =>
    intro hm hN
    obtain ⟨e, q1, q2, q3, q4, q5, q6, q7⟩ := ih (by omega) (by omega)
    rw [List.range_succ, List.foldl_append, List.foldl_cons, List.foldl_nil]
    generalize (List.range m).foldl (create_one P (a : Int)) (st, 0) = c at e q1 q2 q3 q4 q5 q6 q7
    have hidx : ((a : Int) + (m : Int)).toNat = a + m := by omega
    unfold create_one
    dsimp only
    rw [hidx, if_pos (hok _)]
    dsimp only
    refine ⟨by rw [e]; push_cast; ring, ?_, ?_, q3, ?_, ?_, ?_, ?_⟩
    · rw [List.length_set]; exact q1
    · rw [List.length_set]; exact q2
    · intro j hj
      by_cases hjm : j = m
      · subst hjm
        exact getD_set_eq _ _ _ _ (by omega)
      · rw [getD_set_ne _ _ _ _ _ (fun h => hjm h.symm)]
        exact q4 j (by omega)
    · intro w hw
      rcases List.mem_append.1 hw with h | h
      · have := q5 w h; omega
      · simp only [List.mem_singleton] at h; omega
    · intro idx h1 h2
      by_cases hi : idx = a + m
      · subst hi
        constructor
        · intro _
          rw [getD_set_eq _ _ _ _ (by omega), q7 _ (le_refl _)]
          rfl
        · intro hn
          exact absurd (List.mem_append.2 (Or.inr (List.mem_singleton.2 rfl))) hn
      · rw [getD_set_ne _ _ _ _ _ (fun h => hi h.symm)]
        have := q6 idx h1 (by omega)
        constructor
        · intro hr
          rcases List.mem_append.1 hr with h | h
          · exact this.1 h
          · simp only [List.mem_singleton] at h; exact absurd h hi
        · intro hn
          exact this.2 (fun h => hn (List.mem_append.2 (Or.inl h)))
    · intro idx h
      rw [getD_set_ne _ _ _ _ _ (by omega)]
      exact q7 idx (by omega)

/-- A worker that terminates keeps the invariant of the wave and is not
running afterwards. -/
theorem finish_keeps (P : Params) (tds0 : List thread_data_t) (N K a m : Nat)
    (out : List (List Char)) (st : MainState) (w : Nat) (hN : a + m ≤ N)
    (h : WaveInv P tds0 N K a m out st) :
    WaveInv P tds0 N K a m out (finish P st w)
    ∧ w ∉ (finish P st w).running
    ∧ (∀ x, x ∉ st.running → x ∉ (finish P st w).running) := by
  obtain ⟨q1, q2, q3, q4, q5, q6, q7⟩ := h
  unfold finish
  split_ifs with hw
  · have hr := q5 w hw
    have hin := (q6 w hr.1 hr.2).1 hw
    dsimp only
    refine ⟨⟨?_, q2, q3, q4, ?_, ?_, ?_⟩, ?_, ?_⟩
    · rw [List.length_set]; exact q1
    · intro x hx
      exact q5 x (List.mem_of_mem_filter hx)
    · intro idx h1 h2
      by_cases hi : idx = w
      · subst hi
        constructor
        · intro hm
          simp at hm
        · intro _
          rw [getD_set_eq _ _ _ _ (by omega), hin]
          rfl
      · rw [getD_set_ne _ _ _ _ _ (fun h => hi h.symm)]
        have := q6 idx h1 h2
        constructor
        · intro hm
          exact this.1 (List.mem_of_mem_filter hm)
        · intro hn
          apply this.2
          intro hm
          apply hn
          rw [List.mem_filter]
          exact ⟨hm, by simpa using hi⟩
    · intro idx h
      rw [getD_set_ne _ _ _ _ _ (by omega)]
      exact q7 idx h
    · simp
    · intro x hx hm
      exact hx (List.mem_of_mem_filter hm)
  · exact ⟨⟨q1, q2, q3, q4, q5, q6, q7⟩, hw, fun x hx => hx⟩

/-- The workers that terminate on their own keep the invariant of the wave. -/
theorem early_fold (P : Params) (tds0 : List thread_data_t) (N K a m : Nat)
    (out : List (List Char)) (early : List Nat) (hN : a + m ≤ N) :
    ∀ st, WaveInv P tds0 N K a m out st → WaveInv P tds0 N K a m out (early.foldl (finish P) st) := by
  induction early with
  | nil => intro st h; exact h
  | cons w early ih =>
    intro st h
    exact ih _ (finish_keeps P tds0 N K a m out st w hN h).1

/-- The join loop over the first `n` handles of the wave. -/
theorem join_fold (P : Params) (tds0 : List thread_data_t) (N K a m : Nat)
    (out : List (List Char)) (st : MainState) (hN : a + m ≤ N)
    (h : WaveInv P tds0 N K a m out st) :
    ∀ n, n ≤ m →
      WaveInv P tds0 N K a m out ((List.range n).foldl (join P) st)
      ∧ ∀ j, j < n → a + j ∉ ((List.range n).foldl (join P) st).running := by
  intro n
  induction n with
  | zero => intro _; exact ⟨h, fun j hj => absurd hj (by omega)⟩
  | succ n ih =>
    intro hn
    obtain ⟨i1, i2⟩ := ih (by omega)
    rw [List.range_succ, List.foldl_append, List.foldl_cons, List.foldl_nil]
    generalize (List.range n).foldl (join P) st = s at i1 i2
    have ht : s.threads.getD n none = some (a + n) := i1.2.2.2.1 n (by omega)
    unfold join
    rw [ht]
    dsimp only
    obtain ⟨k1, k2, k3⟩ := finish_keeps P tds0 N K a m out s (a + n) hN i1
    refine ⟨k1, ?_⟩
    intro j hj
    by_cases hjn : j = n
    · subst hjn; exact k2
    · exact k3 _ (i2 j (by omega))

/-- The flush loop over the first `n` slots of a wave whose workers have all
terminated. -/
theorem flush_fold (P : Params) (tds0 : List thread_data_t) (a m : Nat) (st : MainState)
    (hres : ∀ idx, a ≤ idx → idx < a + m → st.tds.getD idx default = worker_output P tds0 idx) :
    ∀ n, n ≤ m →
      ((List.range n).foldl (flush_one (a : Int)) st)
        = { st with output_file := st.output_file
              ++ (List.range' a n).map (result_blob P tds0) } := by
  intro n
  induction n with
  | zero => intro _; simp
  | succ n ih =>
    intro hn
    rw [List.range_succ, List.foldl_append, List.foldl_cons, List.foldl_nil, ih (by omega)]
    have hidx : ((a : Int) + (n : Int)).toNat = a + n := by omega
    unfold flush_one
    dsimp only
    rw [hidx, hres (a + n) (by omega) (by omega)]
    have hpos : (worker_output P tds0 (a + n)).output_size > 0 := by
      unfold worker_output
      exact output_size_pos _ _ _
    rw [if_pos hpos]
    unfold write_output_to_file
    congr 1
    rw [List.append_assoc]
    congr 1
    rw [List.range'_concat, List.map_append]
    simp [result_blob]

/-- One wave with every `pthread_create` succeeding: whatever workers
terminate on their own, and in whatever order, the wave writes the blobs of its
slots in index order and leaves no worker running. -/
theorem wave_spec (P : Params) (tds0 : List thread_data_t) (N K a : Nat)
    (hok : ∀ idx, P.create_ok idx = true) (early : List Nat) (st : MainState)
    (ha : a < N) (hpre : BetweenWaves tds0 N K a st) :
    BetweenWaves tds0 N K (a + min K (N - a)) (wave P early K N a st)
    ∧ (wave P early K N a st).output_file
        = st.output_file ++ (List.range' a (min K (N - a))).map (result_blob P tds0) := by
  have hbs : batch_size (a : Int) (K : Int) (N : Int) = ((min K (N - a) : Nat) : Int) := by
    unfold batch_size
    split_ifs with hb
    · have : a + K ≤ N := by exact_mod_cast hb
      rw [Nat.min_eq_left (by omega)]
    · have : ¬ (a + K ≤ N) := by
        intro h; apply hb; exact_mod_cast h
      rw [Nat.min_eq_right (by omega)]
      omega
  have hm1 : min K (N - a) ≤ K := Nat.min_le_left _ _
  have hm2 : a + min K (N - a) ≤ N := by omega
  unfold wave
  dsimp only
  rw [hbs, Int.toNat_ofNat]
  obtain ⟨c2, cinv⟩ := create_fold P tds0 N K a hok st hpre (min K (N - a)) hm1 hm2
  rw [c2, Int.toNat_ofNat]
  generalize ((List.range (min K (N - a))).foldl (create_one P (a : Int)) (st, 0)).1 = c
    at cinv
  have einv := early_fold P tds0 N K a (min K (N - a)) st.output_file early hm2 c cinv
  generalize early.foldl (finish P) c = s1 at einv
  obtain ⟨jinv, jdone⟩ := join_fold P tds0 N K a (min K (N - a)) st.output_file s1 hm2 einv
    (min K (N - a)) (le_refl _)
  generalize (List.range (min K (N - a))).foldl (join P) s1 = s2 at jinv jdone
  obtain ⟨q1, q2, q3, q4, q5, q6, q7⟩ := jinv
  have hnot : ∀ idx, a ≤ idx → idx < a + min K (N - a) → idx ∉ s2.running := by
    intro idx h1 h2
    have := jdone (idx - a) (by omega)
    rwa [Nat.add_sub_cancel' h1] at this
  have hres : ∀ idx, a ≤ idx → idx < a + min K (N - a) →
      s2.tds.getD idx default = worker_output P tds0 idx :=
    fun idx h1 h2 => (q6 idx h1 h2).2 (hnot idx h1 h2)
  rw [flush_fold P tds0 a (min K (N - a)) s2 hres (min K (N - a)) (le_refl _)]
  dsimp only
  refine ⟨⟨q1, q2, ?_, q7⟩, by rw [q3]⟩
  rw [List.eq_nil_iff_forall_not_mem]
  intro w hw
  have := q5 w hw
  exact hnot w this.1 this.2 hw

/-- The blobs the batch loop writes from index `w * K` on, with every
`pthread_create` succeeding and room for the remaining iterations. -/
theorem batch_loop_output (P : Params) (sched : Int → List Nat) (tds0 : List thread_data_t)
    (K N : Nat) (hK : 1 ≤ K) (hKmax : (K : Int) ≤ INT_MAX) (hN : N ≤ 1000)
    (hok : ∀ idx, P.create_ok idx = true) :
    ∀ (fuel : Nat) (w : Nat) (st : MainState),
      (N + K - 1) / K ≤ w + fuel → BetweenWaves tds0 N K (w * K) st →
      ∃ st1, batch_loop P sched K N fuel ((w * K : Nat) : Int) st = some st1
        ∧ st1.output_file = st.output_file
            ++ (List.range' (w * K) (N - w * K)).map (result_blob P tds0) := by
  have hceil : ∀ v : Nat, v * K < N ↔ v < (N + K - 1) / K := by
    intro v
    rw [Nat.lt_iff_add_one_le (m := v), Nat.le_div_iff_mul_le (by omega), Nat.add_mul]
    omega
  intro fuel
  induction fuel with
  | zero =>
    intro w st hw _
    have hge : ¬ (w * K < N) := by rw [hceil]; omega
    refine ⟨st, ?_, ?_⟩
    · simp only [batch_loop]
      rw [if_neg]
      exact_mod_cast hge
    · have : N - w * K = 0 := by omega
      simp [this]
  | succ fuel ih =>
    intro w st hw hpre
    by_cases hlt : w * K < N
    · have hov : ¬ (((w * K : Nat) : Int) + (K : Int) > INT_MAX) := by
        unfold INT_MAX at *
        rcases Nat.eq_zero_or_pos w with h0 | hpos
        · subst h0; simp; omega
        · have : K ≤ w * K := Nat.le_mul_of_pos_left K hpos
          push_cast
          omega
      obtain ⟨wpost, wout⟩ := wave_spec P tds0 N K (w * K) hok
        (sched ((w * K : Nat) : Int)) st hlt hpre
      have hnext : BetweenWaves tds0 N K ((w + 1) * K)
          (wave P (sched ((w * K : Nat) : Int)) K N ((w * K : Nat) : Int) st) := by
        obtain ⟨b1, b2, b3, b4⟩ := wpost
        refine ⟨b1, b2, b3, fun idx hidx => b4 idx ?_⟩
        rw [Nat.add_mul] at hidx
        omega
      obtain ⟨st1, h1, h2⟩ := ih (w + 1) _ (by omega) hnext
      refine ⟨st1, ?_, ?_⟩
      · simp only [batch_loop]
        rw [if_pos (by exact_mod_cast hlt), if_neg hov]
        have e : ((w * K : Nat) : Int) + (K : Int) = (((w + 1) * K : Nat) : Int) := by
          push_cast; ring
        rw [e]
        exact h1
      · rw [h2, wout, List.append_assoc, ← List.map_append]
        congr 2
        by_cases hfull : w * K + K ≤ N
        · have e1 : min K (N - w * K) = K := by omega
          have e2 : N - w * K = K + (N - (w + 1) * K) := by
            rw [Nat.add_mul]; omega
          have e3 : (w + 1) * K = w * K + K := by rw [Nat.add_mul]; omega
          rw [e1, e2, e3, List.range'_append_1, Nat.add_comm]
        · have e1 : min K (N - w * K) = N - w * K := by omega
          have e2 : N - (w + 1) * K = 0 := by rw [Nat.add_mul]; omega
          rw [e1, e2]
          simp
    · refine ⟨st, ?_, ?_⟩
      · simp only [batch_loop]
        rw [if_neg]
        exact_mod_cast hlt
      · have : N - w * K = 0 := by omega
        simp [this]

/-- C2: for a GUID list of length `N <= 1000`, a concurrency limit `1 <= K`
and every `pthread_create` succeeding, whatever workers terminate on their own
before being joined and in whatever order (`sched`), the batch loop terminates
and the blobs it passes to `write_output_to_file` are exactly the results of
the workers for the indices `0, 1, ..., N - 1`, one each, in that order; the
result for index `idx` is that of the GUID `guids[idx]`. -/
theorem output_in_guid_order (P : Params) (sched : Int → List Nat) (st0 : MainState)
    (K : Nat) (hK : 1 ≤ K) (hKmax : (K : Int) ≤ INT_MAX)
    (hN : P.guids.length ≤ 1000) (hok : ∀ idx, P.create_ok idx = true)
    (htds : st0.tds.length = P.guids.length) (hthr : st0.threads.length = K)
    (hrun : st0.running = []) :
    ∃ st, batch_loop P sched K P.guids.length P.guids.length 0 st0 = some st
      ∧ st.output_file = st0.output_file
          ++ (List.range P.guids.length).map (result_blob P st0.tds)
      ∧ (st.output_file.length = st0.output_file.length + P.guids.length)
      ∧ (∀ idx, idx < P.guids.length →
          (worker_input P st0.tds idx).guid = P.guids.getD idx 0
          ∧ (worker_output P st0.tds idx).guid = P.guids.getD idx 0) := by
  have hceil : ∀ v : Nat, v * K < P.guids.length ↔ v < (P.guids.length + K - 1) / K := by
    intro v
    rw [Nat.lt_iff_add_one_le (m := v), Nat.le_div_iff_mul_le (by omega), Nat.add_mul]
    omega
  have hfuel : (P.guids.length + K - 1) / K ≤ 0 + P.guids.length := by
    rw [Nat.zero_add]
    by_contra hc
    push_neg at hc
    have h1 := (hceil P.guids.length).2 hc
    have h2 : P.guids.length * 1 ≤ P.guids.length * K := Nat.mul_le_mul_left _ hK
    omega
  obtain ⟨st, h1, h2⟩ := batch_loop_output P sched st0.tds K P.guids.length hK hKmax hN hok
    P.guids.length 0 st0 hfuel ⟨htds, hthr, hrun, fun _ _ => rfl⟩
  have h3 : st.output_file = st0.output_file
      ++ (List.range P.guids.length).map (result_blob P st0.tds) := by
    rw [h2, Nat.zero_mul, Nat.sub_zero, List.range_eq_range']
  refine ⟨st, by simpa using h1, h3, by rw [h3]; simp, ?_⟩
  intro idx _
  refine ⟨rfl, ?_⟩
  unfold worker_output
  rcases run_cases P.mad (P.envs idx) (worker_input P st0.tds idx) with
    ⟨what, t, tr, _, _, e, _, _⟩ | ⟨start, tr, e, _⟩
  · rw [e]; rfl
  · rw [e]; rfl

/-- Witness of C2: the GUID list `[0x1, 0x2, 0x3]` with `K = 2`; the second
worker of the first wave terminates before the first. -/
theorem output_in_guid_order_witness :
    (1 ≤ 2) ∧ params3.guids.length ≤ 1000 ∧ (∀ idx, params3.create_ok idx = true)
    ∧ ∃ st, batch_loop params3 (fun _ => [1, 0]) 2 3 3 0 (main_state0 3 2) = some st
        ∧ st.output_file
            = [result_blob params3 (main_state0 3 2).tds 0,
               result_blob params3 (main_state0 3 2).tds 1,
               result_blob params3 (main_state0 3 2).tds 2] := by
  obtain ⟨st, h1, h2, _⟩ := output_in_guid_order params3 (fun _ => [1, 0]) (main_state0 3 2) 2
    (by decide) (by decide) (by decide) (fun _ => rfl) rfl rfl rfl
  exact ⟨by decide, by decide, fun _ => rfl, st, h1, h2⟩

/-! ## Order of the samples -/

/-- The three narrow accumulators and the 32-bit one as a minimum. -/
theorem aggregate_narrow_min (d v : Nat) (hd : d < 2 ^ 32) (hv : v < 2 ^ 32) :
    aggregate_4bit d v = min (d + v) 15 ∧ aggregate_8bit d v = min (d + v) 255
    ∧ aggregate_16bit d v = min (d + v) 65535
    ∧ aggregate_32bit d v = min (d + v) 4294967295 := by
  unfold aggregate_4bit aggregate_8bit aggregate_16bit aggregate_32bit UINT32_MOD
  simp only []
  refine ⟨?_, ?_, ?_, ?_⟩ <;> split_ifs <;> omega

/-- The 64-bit accumulator as a minimum. -/
theorem aggregate_wide_min (d v : Nat) (hd : d < 2 ^ 64) (hv : v < 2 ^ 64) :
    aggregate_64bit d v = min (d + v) 18446744073709551615 := by
  unfold aggregate_64bit UINT64_MOD
  simp only []
  split_ifs <;> omega

/-- A minimum with a bound below `2 ^ 32` is below `2 ^ 32`. -/
theorem min_lt_of_bound (x k n : Nat) (hk : k < n) : min x k < n :=
  lt_of_le_of_lt (Nat.min_le_right x k) hk

theorem aggregate_4bit_swap (d a b : Nat) (hd : d < 2 ^ 32) (ha : a < 2 ^ 32)
    (hb : b < 2 ^ 32) :
    aggregate_4bit (aggregate_4bit d a) b = aggregate_4bit (aggregate_4bit d b) a := by
  rw [(aggregate_narrow_min d a hd ha).1, (aggregate_narrow_min d b hd hb).1,
    (aggregate_narrow_min _ b (min_lt_of_bound _ 15 _ (by norm_num)) hb).1,
    (aggregate_narrow_min _ a (min_lt_of_bound _ 15 _ (by norm_num)) ha).1]
  omega

theorem aggregate_8bit_swap (d a b : Nat) (hd : d < 2 ^ 32) (ha : a < 2 ^ 32)
    (hb : b < 2 ^ 32) :
    aggregate_8bit (aggregate_8bit d a) b = aggregate_8bit (aggregate_8bit d b) a := by
  rw [(aggregate_narrow_min d a hd ha).2.1, (aggregate_narrow_min d b hd hb).2.1,
    (aggregate_narrow_min _ b (min_lt_of_bound _ 255 _ (by norm_num)) hb).2.1,
    (aggregate_narrow_min _ a (min_lt_of_bound _ 255 _ (by norm_num)) ha).2.1]
  omega

theorem aggregate_16bit_swap (d a b : Nat) (hd : d < 2 ^ 32) (ha : a < 2 ^ 32)
    (hb : b < 2 ^ 32) :
    aggregate_16bit (aggregate_16bit d a) b = aggregate_16bit (aggregate_16bit d b) a := by
  rw [(aggregate_narrow_min d a hd ha).2.2.1, (aggregate_narrow_min d b hd hb).2.2.1,
    (aggregate_narrow_min _ b (min_lt_of_bound _ 65535 _ (by norm_num)) hb).2.2.1,
    (aggregate_narrow_min _ a (min_lt_of_bound _ 65535 _ (by norm_num)) ha).2.2.1]
  omega

theorem aggregate_32bit_swap (d a b : Nat) (hd : d < 2 ^ 32) (ha : a < 2 ^ 32)
    (hb : b < 2 ^ 32) :
    aggregate_32bit (aggregate_32bit d a) b = aggregate_32bit (aggregate_32bit d b) a := by
  rw [(aggregate_narrow_min d a hd ha).2.2.2, (aggregate_narrow_min d b hd hb).2.2.2,
    (aggregate_narrow_min _ b (min_lt_of_bound _ 4294967295 _ (by norm_num)) hb).2.2.2,
    (aggregate_narrow_min _ a (min_lt_of_bound _ 4294967295 _ (by norm_num)) ha).2.2.2]
  omega

theorem aggregate_64bit_swap (d a b : Nat) (hd : d < 2 ^ 64) (ha : a < 2 ^ 64)
    (hb : b < 2 ^ 64) :
    aggregate_64bit (aggregate_64bit d a) b = aggregate_64bit (aggregate_64bit d b) a := by
  rw [aggregate_wide_min d a hd ha, aggregate_wide_min d b hd hb,
    aggregate_wide_min _ b (min_lt_of_bound _ 18446744073709551615 _ (by norm_num)) hb,
    aggregate_wide_min _ a (min_lt_of_bound _ 18446744073709551615 _ (by norm_num)) ha]
  omega

/-- A saturated destination stays saturated. -/
theorem aggregate_sticky (a : Nat) (ha : a < 2 ^ 32) (a64 : Nat) (ha64 : a64 < 2 ^ 64) :
    aggregate_4bit 15 a = 15 ∧ aggregate_8bit 255 a = 255
    ∧ aggregate_16bit 65535 a = 65535 ∧ aggregate_32bit 4294967295 a = 4294967295
    ∧ aggregate_64bit 18446744073709551615 a64 = 18446744073709551615 := by
  refine ⟨?_, ?_, ?_, ?_, ?_⟩
  · rw [(aggregate_narrow_min 15 a (by norm_num) ha).1]; omega
  · rw [(aggregate_narrow_min 255 a (by norm_num) ha).2.1]; omega
  · rw [(aggregate_narrow_min 65535 a (by norm_num) ha).2.2.1]; omega
  · rw [(aggregate_narrow_min 4294967295 a (by norm_num) ha).2.2.2]; omega
  · rw [aggregate_wide_min 18446744073709551615 a64 (by norm_num) ha64]; omega

/-- C15: for every width 4, 8, 16, 32 (operands in `uint32_t`) and 64 (operands
in `uint64_t`), accumulating `a` then `b` leaves the same destination as
accumulating `b` then `a`, and a destination equal to `2 ^ w - 1` stays
`2 ^ w - 1` under every further increment. -/
theorem aggregate_order_independent (d a b : Nat) (hd : d < 2 ^ 32) (ha : a < 2 ^ 32)
    (hb : b < 2 ^ 32) (d64 a64 b64 : Nat) (hd64 : d64 < 2 ^ 64) (ha64 : a64 < 2 ^ 64)
    (hb64 : b64 < 2 ^ 64) :
    (aggregate_4bit (aggregate_4bit d a) b = aggregate_4bit (aggregate_4bit d b) a
      ∧ aggregate_8bit (aggregate_8bit d a) b = aggregate_8bit (aggregate_8bit d b) a
      ∧ aggregate_16bit (aggregate_16bit d a) b = aggregate_16bit (aggregate_16bit d b) a
      ∧ aggregate_32bit (aggregate_32bit d a) b = aggregate_32bit (aggregate_32bit d b) a
      ∧ aggregate_64bit (aggregate_64bit d64 a64) b64
          = aggregate_64bit (aggregate_64bit d64 b64) a64)
    ∧ (aggregate_4bit (2 ^ 4 - 1) a = 2 ^ 4 - 1
      ∧ aggregate_8bit (2 ^ 8 - 1) a = 2 ^ 8 - 1
      ∧ aggregate_16bit (2 ^ 16 - 1) a = 2 ^ 16 - 1
      ∧ aggregate_32bit (2 ^ 32 - 1) a = 2 ^ 32 - 1
      ∧ aggregate_64bit (2 ^ 64 - 1) a64 = 2 ^ 64 - 1) := by
  have e4 : (2 ^ 4 - 1 : Nat) = 15 := by norm_num
  have e8 : (2 ^ 8 - 1 : Nat) = 255 := by norm_num
  have e16 : (2 ^ 16 - 1 : Nat) = 65535 := by norm_num
  have e32 : (2 ^ 32 - 1 : Nat) = 4294967295 := by norm_num
  have e64 : (2 ^ 64 - 1 : Nat) = 18446744073709551615 := by norm_num
  rw [e4, e8, e16, e32, e64]
  exact ⟨⟨aggregate_4bit_swap d a b hd ha hb, aggregate_8bit_swap d a b hd ha hb,
    aggregate_16bit_swap d a b hd ha hb, aggregate_32bit_swap d a b hd ha hb,
    aggregate_64bit_swap d64 a64 b64 hd64 ha64 hb64⟩, aggregate_sticky a ha a64 ha64⟩

/-- Witness of C15: a destination near the top of each range, so that one order
saturates in the first step and the other in the second. -/
theorem aggregate_order_independent_witness :
    aggregate_4bit (aggregate_4bit 14 5) 0 = aggregate_4bit (aggregate_4bit 14 0) 5
    ∧ aggregate_32bit (aggregate_32bit 4294967290 4294967295) 1
        = aggregate_32bit (aggregate_32bit 4294967290 1) 4294967295
    ∧ aggregate_64bit (aggregate_64bit 18446744073709551610 18446744073709551615) 1
        = aggregate_64bit (aggregate_64bit 18446744073709551610 1) 18446744073709551615 := by
  have h := (aggregate_order_independent 14 5 0 (by decide) (by decide) (by decide)
    18446744073709551610 18446744073709551615 1 (by decide) (by decide) (by decide)).1
  have g := (aggregate_order_independent 4294967290 4294967295 1 (by decide) (by decide)
    (by decide) 0 0 0 (by decide) (by decide) (by decide)).1
  exact ⟨h.1, g.2.2.2.1, h.2.2.2.2⟩

/-! ## The snapshots of a thread -/

/-- A member with a width in the table is clamped at that width. -/
theorem clamp_width_clamps (s : perf_slot) (w : Nat) (h : clamp_width s = some w) :
    clamped_at s w := by
  intro pc acc hpc hacc
  cases s <;> simp only [clamp_width, Option.some.injEq] at h <;>
    first
    | exact absurd h (by simp)
    | (subst h
       simp only [perf_count_t.get, aggregate_perfcounters, perf_slot.wire]
       first
       | exact (aggregate_narrow_min _ _ (hacc perf_slot.linkintegrityerrors) (hpc _)).1
       | exact (aggregate_narrow_min _ _ (hacc perf_slot.excbufoverrunerrors) (hpc _)).1
       | exact (aggregate_narrow_min _ _ (hacc perf_slot.linkrecovers) (hpc _)).2.1
       | exact (aggregate_narrow_min _ _ (hacc perf_slot.linkdowned) (hpc _)).2.1
       | exact (aggregate_narrow_min _ _ (hacc perf_slot.xmtconstrainterrors) (hpc _)).2.1
       | exact (aggregate_narrow_min _ _ (hacc perf_slot.rcvconstrainterrors) (hpc _)).2.1
       | exact (aggregate_narrow_min _ _ (hacc perf_slot.symbolerrors) (hpc _)).2.2.1
       | exact (aggregate_narrow_min _ _ (hacc perf_slot.rcverrors) (hpc _)).2.2.1
       | exact (aggregate_narrow_min _ _ (hacc perf_slot.rcvremotephyerrors) (hpc _)).2.2.1
       | exact (aggregate_narrow_min _ _ (hacc perf_slot.rcvswrelayerrors) (hpc _)).2.2.1
       | exact (aggregate_narrow_min _ _ (hacc perf_slot.xmtdiscards) (hpc _)).2.2.1
       | exact (aggregate_narrow_min _ _ (hacc perf_slot.qp1dropped) (hpc _)).2.2.1
       | exact (aggregate_narrow_min _ _ (hacc perf_slot.vl15dropped) (hpc _)).2.2.1
       | exact (aggregate_narrow_min _ _ (hacc perf_slot.xmtdata) (hpc _)).2.2.2
       | exact (aggregate_narrow_min _ _ (hacc perf_slot.rcvdata) (hpc _)).2.2.2
       | exact (aggregate_narrow_min _ _ (hacc perf_slot.xmtpkts) (hpc _)).2.2.2
       | exact (aggregate_narrow_min _ _ (hacc perf_slot.rcvpkts) (hpc _)).2.2.2
       | exact (aggregate_narrow_min _ _ (hacc perf_slot.xmtwait) (hpc _)).2.2.2)

/-- A member without a width in the table is copied raw. -/
theorem clamp_width_raw (s : perf_slot) (h : clamp_width s = none) : copied_raw s := by
  intro pc acc
  cases s <;> first | rfl | exact absurd h (by simp [clamp_width])

theorem perf_const_get (v : Nat) (t : perf_slot) : (perf_const v).get t = v := by
  cases t <;> rfl

/-- A member clamped at 4, 8, 16 or 32 bits has that width in the table: the
record with `2 ^ 31` in every field and the accumulator with 1 in every member
tell the widths and the raw copy apart. -/
theorem clamped_width_unique (s : perf_slot) (w : Nat)
    (hw : w = 4 ∨ w = 8 ∨ w = 16 ∨ w = 32) (h : clamped_at s w) :
    clamp_width s = some w := by
  have h1 := h (fun _ => 2147483648) (perf_const 1) (fun _ => by norm_num)
    (fun t => by rw [perf_const_get]; norm_num)
  rcases hw with rfl | rfl | rfl | rfl <;> cases s <;>
    first | rfl | exact absurd h1 (by decide)

theorem raw_unique (s : perf_slot) (h : copied_raw s) : clamp_width s = none := by
  have h1 := h (fun _ => 2147483648) (perf_const 1)
  cases s <;> first | rfl | exact absurd h1 (by decide)

/-- The members of each width in the table. -/
theorem clamp_width_lists (s : perf_slot) :
    (clamp_width s = none ↔ s ∈ [perf_slot.portselect, perf_slot.counterselect])
    ∧ (clamp_width s = some 4 ↔
        s ∈ [perf_slot.linkintegrityerrors, perf_slot.excbufoverrunerrors])
    ∧ (clamp_width s = some 8 ↔
        s ∈ [perf_slot.linkrecovers, perf_slot.linkdowned, perf_slot.xmtconstrainterrors,
          perf_slot.rcvconstrainterrors])
    ∧ (clamp_width s = some 16 ↔
        s ∈ [perf_slot.symbolerrors, perf_slot.rcverrors, perf_slot.rcvremotephyerrors,
          perf_slot.rcvswrelayerrors, perf_slot.xmtdiscards, perf_slot.qp1dropped,
          perf_slot.vl15dropped])
    ∧ (clamp_width s = some 32 ↔
        s ∈ [perf_slot.xmtdata, perf_slot.rcvdata, perf_slot.xmtpkts, perf_slot.rcvpkts,
          perf_slot.xmtwait]) := by
  cases s <;> simp [clamp_width]

/-- C13 as stated fails. With `0xFFFFFFFF` in every member of the accumulator and
1 in every field of the record, every counter ends at the ceiling of its width:
two members end at 15 (not four), four at 255 (not two), seven at 65535 (not
six) and five at `0xFFFFFFFF` (not three); the two select members are 1. There
are no four different members that are clamped at 4 bits. -/
theorem legacy_widths_differ :
    aggregate_perfcounters (fun _ => 1) (perf_const 4294967295)
      = { portselect := 1, counterselect := 1, symbolerrors := 65535, linkrecovers := 255,
          linkdowned := 255, rcverrors := 65535, rcvremotephyerrors := 65535,
          rcvswrelayerrors := 65535, xmtdiscards := 65535, xmtconstrainterrors := 255,
          rcvconstrainterrors := 255, linkintegrityerrors := 15, excbufoverrunerrors := 15,
          qp1dropped := 65535, vl15dropped := 65535, xmtdata := 4294967295,
          rcvdata := 4294967295, xmtpkts := 4294967295, rcvpkts := 4294967295,
          xmtwait := 4294967295 }
    ∧ (perf_slot.all.filter (fun s =>
        (aggregate_perfcounters (fun _ => 1) (perf_const 4294967295)).get s = 15)).length = 2
    ∧ (perf_slot.all.filter (fun s =>
        (aggregate_perfcounters (fun _ => 1) (perf_const 4294967295)).get s = 255)).length = 4
    ∧ (perf_slot.all.filter (fun s =>
        (aggregate_perfcounters (fun _ => 1) (perf_const 4294967295)).get s = 65535)).length
        = 7
    ∧ (perf_slot.all.filter (fun s =>
        (aggregate_perfcounters (fun _ => 1) (perf_const 4294967295)).get s
          = 4294967295)).length = 5
    ∧ ¬ ∃ l : List perf_slot, l.Nodup ∧ l.length = 4 ∧ ∀ s ∈ l, clamped_at s 4 := by
  refine ⟨by decide, by decide, by decide, by decide, by decide, ?_⟩
  rintro ⟨l, hnd, hlen, hall⟩
  have hsub : l ⊆ [perf_slot.linkintegrityerrors, perf_slot.excbufoverrunerrors] := by
    intro s hs
    exact (clamp_width_lists s).2.1.1
      (clamped_width_unique s 4 (Or.inl rfl) (hall s hs))
  have := (List.Nodup.subperm hnd hsub).length_le
  simp only [List.length_cons, List.length_nil] at this
  omega

/-- C13 (amended): `aggregate_perfcounters` copies `portselect` and
`counterselect` raw from the record and accumulates the other eighteen members
with a clamp: exactly two at 4 bits, four at 8 bits, seven at 16 bits and five
at 32 bits. -/
theorem legacy_clamp_widths (s : perf_slot) :
    (copied_raw s ↔ s ∈ [perf_slot.portselect, perf_slot.counterselect])
    ∧ (clamped_at s 4 ↔ s ∈ [perf_slot.linkintegrityerrors, perf_slot.excbufoverrunerrors])
    ∧ (clamped_at s 8 ↔
        s ∈ [perf_slot.linkrecovers, perf_slot.linkdowned, perf_slot.xmtconstrainterrors,
          perf_slot.rcvconstrainterrors])
    ∧ (clamped_at s 16 ↔
        s ∈ [perf_slot.symbolerrors, perf_slot.rcverrors, perf_slot.rcvremotephyerrors,
          perf_slot.rcvswrelayerrors, perf_slot.xmtdiscards, perf_slot.qp1dropped,
          perf_slot.vl15dropped])
    ∧ (clamped_at s 32 ↔
        s ∈ [perf_slot.xmtdata, perf_slot.rcvdata, perf_slot.xmtpkts, perf_slot.rcvpkts,
          perf_slot.xmtwait])
    ∧ (perf_slot.all.filter (fun t => clamp_width t = none)).length = 2
    ∧ (perf_slot.all.filter (fun t => clamp_width t = some 4)).length = 2
    ∧ (perf_slot.all.filter (fun t => clamp_width t = some 8)).length = 4
    ∧ (perf_slot.all.filter (fun t => clamp_width t = some 16)).length = 7
    ∧ (perf_slot.all.filter (fun t => clamp_width t = some 32)).length = 5
    ∧ perf_slot.all.length = 20 := by
  obtain ⟨l0, l4, l8, l16, l32⟩ := clamp_width_lists s
  refine ⟨?_, ?_, ?_, ?_, ?_, by decide, by decide, by decide, by decide, by decide,
    by decide⟩
  · exact ⟨fun h => l0.1 (raw_unique s h), fun h => clamp_width_raw s (l0.2 h)⟩
  · exact ⟨fun h => l4.1 (clamped_width_unique s 4 (by simp) h),
      fun h => clamp_width_clamps s 4 (l4.2 h)⟩
  · exact ⟨fun h => l8.1 (clamped_width_unique s 8 (by simp) h),
      fun h => clamp_width_clamps s 8 (l8.2 h)⟩
  · exact ⟨fun h => l16.1 (clamped_width_unique s 16 (by simp) h),
      fun h => clamp_width_clamps s 16 (l16.2 h)⟩
  · exact ⟨fun h => l32.1 (clamped_width_unique s 32 (by simp) h),
      fun h => clamp_width_clamps s 32 (l32.2 h)⟩

/-- C14: for every extended record and accumulator (values in `uint64_t`)
`aggregate_perfcounters_ext` leaves the four unicast and multicast members
unchanged when `cap_mask & IB_PM_EXT_WIDTH_SUPPORTED` is 0, leaves
`counterSelect2` and the fourteen error and drop members unchanged when
`cap_mask2 & IB_PM_IS_ADDL_PORT_CTRS_EXT_SUP` is 0, and whatever the masks are
copies the two select members and accumulates the four base counters,
saturating at `2 ^ 64 - 1`. -/
theorem ext_aggregation_frame (M : Mad) (cap_mask cap_mask2 : Nat)
    (pc : pc_ext_field → Nat) (acc : perf_count_ext_t)
    (hpc : ∀ f, pc f < 2 ^ 64)
    (hacc : acc.portxmitdata < 2 ^ 64 ∧ acc.portrcvdata < 2 ^ 64
      ∧ acc.portxmitpkts < 2 ^ 64 ∧ acc.portrcvpkts < 2 ^ 64) :
    (cap_mask &&& M.IB_PM_EXT_WIDTH_SUPPORTED = 0 →
      (aggregate_perfcounters_ext M cap_mask cap_mask2 pc acc).portunicastxmitpkts
        = acc.portunicastxmitpkts
      ∧ (aggregate_perfcounters_ext M cap_mask cap_mask2 pc acc).portunicastrcvpkts
        = acc.portunicastrcvpkts
      ∧ (aggregate_perfcounters_ext M cap_mask cap_mask2 pc acc).portmulticastxmitpkits
        = acc.portmulticastxmitpkits
      ∧ (aggregate_perfcounters_ext M cap_mask cap_mask2 pc acc).portmulticastrcvpkts
        = acc.portmulticastrcvpkts)
    ∧ (cap_mask2 &&& M.IB_PM_IS_ADDL_PORT_CTRS_EXT_SUP = 0 →
      (aggregate_perfcounters_ext M cap_mask cap_mask2 pc acc).counterSelect2
        = acc.counterSelect2
      ∧ (aggregate_perfcounters_ext M cap_mask cap_mask2 pc acc).symbolErrorCounter
        = acc.symbolErrorCounter
      ∧ (aggregate_perfcounters_ext M cap_mask cap_mask2 pc acc).linkErrorRecoveryCounter
        = acc.linkErrorRecoveryCounter
      ∧ (aggregate_perfcounters_ext M cap_mask cap_mask2 pc acc).linkDownedCounter
        = acc.linkDownedCounter
      ∧ (aggregate_perfcounters_ext M cap_mask cap_mask2 pc acc).portRcvErrors
        = acc.portRcvErrors
      ∧ (aggregate_perfcounters_ext M cap_mask cap_mask2 pc acc).portRcvRemotePhysicalErrors
        = acc.portRcvRemotePhysicalErrors
      ∧ (aggregate_perfcounters_ext M cap_mask cap_mask2 pc acc).portRcvSwitchRelayErrors
        = acc.portRcvSwitchRelayErrors
      ∧ (aggregate_perfcounters_ext M cap_mask cap_mask2 pc acc).portXmitDiscards
        = acc.portXmitDiscards
      ∧ (aggregate_perfcounters_ext M cap_mask cap_mask2 pc acc).portXmitConstraintErrors
        = acc.portXmitConstraintErrors
      ∧ (aggregate_perfcounters_ext M cap_mask cap_mask2 pc acc).portRcvConstraintErrors
        = acc.portRcvConstraintErrors
      ∧ (aggregate_perfcounters_ext M cap_mask cap_mask2 pc acc).localLinkIntegrityErrors
        = acc.localLinkIntegrityErrors
      ∧ (aggregate_perfcounters_ext M cap_mask cap_mask2 pc acc).excessiveBufferOverrunErrors
        = acc.excessiveBufferOverrunErrors
      ∧ (aggregate_perfcounters_ext M cap_mask cap_mask2 pc acc).VL15Dropped
        = acc.VL15Dropped
      ∧ (aggregate_perfcounters_ext M cap_mask cap_mask2 pc acc).portXmitWait
        = acc.portXmitWait
      ∧ (aggregate_perfcounters_ext M cap_mask cap_mask2 pc acc).QP1Dropped
        = acc.QP1Dropped)
    ∧ ((aggregate_perfcounters_ext M cap_mask cap_mask2 pc acc).portxmitdata
        = min (acc.portxmitdata + pc .IB_PC_EXT_XMT_BYTES_F) (2 ^ 64 - 1)
      ∧ (aggregate_perfcounters_ext M cap_mask cap_mask2 pc acc).portrcvdata
        = min (acc.portrcvdata + pc .IB_PC_EXT_RCV_BYTES_F) (2 ^ 64 - 1)
      ∧ (aggregate_perfcounters_ext M cap_mask cap_mask2 pc acc).portxmitpkts
        = min (acc.portxmitpkts + pc .IB_PC_EXT_XMT_PKTS_F) (2 ^ 64 - 1)
      ∧ (aggregate_perfcounters_ext M cap_mask cap_mask2 pc acc).portrcvpkts
        = min (acc.portrcvpkts + pc .IB_PC_EXT_RCV_PKTS_F) (2 ^ 64 - 1)
      ∧ (aggregate_perfcounters_ext M cap_mask cap_mask2 pc acc).portselect
        = pc .IB_PC_EXT_PORT_SELECT_F
      ∧ (aggregate_perfcounters_ext M cap_mask cap_mask2 pc acc).counterselect
        = pc .IB_PC_EXT_COUNTER_SELECT_F) := by
  have e64 : (2 ^ 64 - 1 : Nat) = 18446744073709551615 := by norm_num
  rw [e64]
  have b1 := aggregate_wide_min acc.portxmitdata (pc .IB_PC_EXT_XMT_BYTES_F) hacc.1 (hpc _)
  have b2 := aggregate_wide_min acc.portrcvdata (pc .IB_PC_EXT_RCV_BYTES_F) hacc.2.1 (hpc _)
  have b3 := aggregate_wide_min acc.portxmitpkts (pc .IB_PC_EXT_XMT_PKTS_F) hacc.2.2.1 (hpc _)
  have b4 := aggregate_wide_min acc.portrcvpkts (pc .IB_PC_EXT_RCV_PKTS_F) hacc.2.2.2 (hpc _)
  unfold aggregate_perfcounters_ext
  dsimp only
  refine ⟨?_, ?_, ?_⟩
  · intro h
    have hn : ¬ (cap_mask &&& M.IB_PM_EXT_WIDTH_SUPPORTED ≠ 0) := by simp [h]
    simp only [if_neg hn]
    split_ifs <;> exact ⟨rfl, rfl, rfl, rfl⟩
  · intro h
    have hn : ¬ (cap_mask2 &&& M.IB_PM_IS_ADDL_PORT_CTRS_EXT_SUP ≠ 0) := by simp [h]
    simp only [if_neg hn]
    split_ifs <;> exact ⟨rfl, rfl, rfl, rfl, rfl, rfl, rfl, rfl, rfl, rfl, rfl, rfl, rfl, rfl, rfl⟩
  · split_ifs <;> exact ⟨b1, b2, b3, b4, rfl, rfl⟩

/-- Witness of C14: both capability bits clear, a record with 7 in every field
and base counters near the top of their range. -/
theorem ext_aggregation_frame_witness :
    (∀ f : pc_ext_field, (fun _ => 7) f < 2 ^ 64)
    ∧ (0 : Nat) &&& mad0.IB_PM_EXT_WIDTH_SUPPORTED = 0
    ∧ (aggregate_perfcounters_ext mad0 0 0 (fun _ => 7)
        (perf_ext_const 18446744073709551610)).portunicastxmitpkts = 18446744073709551610
    ∧ (aggregate_perfcounters_ext mad0 0 0 (fun _ => 7)
        (perf_ext_const 18446744073709551610)).portxmitdata
        = min (18446744073709551610 + 7) (2 ^ 64 - 1) :=
  have h := ext_aggregation_frame mad0 0 0 (fun _ => 7) (perf_ext_const 18446744073709551610)
    (fun _ => by norm_num) ⟨by decide, by decide, by decide, by decide⟩
  ⟨fun _ => by norm_num, by decide, (h.1 (by decide)).1, h.2.2.1⟩

/-! ## Workers joined by the scheduler -/


/-- C12 fails on the code. Wave of two GUIDs with `K = 2` where `pthread_create`
fails for slot 0 and succeeds for slot 1: `active` is 1, so the join loop joins
slot 0, whose worker was never started, and never joins slot 1, the only
started one. When worker 1 has not terminated on its own, it is still running
at the flush, nothing is written for it and the batch loop ends with an empty
output; when it happens to terminate earlier, its result is written. -/
theorem join_misses_started_slot :
    started_slots params_first_start_fails 0 (batch_size 0 2 2) = [1]
    ∧ joined_slots params_first_start_fails 0 (batch_size 0 2 2) (main_state0 2 2) = [0]
    ∧ (wave params_first_start_fails [] 2 2 0 (main_state0 2 2)).running = [1]
    ∧ (wave params_first_start_fails [] 2 2 0 (main_state0 2 2)).output_file = []
    ∧ (batch_loop params_first_start_fails (fun _ => []) 2 2 2 0 (main_state0 2 2)).map
        (fun st => st.output_file) = some []
    ∧ (wave params_first_start_fails [1] 2 2 0 (main_state0 2 2)).output_file
        = [result_blob params_first_start_fails (main_state0 2 2).tds 1] := by
  decide!

/-! ## Legacy mode with a failed port -/


/-- One pass through the body of the port loop in legacy mode, for a port whose
query is not yet in the trace. -/
theorem port_body_legacy (M : Mad) (env : Env) (td : thread_data_t) (cm cm2 i : Nat)
    (H : List Char) (st : LoopState) (hx : td.extended ≠ 1) (hinv : LoopInv H st)
    (hb : st.broke = false) (hfresh : Call.port_counters i ∉ st.trace) :
    ∃ a, 1 ≤ a ∧ a ≤ 3
      ∧ (port_body M env td cm cm2 i st).2.trace
          = st.trace ++ List.replicate a (Call.port_counters i)
      ∧ (call_succeeded env (port_body M env td cm cm2 i st).2.trace (Call.port_counters i)
          = false → a = 3)
      ∧ ((port_body M env td cm cm2 i st).2.broke = false →
          cstr (port_body M env td cm cm2 i st).2.buf
            = cstr st.buf ++ legacy_block M env cm (port_body M env td cm cm2 i st).2.trace i) := by
  obtain ⟨a, a1, a3, etr, esucc, efail⟩ := with_retry_fresh env (Call.port_counters i) st.trace hfresh
  have hinv1 : ∀ tr, LoopInv H { st with visited := st.visited ++ [i], trace := tr } := by
    intro tr; exact hinv
  unfold port_body
  dsimp only
  rw [if_pos hx]
  by_cases hok : (with_retry env.rpc_ok (Call.port_counters i) st.trace).2.1 = false
  · rw [if_pos hok]
    dsimp only
    refine ⟨a, a1, a3, etr, fun _ => efail hok, fun _ => ?_⟩
    unfold legacy_block
    rw [etr, esucc, hok, if_neg (by simp), List.append_nil]
  · rw [if_neg hok]
    have htrue : (with_retry env.rpc_ok (Call.port_counters i) st.trace).2.1 = true := by
      simpa using hok
    obtain ⟨_, _, etr2, _⟩ := emit_spec M env cm i
      (cstr (env.mad_dump_perfcounters i (decide (cm &&& M.IB_PM_PC_XMIT_WAIT_SUP = 0)))) H
      { st with visited := st.visited ++ [i],
                trace := (with_retry env.rpc_ok (Call.port_counters i) st.trace).2.2 }
      (hinv1 _) hb
    have etr3 := etr2.trans etr
    refine ⟨a, a1, a3, etr3, ?_, ?_⟩
    · intro h
      rw [etr3, esucc, htrue] at h
      exact absurd h (by simp)
    · intro hnb
      rw [emit_text M env cm i _ H _ (hinv1 _) hb hnb, etr3]
      unfold legacy_block legacy_dump
      rw [esucc, htrue]
      simp only [true_and]

/-- Port-counter calls of different ports are different calls. -/
theorem port_call_ne {i j : Nat} (h : i ≠ j) : Call.port_counters j ≠ Call.port_counters i := by
  intro e
  injection e with e
  exact h e.symm

/-- The port loop in legacy mode, when it is not left through `break`: every
port from `i` on is queried, a port whose query failed has three calls in the
trace, and the string in the buffer grows by the blocks of the ports whose
query succeeded with a dump that is not empty, in ascending order. -/
theorem legacy_loop_text (M : Mad) (env : Env) (td : thread_data_t) (cm cm2 P : Nat)
    (H : List Char) (hx : td.extended ≠ 1) :
    ∀ (fuel i : Nat) (st : LoopState), LoopInv H st → st.broke = false →
      (∀ j, i ≤ j → Call.port_counters j ∉ st.trace) →
      (port_loop M env td cm cm2 P fuel i st).broke = false →
      (∃ ext, (port_loop M env td cm cm2 P fuel i st).trace = st.trace ++ ext
        ∧ ∀ x ∈ ext, ∃ j, i ≤ j ∧ x = Call.port_counters j)
      ∧ (∀ j, i ≤ j → j < i + min fuel (P + 1 - i) →
          Call.port_counters j ∈ (port_loop M env td cm cm2 P fuel i st).trace
          ∧ (call_succeeded env (port_loop M env td cm cm2 P fuel i st).trace
                (Call.port_counters j) = false →
              (port_loop M env td cm cm2 P fuel i st).trace.count (Call.port_counters j)
                = 3))
      ∧ cstr (port_loop M env td cm cm2 P fuel i st).buf
          = cstr st.buf ++ (List.range' i (min fuel (P + 1 - i))).flatMap
              (legacy_block M env cm (port_loop M env td cm cm2 P fuel i st).trace) := by
  intro fuel
  induction fuel with
  | zero =>
    intro i st _ _ _ _
    simp only [port_loop]
    refine ⟨⟨[], by simp, fun x hx => absurd hx (by simp)⟩, fun j h1 h2 => by omega, ?_⟩
    simp
  | succ fuel ih =>
    intro i st hinv hb hfresh hnb
    simp only [port_loop] at hnb ⊢
    by_cases hle : i ≤ P
    · rw [if_pos hle] at hnb ⊢
      obtain ⟨binv, bbrk, _, _⟩ := port_body_spec M env td cm cm2 i H st hinv hb
      obtain ⟨a, a1, a3, etr, efail, etext⟩ := port_body_legacy M env td cm cm2 i H st hx hinv hb
        (hfresh i (le_refl _))
      by_cases hbr : (port_body M env td cm cm2 i st).1 = true
      · rw [if_pos hbr] at hnb
        rw [bbrk] at hbr
        rw [hbr] at hnb
        exact absurd hnb (by simp)
      · rw [if_neg hbr] at hnb ⊢
        have hb1 : (port_body M env td cm cm2 i st).2.broke = false := by
          rw [← bbrk]; simpa using hbr
        have hfresh1 : ∀ j, i + 1 ≤ j →
            Call.port_counters j ∉ (port_body M env td cm cm2 i st).2.trace := by
          intro j hj hm
          rw [etr] at hm
          rcases List.mem_append.1 hm with h | h
          · exact hfresh j (by omega) h
          · exact port_call_ne (show i ≠ j by omega) (List.eq_of_mem_replicate h)
        obtain ⟨⟨ext, e1, e2⟩, q, t⟩ := ih (i + 1) _ binv hb1 hfresh1 hnb
        generalize port_loop M env td cm cm2 P fuel (i + 1) (port_body M env td cm cm2 i st).2
          = fin at e1 q t hnb ⊢
        have hnotin : Call.port_counters i ∉ ext := by
          intro hm
          obtain ⟨j, hj, e⟩ := e2 _ hm
          exact port_call_ne (show i ≠ j by omega) e.symm
        have hsame : call_succeeded env fin.trace (Call.port_counters i)
            = call_succeeded env (port_body M env td cm cm2 i st).2.trace
                (Call.port_counters i) := by
          rw [e1]; exact call_succeeded_append env _ ext _ hnotin
        have hblock : legacy_block M env cm fin.trace i
            = legacy_block M env cm (port_body M env td cm cm2 i st).2.trace i := by
          unfold legacy_block; rw [hsame]
        have hn : min (fuel + 1) (P + 1 - i) = min fuel (P + 1 - (i + 1)) + 1 := by omega
        refine ⟨⟨List.replicate a (Call.port_counters i) ++ ext, ?_, ?_⟩, ?_, ?_⟩
        · rw [e1, etr, List.append_assoc]
        · intro x hx
          rcases List.mem_append.1 hx with h | h
          · exact ⟨i, le_refl _, List.eq_of_mem_replicate h⟩
          · obtain ⟨j, hj, e⟩ := e2 x h
            exact ⟨j, by omega, e⟩
        · intro j h1 h2
          by_cases hji : j = i
          · subst hji
            constructor
            · rw [e1, etr]
              apply List.mem_append_left
              apply List.mem_append_right
              exact List.mem_replicate.2 ⟨by omega, rfl⟩
            · intro hf
              rw [hsame] at hf
              have ha := efail hf
              rw [e1, etr, List.count_append, List.count_append, List.count_replicate,
                List.count_eq_zero_of_not_mem (hfresh j (le_refl _)),
                List.count_eq_zero_of_not_mem hnotin, ha]
              simp
          · exact q j (by omega) (by omega)
        · rw [hn, List.range'_succ, List.flatMap_cons, t, etext hb1, hblock,
            List.append_assoc]
    · rw [if_neg hle]
      have hn : min (fuel + 1) (P + 1 - i) = 0 := by omega
      rw [hn]
      refine ⟨⟨[], by simp, fun x hx => absurd hx (by simp)⟩, fun j h1 h2 => by omega, ?_⟩
      simp

/-- A port block is its port-header line followed by the dump. -/
theorem port_block_legacy (M : Mad) (env : Env) (cm i : Nat) :
    port_block M env cm i (legacy_dump M env cm i)
      = port_header M env cm i ++ legacy_dump M env cm i := by
  unfold port_block port_header fmt_s legacy_dump
  rw [cstr_of_no_nul _ (cstr_no_nul _)]

/-- The blocks of all ports, written over the reported ports only. -/
theorem legacy_blocks_reported (M : Mad) (env : Env) (tr : List Call) (l : List Nat) :
    l.flatMap (legacy_block M env env.cap_mask tr)
      = (l.filter (fun i => call_succeeded env tr (Call.port_counters i)
            && decide (legacy_dump M env env.cap_mask i ≠ []))).flatMap
          (fun i => port_header M env env.cap_mask i ++ legacy_dump M env env.cap_mask i) := by
  induction l with
  | nil => rfl
  | cons a l ih =>
    rw [List.flatMap_cons, ih, List.filter_cons]
    unfold legacy_block
    by_cases h : call_succeeded env tr (Call.port_counters a) = true
        ∧ legacy_dump M env env.cap_mask a ≠ []
    · rw [if_pos h, if_pos (by simp [h.1, h.2]), List.flatMap_cons, port_block_legacy]
    · rw [if_neg h, if_neg (by simpa using h), List.nil_append]

/-- A text without `'#'` in front of a text adds no position at which a pattern
that begins with `'#'` starts. -/
theorem occurrences_skip (p l t : List Char) (h : '#' ∉ l) :
    occurrences ('#' :: p) (l ++ t) = occurrences ('#' :: p) t := by
  induction l with
  | nil => rfl
  | cons c l ih =>
    have hc : c ≠ '#' := fun e => h (by rw [e]; exact List.mem_cons_self _ _)
    have hl : '#' ∉ l := fun hm => h (List.mem_cons_of_mem _ hm)
    have hp : ('#' :: p).isPrefixOf (c :: (l ++ t)) = false := by
      simp only [List.isPrefixOf, Bool.and_eq_false_imp, beq_iff_eq]
      intro e
      exact absurd e.symm hc
    rw [List.cons_append, occurrences, hp, ih hl]
    simp

/-- A text that begins with the pattern counts one position more than its
rest, when the pattern holds `'#'` at its first place only. -/
theorem occurrences_hit (p t : List Char) (h : '#' ∉ p) :
    occurrences ('#' :: p) (('#' :: p) ++ t) = 1 + occurrences ('#' :: p) t := by
  have hp : ('#' :: p).isPrefixOf ('#' :: (p ++ t)) = true := by
    rw [List.isPrefixOf_iff_prefix]
    exact List.prefix_append _ _
  rw [List.cons_append, occurrences, hp, occurrences_skip p p t h]
  simp

/-- The string of `header` begins with `"# T"` and holds no other `'#'`. -/
theorem header_line_shape (td : thread_data_t) (env : Env) (hct : ctime_line env.ctime) :
    ∃ tl, header_line td env = '#' :: ' ' :: 'T' :: tl ∧ '#' ∉ tl := by
  obtain ⟨body, hb, _, hbp⟩ := hct
  have hmem : '#' ∉ ("hread ".toList ++ fmt_d td.thread_id ++ ": Querying GUID 0x".toList
      ++ fmt_016x td.guid ++ " with ".toList ++ fmt_d (env.num_ports : Int)
      ++ " ports at ".toList ++ fmt_s env.ctime) := by
    unfold fmt_s
    rw [hb]
    simp only [List.mem_append, not_or]
    exact ⟨⟨⟨⟨⟨⟨⟨by decide, not_hash_plain (fmt_d_plain _)⟩, by decide⟩,
      not_hash_plain (fmt_016x_plain _)⟩, by decide⟩, not_hash_plain (fmt_d_plain _)⟩,
      by decide⟩, not_hash_plain hbp, by decide⟩
  refine ⟨("hread ".toList ++ fmt_d td.thread_id ++ ": Querying GUID 0x".toList
      ++ fmt_016x td.guid ++ " with ".toList ++ fmt_d (env.num_ports : Int)
      ++ " ports at ".toList ++ fmt_s env.ctime).take 252, ?_,
    fun hm => hmem (List.mem_of_mem_take hm)⟩
  unfold header_line header_text
  simp only [List.append_assoc]
  rfl

/-- The number of port-header lines in a sequence of port blocks whose texts
hold no `'#'` of their own. -/
theorem occurrences_blocks (M : Mad) (env : Env) (cm : Nat)
    (hid : '#' ∉ cstr env.portid2str) (hd : ∀ i, '#' ∉ legacy_dump M env cm i)
    (l : List Nat) :
    occurrences "# Port counters: ".toList
        (l.flatMap (fun i => port_header M env cm i ++ legacy_dump M env cm i))
      = l.length := by
  induction l with
  | nil => rfl
  | cons a l ih =>
    have hrest : '#' ∉ (fmt_s env.portid2str ++ " port ".toList ++ fmt_d (a : Int)
        ++ " (CapMask: 0x".toList ++ fmt_02X (M.ntohs cm) ++ ")\n".toList
        ++ legacy_dump M env cm a) := by
      simp only [List.mem_append, not_or]
      exact ⟨⟨⟨⟨⟨⟨hid, by decide⟩, not_hash_plain (fmt_d_plain _)⟩, by decide⟩,
        not_hash_plain (fmt_02X_plain _)⟩, by decide⟩, hd a⟩
    have e : port_header M env cm a ++ legacy_dump M env cm a
        = ('#' :: " Port counters: ".toList) ++ (fmt_s env.portid2str ++ " port ".toList
            ++ fmt_d (a : Int) ++ " (CapMask: 0x".toList ++ fmt_02X (M.ntohs cm)
            ++ ")\n".toList ++ legacy_dump M env cm a) := by
      unfold port_header
      simp only [List.append_assoc]
      rfl
    rw [List.flatMap_cons, e, List.append_assoc]
    show occurrences ('#' :: " Port counters: ".toList) _ = _
    rw [occurrences_hit _ _ (by decide), occurrences_skip _ _ _ hrest]
    have ih2 : occurrences ('#' :: " Port counters: ".toList)
        (l.flatMap (fun i => port_header M env cm i ++ legacy_dump M env cm i))
        = l.length := ih
    rw [ih2, List.length_cons]
    omega

/-- The string of `header` in front of a text adds no port-header line. -/
theorem occurrences_header (td : thread_data_t) (env : Env) (hct : ctime_line env.ctime)
    (t : List Char) :
    occurrences "# Port counters: ".toList (header_line td env ++ t)
      = occurrences "# Port counters: ".toList t := by
  obtain ⟨tl, e, hno⟩ := header_line_shape td env hct
  rw [e]
  show occurrences ('#' :: " Port counters: ".toList) ('#' :: (' ' :: 'T' :: tl ++ t)) = _
  have hp : ('#' :: " Port counters: ".toList).isPrefixOf ('#' :: (' ' :: 'T' :: tl ++ t))
      = false := by
    simp [List.isPrefixOf]
  rw [occurrences, hp]
  have hno2 : '#' ∉ ' ' :: 'T' :: tl := by
    simp only [List.mem_cons, not_or]
    exact ⟨by decide, by decide, hno⟩
  have := occurrences_skip " Port counters: ".toList (' ' :: 'T' :: tl) t hno2
  rw [this]
  simp

/-- C11: in legacy mode (`extended ≠ 1`), for a run that reaches the port loop
(terminal state `done`) and whose buffer does not fill up (`off` never reaches
`MAX_OUTPUT_SIZE`): the result is the string of `header` followed, in ascending
port order, by the port-header line and the dump of exactly the ports whose
counter query succeeded with a dump that is not empty; every port index from
the first to the port count is visited and queried, whatever happened to the
ports before it; a port whose query did not succeed has three attempts in the
trace and no block; and when neither the port id string nor a dump holds a
`'#'` and `ctime` has its libc form, the number of port-header lines of the
result is the number of those ports. -/
theorem legacy_failed_port_skipped (M : Mad) (env : Env) (td : thread_data_t)
    (hx : td.extended ≠ 1)
    (hdone : (query_guid_thread M env td).terminal = Terminal.done)
    (hroom : MAX_OUTPUT_SIZE ∉ (query_guid_thread M env td).offs) :
    (query_guid_thread M env td).blob
        = header_line td env
          ++ (reported_ports M env (query_guid_thread M env td).trace
                (expected_start M env)).flatMap
              (fun i => port_header M env env.cap_mask i ++ legacy_dump M env env.cap_mask i)
    ∧ (query_guid_thread M env td).visited
        = List.range' (expected_start M env) (env.num_ports + 1 - expected_start M env)
    ∧ (∀ i, expected_start M env ≤ i → i ≤ env.num_ports →
        Call.port_counters i ∈ (query_guid_thread M env td).trace
        ∧ (call_succeeded env (query_guid_thread M env td).trace (Call.port_counters i)
              = false →
            (query_guid_thread M env td).trace.count (Call.port_counters i) = 3
            ∧ i ∉ reported_ports M env (query_guid_thread M env td).trace
                (expected_start M env)))
    ∧ (ctime_line env.ctime → '#' ∉ cstr env.portid2str →
        (∀ i, '#' ∉ legacy_dump M env env.cap_mask i) →
        occurrences "# Port counters: ".toList (query_guid_thread M env td).blob
          = (reported_ports M env (query_guid_thread M env td).trace
              (expected_start M env)).length) := by
  rcases run_cases M env td with ⟨what, t, tr, _, ht, e, _, _⟩ | ⟨start, tr, e, hp, hs, hst, _⟩
  · rw [e] at hdone
    exact absurd hdone ht
  · rw [e] at hroom ⊢
    subst hs
    obtain ⟨_, _, _, n, hv, _, hn, _⟩ := port_stage_spec M env td (expected_start M env) tr
    have hbroke : (port_stage M env td (expected_start M env) tr).broke = false := by
      cases hb : (port_stage M env td (expected_start M env) tr).broke
      · rfl
      · exact absurd ((port_stage_size M env td (expected_start M env) tr).2.2.2.2.1.1 hb) hroom
    have hfresh : ∀ j, expected_start M env ≤ j → Call.port_counters j ∉ tr := by
      intro j _ hm
      have := hst _ hm
      simp only [Call.stage] at this
      omega
    obtain ⟨_, q, t⟩ := legacy_loop_text M env td env.cap_mask env.cap_mask2 env.num_ports
      (header_line td env) hx (env.num_ports + 1 - expected_start M env)
      (expected_start M env) _ (loop_entry_inv td env tr) rfl hfresh hbroke
    have hstored := header_stored td.output_buffer (header_line td env)
      (header_line_no_nul td env) (header_line_length td env).2
    rw [Nat.min_self, hstored, legacy_blocks_reported] at t
    rw [Nat.min_self] at q
    have hblob : (port_stage M env td (expected_start M env) tr).blob
        = header_line td env
          ++ (reported_ports M env (port_stage M env td (expected_start M env) tr).trace
                (expected_start M env)).flatMap
              (fun i => port_header M env env.cap_mask i
                ++ legacy_dump M env env.cap_mask i) := by
      unfold Run.blob reported_ports port_stage strlen
      dsimp only
      rw [Int.toNat_ofNat, ← cstr_eq_take]
      exact t
    refine ⟨hblob, ?_, ?_, ?_⟩
    · rw [hv, hn hbroke]
    · intro i h1 h2
      obtain ⟨qa, qb⟩ := q i h1 (by omega)
      refine ⟨qa, fun hf => ⟨qb hf, ?_⟩⟩
      intro hm
      unfold reported_ports at hm
      rw [List.mem_filter] at hm
      have hf2 : call_succeeded env (port_stage M env td (expected_start M env) tr).trace
          (Call.port_counters i) = false := hf
      rw [hf2] at hm
      exact absurd hm.2 (by simp)
    · intro hct hid hd
      rw [hblob, occurrences_header td env hct, occurrences_blocks M env env.cap_mask hid hd]

/-- Witness of C11: a two-port channel adapter in legacy mode. When the counter
query of port 1 fails three times, the result holds the block of port 2 only,
after four port-counter calls; when every call succeeds, the result holds two
port-header lines. -/
theorem legacy_failed_port_skipped_witness :
    (td_first 0).extended ≠ 1
    ∧ (query_guid_thread mad0 env_port1_fails (td_first 0)).terminal = Terminal.done
    ∧ MAX_OUTPUT_SIZE ∉ (query_guid_thread mad0 env_port1_fails (td_first 0)).offs
    ∧ (query_guid_thread mad0 env_port1_fails (td_first 0)).trace
        = [Call.resolve, Call.node_info, Call.class_port_info, Call.port_counters 1,
            Call.port_counters 1, Call.port_counters 1, Call.port_counters 2]
    ∧ (query_guid_thread mad0 env_port1_fails (td_first 0)).blob
        = header_line (td_first 0) env_port1_fails
          ++ (port_header mad0 env_port1_fails 0 2 ++ List.replicate 40 'A')
    ∧ occurrences "# Port counters: ".toList
        (query_guid_thread mad0 env_port1_fails (td_first 0)).blob = 1
    ∧ (query_guid_thread mad0 (env_ca 2 40) (td_first 0)).terminal = Terminal.done
    ∧ MAX_OUTPUT_SIZE ∉ (query_guid_thread mad0 (env_ca 2 40) (td_first 0)).offs
    ∧ occurrences "# Port counters: ".toList
        (query_guid_thread mad0 (env_ca 2 40) (td_first 0)).blob = 2 := by
  have hct : ctime_line "Wed Jun 30 21:49:08 1993\n".toList :=
    ⟨"Wed Jun 30 21:49:08 1993".toList, by decide!, by decide, by unfold plain NUL; decide⟩
  have hd1 : (query_guid_thread mad0 env_port1_fails (td_first 0)).terminal
      = Terminal.done := by decide!
  have hr1 : MAX_OUTPUT_SIZE ∉ (query_guid_thread mad0 env_port1_fails (td_first 0)).offs := by
    decide!
  have hd2 : (query_guid_thread mad0 (env_ca 2 40) (td_first 0)).terminal
      = Terminal.done := by decide!
  have hr2 : MAX_OUTPUT_SIZE ∉ (query_guid_thread mad0 (env_ca 2 40) (td_first 0)).offs := by
    decide!
  have hp1 : reported_ports mad0 env_port1_fails
      (query_guid_thread mad0 env_port1_fails (td_first 0)).trace
      (expected_start mad0 env_port1_fails) = [2] := by decide!
  have hp2 : reported_ports mad0 (env_ca 2 40)
      (query_guid_thread mad0 (env_ca 2 40) (td_first 0)).trace
      (expected_start mad0 (env_ca 2 40)) = [1, 2] := by decide!
  have hid : '#' ∉ cstr "Lid 1".toList := by decide!
  have hdump : ∀ (M : Mad) (env : Env) (i : Nat),
      env.mad_dump_perfcounters = (fun _ _ => List.replicate 40 'A') →
      '#' ∉ legacy_dump M env env.cap_mask i := by
    intro M env i h
    unfold legacy_dump
    rw [h]
    show '#' ∉ cstr (List.replicate 40 'A')
    decide!
  have w1 := legacy_failed_port_skipped mad0 env_port1_fails (td_first 0) (by decide) hd1 hr1
  have w2 := legacy_failed_port_skipped mad0 (env_ca 2 40) (td_first 0) (by decide) hd2 hr2
  rw [hp1] at w1
  rw [hp2] at w2
  refine ⟨by decide, hd1, hr1, by decide!, ?_, ?_, hd2, hr2, ?_⟩
  · rw [w1.1]
    have : legacy_dump mad0 env_port1_fails env_port1_fails.cap_mask 2
        = List.replicate 40 'A' := by decide!
    rw [List.flatMap_cons, List.flatMap_nil, List.append_nil, this]
    rfl
  · exact w1.2.2.2 hct hid (fun i => hdump _ _ i rfl)
  · exact w2.2.2.2 hct hid (fun i => hdump _ _ i rfl)

end Pperfquery
